import Mathlib

/-! # Google Generative AI provider: request/response translation

A shallow embedding of the translation logic of `@ai-sdk/google`
(`dist/index.mjs`): the message translator, the JSON-Schema translator, the
tool / tool-choice translator, the finish-reason mapper, the response mapping
of `doGenerate`, the transform / flush pair of `doStream`, `getModelPath` and
the `doEmbed` method of the embedding model.

JavaScript values that the code only passes through (tool arguments, tool
results, `const` and `enum` entries) are values of `JSValue`.  Objects that the
code builds key by key (the translated schema) are `JSValue.object` association
lists in insertion order, so that the presence of a key and the value
`undefined` stay distinct, as they are for `Object.assign`.
External collaborators (`convertUint8ArrayToBase64`, `JSON.stringify`,
`generateId`, `postJsonToApi`) are parameters of the functions that call them.
-/

set_option autoImplicit false

namespace GoogleAI

/-! ## JavaScript values -/

/-- A JavaScript value as far as this module inspects it. -/
inductive JSValue where
  | undefined
  | null
  | bool (b : Bool)
  | number (n : Int)
  | string (s : String)
  | array (xs : List JSValue)
  | object (kvs : List (String × JSValue))

/-- Entries of a JavaScript object, in insertion order. -/
abbrev JSObject := List (String × JSValue)

/-- Assignment `obj[key] = value`: an existing key keeps its position and gets
the new value, a new key is appended. -/
def JSObject.set : JSObject → String → JSValue → JSObject
  | [], key, value => [(key, value)]
  | (k, v) :: rest, key, value =>
    if k = key then (k, value) :: rest else (k, v) :: JSObject.set rest key value

/-- Property read `obj[key]`; `none` when the object has no such key. -/
def JSObject.get? : JSObject → String → Option JSValue
  | [], _ => none
  | (k, v) :: rest, key => if k = key then some v else JSObject.get? rest key

/-- Own keys of an object (`Object.keys`). -/
def JSObject.keys (obj : JSObject) : List String := obj.map Prod.fst

/-- The effect of `Object.assign(target, source)`. -/
def JSObject.assign (target source : JSObject) : JSObject :=
  source.foldl (fun acc kv => JSObject.set acc kv.1 kv.2) target

/-- Substring test `s.includes(sub)`. -/
def jsIncludes (s sub : String) : Bool :=
  s.data.tails.any (fun t => sub.data.isPrefixOf t)

/-! ## Message translator (`convert-to-google-generative-ai-messages.ts`) -/

/-- The error class `UnsupportedFunctionalityError`. -/
structure UnsupportedFunctionalityError where
  functionality : String
  deriving DecidableEq, Repr

/-- Payload of an image part: a `URL` or a `Uint8Array`. -/
inductive ImageData where
  | url (href : String)
  | bytes (data : List Nat)

/-- Payload of a file part: a `URL` or base64 text. -/
inductive FileData where
  | url (href : String)
  | base64 (data : String)

/-- Content part of a user message. -/
inductive UserPart where
  | text (text : String)
  | image (image : ImageData) (mimeType : Option String)
  | file (data : FileData) (mimeType : String)

/-- Content part of an assistant message. -/
inductive AssistantPart where
  | text (text : String)
  | file (data : FileData) (mimeType : String)
  | toolCall (toolCallId : String) (toolName : String) (args : JSValue)

/-- Content part of a tool message. -/
structure ToolResultPart where
  toolCallId : String
  toolName : String
  result : JSValue

/-- One message of the provider-agnostic prompt. -/
inductive Message where
  | system (content : String)
  | user (content : List UserPart)
  | assistant (content : List AssistantPart)
  | tool (content : List ToolResultPart)

/-- Whether the message has role `system`. -/
def Message.isSystem : Message → Bool
  | .system _ => true
  | _ => false

/-- The object `{ name, content }` inside a function response. -/
structure FunctionResponseBody where
  name : String
  content : JSValue

/-- One part of a vendor content. -/
inductive GooglePart where
  | text (text : String)
  | inlineData (mimeType : String) (data : String)
  | fileData (mimeType : String) (fileUri : String)
  | functionCall (name : String) (args : JSValue)
  | functionResponse (name : String) (response : FunctionResponseBody)

/-- One entry of the vendor `contents` array. -/
structure GoogleContent where
  role : String
  parts : List GooglePart

/-- The separate system-instruction block. -/
structure SystemInstruction where
  parts : List GooglePart

/-- Result of the message translator. -/
structure GooglePrompt where
  systemInstruction : Option SystemInstruction
  contents : List GoogleContent

/-- The three locals of the translator's loop. -/
structure ConvertState where
  systemInstructionParts : List GooglePart
  contents : List GoogleContent
  systemMessagesAllowed : Bool

/-- Body of the inner `switch (part.type)` of a user message. -/
def convertUserPart (convertUint8ArrayToBase64 : List Nat → String) : UserPart → GooglePart
  | .text text => .text text
  | .image (.url href) mimeType => .fileData (mimeType.getD "image/jpeg") href
  | .image (.bytes data) mimeType =>
    .inlineData (mimeType.getD "image/jpeg") (convertUint8ArrayToBase64 data)
  | .file (.url href) mimeType => .fileData mimeType href
  | .file (.base64 data) mimeType => .inlineData mimeType data

/-- Callback of `content.map` of an assistant message; `none` is `undefined`. -/
def convertAssistantPart : AssistantPart → Except UnsupportedFunctionalityError (Option GooglePart)
  | .text text => .ok (if text.length = 0 then none else some (.text text))
  | .file data mimeType =>
    if mimeType ≠ "image/png" then
      .error ⟨"Only PNG images are supported in assistant messages"⟩
    else
      match data with
      | .url _ => .error ⟨"File data URLs in assistant messages are not supported"⟩
      | .base64 d => .ok (some (.inlineData mimeType d))
  | .toolCall _ toolName args => .ok (some (.functionCall toolName args))

/-- The `content.map(...)` of an assistant message: parts are visited in order
and the first throw ends the call. -/
def mapAssistantParts :
    List AssistantPart → Except UnsupportedFunctionalityError (List (Option GooglePart))
  | [] => .ok []
  | p :: ps =>
    match convertAssistantPart p with
    | .error e => .error e
    | .ok r =>
      match mapAssistantParts ps with
      | .error e => .error e
      | .ok rs => .ok (r :: rs)

/-- Callback of `content.map` of a tool message. -/
def convertToolResultPart (part : ToolResultPart) : GooglePart :=
  .functionResponse part.toolName ⟨part.toolName, part.result⟩

/-- One iteration of `for (const { role, content } of prompt)`. -/
def convertMessage (convertUint8ArrayToBase64 : List Nat → String) (st : ConvertState) :
    Message → Except UnsupportedFunctionalityError ConvertState
  | .system content =>
    if !st.systemMessagesAllowed then
      .error ⟨"system messages are only supported at the beginning of the conversation"⟩
    else
      .ok { st with systemInstructionParts := st.systemInstructionParts ++ [.text content] }
  | .user content =>
    .ok { st with
      systemMessagesAllowed := false
      contents := st.contents ++ [⟨"user", content.map (convertUserPart convertUint8ArrayToBase64)⟩] }
  | .assistant content =>
    match mapAssistantParts content with
    | .error e => .error e
    | .ok parts =>
      .ok { st with
        systemMessagesAllowed := false
        contents := st.contents ++ [⟨"model", parts.filterMap id⟩] }
  | .tool content =>
    .ok { st with
      systemMessagesAllowed := false
      contents := st.contents ++ [⟨"user", content.map convertToolResultPart⟩] }

/-- The whole `for` loop over the prompt. -/
def convertLoop (convertUint8ArrayToBase64 : List Nat → String) :
    ConvertState → List Message → Except UnsupportedFunctionalityError ConvertState
  | st, [] => .ok st
  | st, m :: ms =>
    match convertMessage convertUint8ArrayToBase64 st m with
    | .error e => .error e
    | .ok st1 => convertLoop convertUint8ArrayToBase64 st1 ms

/-- The function `convertToGoogleGenerativeAIMessages`. -/
def convertToGoogleGenerativeAIMessages (convertUint8ArrayToBase64 : List Nat → String)
    (prompt : List Message) : Except UnsupportedFunctionalityError GooglePrompt :=
  match convertLoop convertUint8ArrayToBase64 ⟨[], [], true⟩ prompt with
  | .error e => .error e
  | .ok st =>
    .ok {
      systemInstruction :=
        if st.systemInstructionParts.length > 0 then some ⟨st.systemInstructionParts⟩ else none
      contents := st.contents }

/-! ## Finish-reason mapper (`map-google-generative-ai-finish-reason.ts`) -/

/-- The function `mapGoogleGenerativeAIFinishReason`; `none` is an absent
(`null` or `undefined`) vendor reason. -/
def mapGoogleGenerativeAIFinishReason (finishReason : Option String) (hasToolCalls : Bool) :
    String :=
  match finishReason with
  | none => "unknown"
  | some r =>
    if r = "STOP" then (if hasToolCalls then "tool-calls" else "stop")
    else if r = "MAX_TOKENS" then "length"
    else if r = "IMAGE_SAFETY" then "content-filter"
    else if r = "RECITATION" then "content-filter"
    else if r = "SAFETY" then "content-filter"
    else if r = "BLOCKLIST" then "content-filter"
    else if r = "PROHIBITED_CONTENT" then "content-filter"
    else if r = "SPII" then "content-filter"
    else if r = "FINISH_REASON_UNSPECIFIED" then "other"
    else if r = "OTHER" then "other"
    else if r = "MALFORMED_FUNCTION_CALL" then "error"
    else "unknown"

/-! ## Schema translator (`convert-json-schema-to-openapi-schema.ts`) -/

/-- The `type` keyword: one type name or an array of type names. -/
inductive SchemaType where
  | single (name : String)
  | multiple (names : List String)

/-- A keyword that holds either one sub-schema or an array of them (`items`). -/
inductive OneOrMany (α : Type) where
  | one (a : α)
  | many (as : List α)

/-- A `JSONSchema7Definition`: the boolean shorthand or a schema object.  The
schema object lists the twelve keywords the translator destructures; `others`
holds every further keyword of the input object. -/
inductive JSONSchema7Definition where
  | boolean (b : Bool)
  | schema (type : Option SchemaType) (description : Option String)
      (required : Option (List String))
      (properties : Option (List (String × JSONSchema7Definition)))
      (items : Option (OneOrMany JSONSchema7Definition))
      (allOf : Option (List JSONSchema7Definition))
      (anyOf : Option (List JSONSchema7Definition))
      (oneOf : Option (List JSONSchema7Definition))
      (format : Option String) (constValue : Option JSValue) (minLength : Option Int)
      (enumValues : Option (List JSValue)) (others : JSObject)

/-- The function `isEmptyObjectSchema`. -/
def isEmptyObjectSchema : JSONSchema7Definition → Bool
  | .boolean _ => false
  | .schema type _ _ properties _ _ _ _ _ _ _ _ _ =>
    (match type with
      | some (.single t) => decide (t = "object")
      | _ => false) &&
    (match properties with
      | none => true
      | some ps => decide (ps.length = 0))

/-- The predicate of the `anyOf.some` / `anyOf.filter` callbacks:
`typeof schema === "object" && schema?.type === "null"`. -/
def isNullTypeSchema : JSONSchema7Definition → Bool
  | .boolean _ => false
  | .schema type _ _ _ _ _ _ _ _ _ _ _ _ =>
    match type with
    | some (.single t) => decide (t = "null")
    | _ => false

/-- Element `xs[0]` of an array of type names, `undefined` when there is none. -/
def firstTypeName : List String → JSValue
  | [] => .undefined
  | t :: _ => .string t

/-- Element `xs[0]` of an array of values, `undefined` when there is none. -/
def firstValue : List JSValue → JSValue
  | [] => .undefined
  | v :: _ => v

/-- The statement `if (description) result.description = description`. -/
def withDescription (result : JSObject) : Option String → JSObject
  | some d => if d ≠ "" then JSObject.set result "description" (.string d) else result
  | none => result

/-- The statement `if (required) result.required = required`. -/
def withRequired (result : JSObject) : Option (List String) → JSObject
  | some r => JSObject.set result "required" (.array (r.map JSValue.string))
  | none => result

/-- The statement `if (format) result.format = format`. -/
def withFormat (result : JSObject) : Option String → JSObject
  | some f => if f ≠ "" then JSObject.set result "format" (.string f) else result
  | none => result

/-- The statement `if (constValue !== void 0) result.enum = [constValue]`. -/
def withConst (result : JSObject) : Option JSValue → JSObject
  | none => result
  | some .undefined => result
  | some v => JSObject.set result "enum" (.array [v])

/-- The block `if (type) ...`. -/
def withType (result : JSObject) : Option SchemaType → JSObject
  | none => result
  | some (.multiple ts) =>
    if ts.contains "null" then
      JSObject.set
        (JSObject.set result "type" (firstTypeName (ts.filter (fun t => t ≠ "null"))))
        "nullable" (.bool true)
    else JSObject.set result "type" (.array (ts.map JSValue.string))
  | some (.single t) =>
    if t = "" then result
    else if t = "null" then JSObject.set result "type" (.string "null")
    else JSObject.set result "type" (.string t)

/-- The statement `if (enumValues !== void 0) result.enum = enumValues`. -/
def withEnum (result : JSObject) : Option (List JSValue) → JSObject
  | some vs => JSObject.set result "enum" (.array vs)
  | none => result

/-- The assignment `acc[key] = value` of the `reduce` callback, on the own
properties of `acc`.  For the key `__proto__` the assignment reaches the
accessor inherited from `Object.prototype`: it replaces the prototype of `acc`
when the value is an object and does nothing otherwise, and in both cases
creates no own key.  Every other key becomes an own key. -/
def assignEntry (acc : JSObject) (key : String) (value : JSValue) : JSObject :=
  if key = "__proto__" then acc else JSObject.set acc key value

/-- The block `if (properties != null) ...`, given the translated entries: the
`reduce` assigns them one by one to an empty object. -/
def withProperties (result : JSObject) : Option (List (String × JSValue)) → JSObject
  | some ps =>
    JSObject.set result "properties"
      (.object (ps.foldl (fun acc kv => assignEntry acc kv.1 kv.2) []))
  | none => result

/-- The statement `if (items) result.items = ...`, given the translated value. -/
def withItems (result : JSObject) : Option JSValue → JSObject
  | some v => JSObject.set result "items" v
  | none => result

/-- The statement `if (allOf) result.allOf = ...`, given the mapped array. -/
def withAllOf (result : JSObject) : Option (List JSValue) → JSObject
  | some xs => JSObject.set result "allOf" (.array xs)
  | none => result

/-- The block `if (anyOf) ...`, given the translations `anyOfNonNull` of the
branches that are not null-typed and `anyOfAll` of all branches. -/
def withAnyOf (result : JSObject) (anyOf : Option (List JSONSchema7Definition))
    (anyOfNonNull anyOfAll : List JSValue) : JSObject :=
  match anyOf with
  | none => result
  | some xs =>
    if xs.any isNullTypeSchema then
      if (xs.filter (fun s => !isNullTypeSchema s)).length = 1 then
        match firstValue anyOfNonNull with
        | .object converted =>
          JSObject.assign (JSObject.set result "nullable" (.bool true)) converted
        | _ => result
      else
        JSObject.set (JSObject.set result "anyOf" (.array anyOfNonNull)) "nullable" (.bool true)
    else JSObject.set result "anyOf" (.array anyOfAll)

/-- The statement `if (oneOf) result.oneOf = ...`, given the mapped array. -/
def withOneOf (result : JSObject) : Option (List JSValue) → JSObject
  | some xs => JSObject.set result "oneOf" (.array xs)
  | none => result

/-- The statement `if (minLength !== void 0) result.minLength = minLength`. -/
def withMinLength (result : JSObject) : Option Int → JSObject
  | some n => JSObject.set result "minLength" (.number n)
  | none => result

/-- The statements of `convertJSONSchemaToOpenAPISchema` from `const result = {}`
to `return result`, in source order.  The recursive calls are made by the
caller: `properties` holds the translated entries, `items` the value assigned to
`result.items` when the input `items` is truthy, `allOf` and `oneOf` the mapped
arrays, `anyOfNonNull` the translations of the `anyOf` branches that are not
null-typed and `anyOfAll` the translations of all `anyOf` branches. -/
def buildResult (type : Option SchemaType) (description : Option String)
    (required : Option (List String)) (format : Option String) (constValue : Option JSValue)
    (minLength : Option Int) (enumValues : Option (List JSValue))
    (properties : Option (List (String × JSValue))) (items : Option JSValue)
    (allOf : Option (List JSValue)) (anyOf : Option (List JSONSchema7Definition))
    (anyOfNonNull anyOfAll : List JSValue) (oneOf : Option (List JSValue)) : JSObject :=
  let result : JSObject := []
  let result := withDescription result description
  let result := withRequired result required
  let result := withFormat result format
  let result := withConst result constValue
  let result := withType result type
  let result := withEnum result enumValues
  let result := withProperties result properties
  let result := withItems result items
  let result := withAllOf result allOf
  let result := withAnyOf result anyOf anyOfNonNull anyOfAll
  let result := withOneOf result oneOf
  let result := withMinLength result minLength
  result

mutual
/-- The function `convertJSONSchemaToOpenAPISchema`.  The value `undefined` is
`JSValue.undefined`; every other result is a `JSValue.object`. -/
def convertJSONSchemaToOpenAPISchema (jsonSchema : JSONSchema7Definition) : JSValue :=
  if isEmptyObjectSchema jsonSchema then .undefined
  else
    match jsonSchema with
    | .boolean _ => .object [("type", .string "boolean"), ("properties", .object [])]
    | .schema type description required properties items allOf anyOf oneOf format constValue
        minLength enumValues _ =>
      .object (buildResult type description required format constValue minLength enumValues
        (match properties with
          | some ps => some (convertProperties ps)
          | none => none)
        (match items with
          | none => none
          | some (.one (.boolean false)) => none
          | some (.one s) => some (convertJSONSchemaToOpenAPISchema s)
          | some (.many xs) => some (.array (convertSchemas xs)))
        (match allOf with
          | some xs => some (convertSchemas xs)
          | none => none)
        anyOf
        (match anyOf with
          | some xs => convertNonNullSchemas xs
          | none => [])
        (match anyOf with
          | some xs => convertSchemas xs
          | none => [])
        (match oneOf with
          | some xs => some (convertSchemas xs)
          | none => none))
/-- The call `xs.map(convertJSONSchemaToOpenAPISchema)`. -/
def convertSchemas : List JSONSchema7Definition → List JSValue
  | [] => []
  | s :: rest => convertJSONSchemaToOpenAPISchema s :: convertSchemas rest
/-- The call `nonNullSchemas.map(convertJSONSchemaToOpenAPISchema)` where
`nonNullSchemas` is `xs` filtered by the negation of `isNullTypeSchema`. -/
def convertNonNullSchemas : List JSONSchema7Definition → List JSValue
  | [] => []
  | s :: rest =>
    if isNullTypeSchema s then convertNonNullSchemas rest
    else convertJSONSchemaToOpenAPISchema s :: convertNonNullSchemas rest
/-- The entries `[key, convertJSONSchemaToOpenAPISchema(value)]` of `properties`. -/
def convertProperties : List (String × JSONSchema7Definition) → List (String × JSValue)
  | [] => []
  | (key, value) :: rest => (key, convertJSONSchemaToOpenAPISchema value) :: convertProperties rest
end

/-- The value assigned to `result.items`, `none` when the input `items` is
falsy (absent, or the boolean schema `false`). -/
def convertItems : Option (OneOrMany JSONSchema7Definition) → Option JSValue
  | none => none
  | some (.one (.boolean false)) => none
  | some (.one s) => some (convertJSONSchemaToOpenAPISchema s)
  | some (.many xs) => some (.array (convertSchemas xs))

/-! ## Tool and tool-choice translator (`google-prepare-tools.ts`) -/

/-- A tool supplied by the caller. -/
inductive Tool where
  | function (name : String) (description : Option String) (parameters : JSONSchema7Definition)
  | providerDefined (id : String) (name : String) (args : JSValue)

/-- The tool-choice directive; `other tag` is a directive whose `type` is none
of `auto`, `none`, `required`, `tool`. -/
inductive ToolChoice where
  | auto
  | none
  | required
  | tool (toolName : String)
  | other (type : String)

/-- The fields of `mode` that `prepareTools` reads. -/
structure RegularMode where
  tools : Option (List Tool)
  toolChoice : Option ToolChoice

/-- The setting `dynamicRetrievalConfig`. -/
structure DynamicRetrievalConfig where
  mode : Option String
  dynamicThreshold : Option JSValue

/-- One entry of `functionDeclarations`. -/
structure FunctionDeclaration where
  name : String
  description : String
  parameters : JSValue

/-- The `tools` value sent to the vendor. -/
inductive GoogleTools where
  | functionDeclarations (declarations : List FunctionDeclaration)
  | googleSearch
  | googleSearchRetrieval (dynamicRetrievalConfig : Option DynamicRetrievalConfig)

/-- The object `functionCallingConfig`. -/
structure FunctionCallingConfig where
  mode : String
  allowedFunctionNames : Option (List String)

/-- The object `toolConfig`. -/
structure ToolConfig where
  functionCallingConfig : FunctionCallingConfig

/-- A call warning. -/
inductive CallWarning where
  | unsupportedTool (tool : Tool)

/-- Result of `prepareTools`. -/
structure PreparedTools where
  tools : Option GoogleTools
  toolConfig : Option ToolConfig
  toolWarnings : List CallWarning

/-- The loop `for (const tool of tools)`: the state is the pair of
`functionDeclarations` and `toolWarnings`. -/
def prepareToolsLoop :
    List FunctionDeclaration × List CallWarning → List Tool →
      List FunctionDeclaration × List CallWarning
  | acc, [] => acc
  | (declarations, warnings), tool :: rest =>
    match tool with
    | .providerDefined id name args =>
      prepareToolsLoop (declarations, warnings ++ [.unsupportedTool (.providerDefined id name args)])
        rest
    | .function name description parameters =>
      prepareToolsLoop
        (declarations ++
          [⟨name, description.getD "", convertJSONSchemaToOpenAPISchema parameters⟩], warnings)
        rest

/-- The function `prepareTools`. -/
def prepareTools (mode : RegularMode) (useSearchGrounding : Bool)
    (dynamicRetrievalConfig : Option DynamicRetrievalConfig) (modelId : String) :
    Except UnsupportedFunctionalityError PreparedTools :=
  let tools : Option (List Tool) :=
    match mode.tools with
    | some ts => if ts.length = 0 then none else some ts
    | none => none
  let toolWarnings : List CallWarning := []
  let isGemini2 := jsIncludes modelId "gemini-2"
  let supportsDynamicRetrieval :=
    jsIncludes modelId "gemini-1.5-flash" && !jsIncludes modelId "-8b"
  if useSearchGrounding then
    .ok {
      tools :=
        some (if isGemini2 then .googleSearch
          else .googleSearchRetrieval
            (if !supportsDynamicRetrieval || dynamicRetrievalConfig.isNone then none
              else dynamicRetrievalConfig))
      toolConfig := none
      toolWarnings := toolWarnings }
  else
    match tools with
    | none => .ok { tools := none, toolConfig := none, toolWarnings := toolWarnings }
    | some ts =>
      let (functionDeclarations, toolWarnings) := prepareToolsLoop ([], toolWarnings) ts
      match mode.toolChoice with
      | none =>
        .ok {
          tools := some (.functionDeclarations functionDeclarations)
          toolConfig := none
          toolWarnings := toolWarnings }
      | some .auto =>
        .ok {
          tools := some (.functionDeclarations functionDeclarations)
          toolConfig := some ⟨⟨"AUTO", none⟩⟩
          toolWarnings := toolWarnings }
      | some .none =>
        .ok {
          tools := some (.functionDeclarations functionDeclarations)
          toolConfig := some ⟨⟨"NONE", none⟩⟩
          toolWarnings := toolWarnings }
      | some .required =>
        .ok {
          tools := some (.functionDeclarations functionDeclarations)
          toolConfig := some ⟨⟨"ANY", none⟩⟩
          toolWarnings := toolWarnings }
      | some (.tool toolName) =>
        .ok {
          tools := some (.functionDeclarations functionDeclarations)
          toolConfig := some ⟨⟨"ANY", some [toolName]⟩⟩
          toolWarnings := toolWarnings }
      | some (.other type) =>
        .error ⟨"Unsupported tool choice type: " ++ type⟩

/-! ## Response mapping (`google-generative-ai-language-model.ts`) -/

/-- One part of a vendor response content, after validation by `contentSchema`. -/
inductive ResponsePart where
  | text (text : String)
  | functionCall (name : String) (args : JSValue)
  | inlineData (mimeType : String) (data : String)

/-- The field `parts` of a response content: the key is absent, holds `null`,
or holds an array. -/
inductive PartsField where
  | absent
  | null
  | present (parts : List ResponsePart)

/-- The value of `content.parts`, `none` for `undefined` and `null`. -/
def PartsField.value : PartsField → Option (List ResponsePart)
  | .absent => none
  | .null => none
  | .present parts => some parts

/-- The field `content` of a candidate: absent (`null` or `undefined`), the
empty object, or a content object. -/
inductive CandidateContent where
  | absent
  | empty
  | content (role : String) (parts : PartsField)

/-- A web reference of a grounding chunk. -/
structure WebReference where
  uri : String
  title : String

/-- One grounding chunk. -/
structure GroundingChunk where
  web : Option WebReference
  retrievedContext : Option WebReference

/-- Grounding metadata; `rest` holds the fields the module only forwards. -/
structure GroundingMetadata where
  groundingChunks : Option (List GroundingChunk)
  rest : JSValue

/-- One candidate of a response or of a stream chunk. -/
structure Candidate where
  content : CandidateContent
  finishReason : Option String
  safetyRatings : Option (List JSValue)
  groundingMetadata : Option GroundingMetadata

/-- The object `usageMetadata`. -/
structure UsageMetadata where
  promptTokenCount : Option Int
  candidatesTokenCount : Option Int
  totalTokenCount : Option Int

/-- A token count of the generic result: a number or the sentinel `NaN`. -/
inductive TokenCount where
  | nan
  | count (n : Int)
  deriving DecidableEq, Repr

/-- The expression `x != null ? x : NaN`. -/
def TokenCount.ofNullish : Option Int → TokenCount
  | some n => .count n
  | none => .nan

/-- The generic usage record. -/
structure Usage where
  promptTokens : TokenCount
  completionTokens : TokenCount
  deriving DecidableEq, Repr

/-- The object `providerMetadata.google`; `none` in a field is `null`. -/
structure ProviderMetadata where
  groundingMetadata : Option GroundingMetadata
  safetyRatings : Option (List JSValue)

/-- A generic tool call (`toolCallType` is always `function`). -/
structure ToolCall where
  toolCallId : String
  toolName : String
  args : String

/-- A generic source (`sourceType` is always `url`). -/
structure Source where
  id : String
  url : String
  title : String

/-- A generic file output. -/
structure GeneratedFile where
  data : String
  mimeType : String

/-- The test `"functionCall" in part`. -/
def ResponsePart.isFunctionCall : ResponsePart → Bool
  | .functionCall _ _ => true
  | _ => false

/-- The test `"text" in part`. -/
def ResponsePart.isText : ResponsePart → Bool
  | .text _ => true
  | _ => false

/-- The test `"inlineData" in part`. -/
def ResponsePart.isInlineData : ResponsePart → Bool
  | .inlineData _ _ => true
  | _ => false

/-- The filter on `"functionCall" in part` followed by the map to tool calls:
the k-th function-call part gets the id of the k-th call of `generateId`,
counted from `next`. -/
def mapToolCalls (stringify : JSValue → String) (generateId : Nat → String) :
    Nat → List ResponsePart → List ToolCall
  | _, [] => []
  | next, .functionCall name args :: rest =>
    ⟨generateId next, name, stringify args⟩ :: mapToolCalls stringify generateId (next + 1) rest
  | next, _ :: rest => mapToolCalls stringify generateId next rest

/-- The function `getToolCallsFromParts`.  `generateId k` is the value of the
k-th call of the id generator and `next` the number of calls made so far; the
result carries the number of calls made afterwards. -/
def getToolCallsFromParts (stringify : JSValue → String) (generateId : Nat → String)
    (next : Nat) (parts : Option (List ResponsePart)) : Option (List ToolCall) × Nat :=
  match parts with
  | none => (none, next)
  | some ps =>
    let functionCallParts := ps.filter ResponsePart.isFunctionCall
    if functionCallParts.length = 0 then (none, next)
    else
      (some (mapToolCalls stringify generateId next ps), next + functionCallParts.length)

/-- The callback `(part) => part.text` on the parts kept by the filter. -/
def ResponsePart.textOf : ResponsePart → String
  | .text t => t
  | _ => ""

/-- The function `getTextFromParts`. -/
def getTextFromParts (parts : Option (List ResponsePart)) : Option String :=
  match parts with
  | none => none
  | some ps =>
    let textParts := ps.filter ResponsePart.isText
    if textParts.length = 0 then none
    else some (String.join (textParts.map ResponsePart.textOf))

/-- The function `getInlineDataParts`. -/
def getInlineDataParts (parts : Option (List ResponsePart)) : Option (List ResponsePart) :=
  match parts with
  | none => none
  | some ps => some (ps.filter ResponsePart.isInlineData)

/-- The map over the grounding chunks that carry a web reference. -/
def mapSources (generateId : Nat → String) : Nat → List GroundingChunk → List Source
  | _, [] => []
  | next, chunk :: rest =>
    match chunk.web with
    | some web => ⟨generateId next, web.uri, web.title⟩ :: mapSources generateId (next + 1) rest
    | none => mapSources generateId next rest

/-- The function `extractSources`, with the id counter as in
`getToolCallsFromParts`. -/
def extractSources (generateId : Nat → String) (next : Nat)
    (groundingMetadata : Option GroundingMetadata) : Option (List Source) × Nat :=
  match groundingMetadata with
  | none => (none, next)
  | some gm =>
    match gm.groundingChunks with
    | none => (none, next)
    | some chunks =>
      (some (mapSources generateId next chunks),
        next + (chunks.filter (fun c => c.web.isSome)).length)

/-- The callback that maps an inline-data part to a generic file. -/
def toGeneratedFile : ResponsePart → Option GeneratedFile
  | .inlineData mimeType data => some ⟨data, mimeType⟩
  | _ => none

/-- The fields of a validated response that `doGenerate` reads. -/
structure GenerateResponse where
  candidates : List Candidate
  usageMetadata : Option UsageMetadata

/-- The fields of the result of `doGenerate` that are computed from the
response (the others echo the request). -/
structure GenerateResult where
  text : Option String
  files : Option (List GeneratedFile)
  toolCalls : Option (List ToolCall)
  finishReason : String
  usage : Usage
  providerMetadata : ProviderMetadata
  sources : Option (List Source)

/-- The expression that `doGenerate` binds to `parts`. -/
def candidateParts : CandidateContent → Option (List ResponsePart)
  | .absent => some []
  | .empty => some []
  | .content _ .absent => some []
  | .content _ .null => none
  | .content _ (.present ps) => some ps

/-- The usage record built from `usageMetadata`. -/
def usageOf (usageMetadata : Option UsageMetadata) : Usage :=
  match usageMetadata with
  | none => ⟨.nan, .nan⟩
  | some u =>
    ⟨TokenCount.ofNullish u.promptTokenCount, TokenCount.ofNullish u.candidatesTokenCount⟩

/-- The result mapping of `doGenerate`, from `const candidate = response.candidates[0]`
on.  The error is the `TypeError` raised by reading `candidate.content` when
`candidates` is empty. -/
def doGenerateResult (stringify : JSValue → String) (generateId : Nat → String) (next : Nat)
    (response : GenerateResponse) : Except String GenerateResult :=
  match response.candidates with
  | [] => .error "TypeError: Cannot read properties of undefined"
  | candidate :: _ =>
    let parts := candidateParts candidate.content
    let (toolCalls, next1) := getToolCallsFromParts stringify generateId next parts
    let hasToolCalls :=
      match toolCalls with
      | some calls => decide (calls.length > 0)
      | none => false
    .ok {
      text := getTextFromParts parts
      files := (getInlineDataParts parts).map (fun ps => ps.filterMap toGeneratedFile)
      toolCalls := toolCalls
      finishReason := mapGoogleGenerativeAIFinishReason candidate.finishReason hasToolCalls
      usage := usageOf response.usageMetadata
      providerMetadata := ⟨candidate.groundingMetadata, candidate.safetyRatings⟩
      sources := (extractSources generateId next1 candidate.groundingMetadata).1 }

/-! ## Streaming (`doStream`) -/

/-- The fields of a validated stream chunk that the transform reads. -/
structure ChunkValue where
  candidates : Option (List Candidate)
  usageMetadata : Option UsageMetadata

/-- An inbound item of the event stream: a parsed chunk or a parse failure. -/
inductive ParseResult where
  | success (value : ChunkValue)
  | failure (error : JSValue)

/-- An outbound stream event. -/
inductive StreamPart where
  | error (error : JSValue)
  | textDelta (textDelta : String)
  | file (mimeType : String) (data : String)
  | toolCallDelta (toolCallId : String) (toolName : String) (argsTextDelta : String)
  | toolCall (toolCallId : String) (toolName : String) (args : String)
  | source (source : Source)
  | finish (finishReason : String) (usage : Usage) (providerMetadata : Option ProviderMetadata)

/-- Whether the event is a `finish` event. -/
def StreamPart.isFinish : StreamPart → Bool
  | .finish _ _ _ => true
  | _ => false

/-- The closure variables of `doStream`, with the id counter. -/
structure StreamState where
  finishReason : String
  usage : Usage
  providerMetadata : Option ProviderMetadata
  hasToolCalls : Bool
  nextId : Nat

/-- The closure variables before the first chunk. -/
def StreamState.initial (nextId : Nat) : StreamState :=
  ⟨"unknown", ⟨.nan, .nan⟩, none, false, nextId⟩

/-- The events of the loop over `inlineDataParts`. -/
def fileEvents : ResponsePart → Option StreamPart
  | .inlineData mimeType data => some (.file mimeType data)
  | _ => none

/-- The events of the loop over `toolCallDeltas`. -/
def toolCallEvents : List ToolCall → List StreamPart
  | [] => []
  | tc :: rest =>
    .toolCallDelta tc.toolCallId tc.toolName tc.args ::
      .toolCall tc.toolCallId tc.toolName tc.args :: toolCallEvents rest

/-- The block `if (content != null) ...` of the transform, for a content whose
`parts` value is `parts`. -/
def contentEvents (stringify : JSValue → String) (generateId : Nat → String)
    (st : StreamState) (parts : Option (List ResponsePart)) : StreamState × List StreamPart :=
  let textEvents : List StreamPart :=
    match getTextFromParts parts with
    | some deltaText => [.textDelta deltaText]
    | none => []
  let inlineEvents : List StreamPart :=
    match getInlineDataParts parts with
    | some ps => ps.filterMap fileEvents
    | none => []
  let (toolCallDeltas, next1) := getToolCallsFromParts stringify generateId st.nextId parts
  match toolCallDeltas with
  | some calls =>
    ({ st with hasToolCalls := decide (calls.length > 0) || st.hasToolCalls, nextId := next1 },
      textEvents ++ inlineEvents ++ toolCallEvents calls)
  | none => ({ st with nextId := next1 }, textEvents ++ inlineEvents)

/-- The callback `transform(chunk, controller)`: the new closure state and the
events enqueued, in order. -/
def transform (stringify : JSValue → String) (generateId : Nat → String)
    (st : StreamState) : ParseResult → StreamState × List StreamPart
  | .failure error => (st, [.error error])
  | .success value =>
    let st : StreamState :=
      match value.usageMetadata with
      | some u => { st with usage := usageOf (some u) }
      | none => st
    match value.candidates with
    | none => (st, [])
    | some [] => (st, [])
    | some (candidate :: _) =>
      let (st, events) : StreamState × List StreamPart :=
        match candidate.content with
        | .absent => (st, [])
        | .empty => contentEvents stringify generateId st none
        | .content _ parts => contentEvents stringify generateId st parts.value
      match candidate.finishReason with
      | none => (st, events)
      | some reason =>
        let (sources, next1) := extractSources generateId st.nextId candidate.groundingMetadata
        ({ st with
            finishReason := mapGoogleGenerativeAIFinishReason (some reason) st.hasToolCalls
            providerMetadata := some ⟨candidate.groundingMetadata, candidate.safetyRatings⟩
            nextId := next1 },
          events ++ (sources.getD []).map StreamPart.source)

/-- The callback `flush(controller)`. -/
def flush (st : StreamState) : List StreamPart :=
  [.finish st.finishReason st.usage st.providerMetadata]

/-- The transform applied to the inbound items in arrival order. -/
def transformAll (stringify : JSValue → String) (generateId : Nat → String) :
    StreamState → List ParseResult → StreamState × List StreamPart
  | st, [] => (st, [])
  | st, chunk :: rest =>
    let (st1, events) := transform stringify generateId st chunk
    let (st2, more) := transformAll stringify generateId st1 rest
    (st2, events ++ more)

/-- The outbound event sequence of `doStream` for a finite inbound sequence:
the events of every `transform` call followed by those of `flush`. -/
def doStreamEvents (stringify : JSValue → String) (generateId : Nat → String) (nextId : Nat)
    (chunks : List ParseResult) : List StreamPart :=
  let (st, events) := transformAll stringify generateId (StreamState.initial nextId) chunks
  events ++ flush st

/-! ## Model path (`get-model-path.ts`) -/

/-- The function `getModelPath`. -/
def getModelPath (modelId : String) : String :=
  if jsIncludes modelId "/" then modelId else "models/" ++ modelId

/-! ## Embedding model (`google-generative-ai-embedding-model.ts`) -/

/-- The settings of the embedding model. -/
structure EmbeddingSettings where
  outputDimensionality : Option Int
  taskType : Option String

/-- The fields of the embedding model's config that `doEmbed` reads to build
its request and its error. -/
structure EmbeddingConfig where
  provider : String
  baseURL : String

/-- One sub-request of the batched embedding request. -/
structure EmbedRequest where
  model : String
  content : GoogleContent
  outputDimensionality : Option Int
  taskType : Option String

/-- A call of `postJsonToApi` made by `doEmbed`: the URL and the `requests` of
the body. -/
structure EmbedCall where
  url : String
  requests : List EmbedRequest

/-- One entry of `embeddings` in a validated response. -/
structure EmbeddingItem where
  values : List Int

/-- A response validated by `googleGenerativeAITextEmbeddingResponseSchema`. -/
structure EmbedResponse where
  embeddings : List EmbeddingItem

/-- The errors of `doEmbed`: its own `TooManyEmbeddingValuesForCallError`, or
whatever `postJsonToApi` raises (transport, vendor error body, validation). -/
inductive EmbedError where
  | tooManyEmbeddingValuesForCall (provider : String) (modelId : String)
      (maxEmbeddingsPerCall : Nat) (values : List String)
  | api (error : JSValue)

/-- The field `embeddings` of the result of `doEmbed`. -/
structure EmbedResult where
  embeddings : List (List Int)

/-- The getter `maxEmbeddingsPerCall`. -/
def maxEmbeddingsPerCall : Nat := 2048

/-- The method `doEmbed`.  The external `postJsonToApi`, with the response
validation it performs, is the parameter of that name; the second component of
the result lists the calls made to it, in order. -/
def doEmbed (modelId : String) (settings : EmbeddingSettings) (config : EmbeddingConfig)
    (postJsonToApi : EmbedCall → Except JSValue EmbedResponse) (values : List String) :
    Except EmbedError EmbedResult × List EmbedCall :=
  if values.length > maxEmbeddingsPerCall then
    (.error (.tooManyEmbeddingValuesForCall config.provider modelId maxEmbeddingsPerCall values),
      [])
  else
    let call : EmbedCall := {
      url := config.baseURL ++ "/models/" ++ modelId ++ ":batchEmbedContents"
      requests := values.map (fun value => {
        model := "models/" ++ modelId
        content := ⟨"user", [.text value]⟩
        outputDimensionality := settings.outputDimensionality
        taskType := settings.taskType }) }
    match postJsonToApi call with
    | .error e => (.error (.api e), [call])
    | .ok response => (.ok ⟨response.embeddings.map (fun item => item.values)⟩, [call])

/-! ## Request arguments (`getArgs`) -/

/-- The option `responseFormat`. -/
structure ResponseFormat where
  type : String
  schema : Option JSONSchema7Definition

/-- The provider options, as returned by `parseProviderOptions`. -/
structure GoogleOptions where
  responseModalities : Option (List String)
  thinkingConfig : Option JSValue

/-- The model settings that `getArgs` reads. -/
structure GoogleSettings where
  structuredOutputs : Option Bool
  audioTimestamp : Option Bool
  useSearchGrounding : Option Bool
  dynamicRetrievalConfig : Option DynamicRetrievalConfig
  safetySettings : Option JSValue
  cachedContent : Option String

/-- The tool of the mode `object-tool`. -/
structure ObjectTool where
  name : String
  description : Option String
  parameters : JSONSchema7Definition

/-- The option `mode`; `other type` is a mode whose `type` is none of
`regular`, `object-json`, `object-tool`. -/
inductive CallMode where
  | regular (mode : RegularMode)
  | objectJson (schema : Option JSONSchema7Definition)
  | objectTool (tool : ObjectTool)
  | other (type : String)

/-- The call options that `getArgs` destructures, with the parsed provider
options in place of `providerMetadata`. -/
structure CallOptions where
  mode : CallMode
  prompt : List Message
  maxTokens : Option Int
  temperature : Option JSValue
  topP : Option JSValue
  topK : Option JSValue
  frequencyPenalty : Option JSValue
  presencePenalty : Option JSValue
  stopSequences : Option (List String)
  responseFormat : Option ResponseFormat
  seed : Option Int
  googleOptions : Option GoogleOptions

/-- The object `generationConfig`; `audioTimestamp` is `none` when the key is
not spread in. -/
structure GenerationConfig where
  maxOutputTokens : Option Int
  temperature : Option JSValue
  topK : Option JSValue
  topP : Option JSValue
  frequencyPenalty : Option JSValue
  presencePenalty : Option JSValue
  stopSequences : Option (List String)
  seed : Option Int
  responseMimeType : Option String
  responseSchema : JSValue
  audioTimestamp : Option Bool
  responseModalities : Option (List String)
  thinkingConfig : Option JSValue

/-- The request body `args`; a field is `none` when its key is missing or
holds `undefined`. -/
structure RequestArgs where
  generationConfig : GenerationConfig
  contents : List GoogleContent
  systemInstruction : Option SystemInstruction
  safetySettings : Option JSValue
  tools : Option GoogleTools
  toolConfig : Option ToolConfig
  cachedContent : Option String

/-- Result of `getArgs`. -/
structure PreparedCall where
  args : RequestArgs
  warnings : List CallWarning

/-- What `getArgs` throws: the error of one of the two translators, or the
plain `Error` of the default branch. -/
inductive GetArgsError where
  | unsupportedFunctionality (error : UnsupportedFunctionalityError)
  | unsupportedType (message : String)

/-- The getter `supportsStructuredOutputs`. -/
def supportsStructuredOutputs (settings : GoogleSettings) : Bool :=
  settings.structuredOutputs.getD true

/-- The method `getArgs`, for a model with id `modelId` and settings `settings`. -/
def getArgs (modelId : String) (settings : GoogleSettings)
    (convertUint8ArrayToBase64 : List Nat → String) (options : CallOptions) :
    Except GetArgsError PreparedCall :=
  let warnings : List CallWarning := []
  let isJson : Bool :=
    match options.responseFormat with
    | some rf => decide (rf.type = "json")
    | none => false
  let generationConfig : GenerationConfig := {
    maxOutputTokens := options.maxTokens
    temperature := options.temperature
    topK := options.topK
    topP := options.topP
    frequencyPenalty := options.frequencyPenalty
    presencePenalty := options.presencePenalty
    stopSequences := options.stopSequences
    seed := options.seed
    responseMimeType := if isJson then some "application/json" else none
    responseSchema :=
      match options.responseFormat with
      | some rf =>
        match rf.schema with
        | some schema =>
          if decide (rf.type = "json") && supportsStructuredOutputs settings then
            convertJSONSchemaToOpenAPISchema schema
          else .undefined
        | none => .undefined
      | none => .undefined
    audioTimestamp := if settings.audioTimestamp = some true then some true else none
    responseModalities := options.googleOptions.bind (fun o => o.responseModalities)
    thinkingConfig := options.googleOptions.bind (fun o => o.thinkingConfig) }
  match convertToGoogleGenerativeAIMessages convertUint8ArrayToBase64 options.prompt with
  | .error e => .error (.unsupportedFunctionality e)
  | .ok translated =>
    match options.mode with
    | .regular mode =>
      match prepareTools mode (settings.useSearchGrounding.getD false)
          settings.dynamicRetrievalConfig modelId with
      | .error e => .error (.unsupportedFunctionality e)
      | .ok prepared =>
        .ok {
          args := {
            generationConfig := generationConfig
            contents := translated.contents
            systemInstruction := translated.systemInstruction
            safetySettings := settings.safetySettings
            tools := prepared.tools
            toolConfig := prepared.toolConfig
            cachedContent := settings.cachedContent }
          warnings := warnings ++ prepared.toolWarnings }
    | .objectJson schema =>
      .ok {
        args := {
          generationConfig := { generationConfig with
            responseMimeType := some "application/json"
            responseSchema :=
              match schema with
              | some s =>
                if supportsStructuredOutputs settings then convertJSONSchemaToOpenAPISchema s
                else .undefined
              | none => .undefined }
          contents := translated.contents
          systemInstruction := translated.systemInstruction
          safetySettings := settings.safetySettings
          tools := none
          toolConfig := none
          cachedContent := settings.cachedContent }
        warnings := warnings }
    | .objectTool tool =>
      .ok {
        args := {
          generationConfig := generationConfig
          contents := translated.contents
          systemInstruction := none
          safetySettings := settings.safetySettings
          tools := some (.functionDeclarations
            [⟨tool.name, tool.description.getD "",
              convertJSONSchemaToOpenAPISchema tool.parameters⟩])
          toolConfig := some ⟨⟨"ANY", none⟩⟩
          cachedContent := settings.cachedContent }
        warnings := warnings }
    | .other type => .error (.unsupportedType ("Unsupported type: " ++ type))

/-! ## Notions used to state the properties -/

/-- An assistant part that the translator accepts: any text part, any
tool-call part, and a file part with mime type `image/png` and inline data. -/
def AssistantPart.isSupported : AssistantPart → Bool
  | .text _ => true
  | .toolCall _ _ _ => true
  | .file (.base64 _) mimeType => decide (mimeType = "image/png")
  | .file (.url _) _ => false

/-- A message all of whose assistant parts are accepted. -/
def Message.partsSupported : Message → Bool
  | .assistant content => content.all AssistantPart.isSupported
  | _ => true

/-- The vendor role of a message that is not a system message: `user` for user
and tool messages, `model` for assistant messages. -/
def Message.vendorRole? : Message → Option String
  | .system _ => none
  | .user _ => some "user"
  | .assistant _ => some "model"
  | .tool _ => some "user"

/-- The function declaration of a function tool: its name, its description or
the empty string, and its translated parameters; none for a provider-defined
tool. -/
def Tool.declaration? : Tool → Option FunctionDeclaration
  | .function name description parameters =>
    some ⟨name, description.getD "", convertJSONSchemaToOpenAPISchema parameters⟩
  | .providerDefined _ _ _ => none

/-- The warning of a provider-defined tool; none for a function tool. -/
def Tool.warning? : Tool → Option CallWarning
  | .function _ _ _ => none
  | .providerDefined id name args => some (.unsupportedTool (.providerDefined id name args))

/-- Whether the tool is provider-defined. -/
def Tool.isProviderDefined : Tool → Bool
  | .function _ _ _ => false
  | .providerDefined _ _ _ => true

/-- Whether the event is a `tool-call-delta` or a `tool-call` event. -/
def StreamPart.isToolCallEvent : StreamPart → Bool
  | .toolCallDelta _ _ _ => true
  | .toolCall _ _ _ => true
  | _ => false

/-- Whether the event is a `tool-call-delta` event. -/
def StreamPart.isToolCallDelta : StreamPart → Bool
  | .toolCallDelta _ _ _ => true
  | _ => false

/-- Whether the event is a `tool-call` event. -/
def StreamPart.isToolCall : StreamPart → Bool
  | .toolCall _ _ _ => true
  | _ => false

/-- The events the specification asks for the function-call parts of a chunk:
for each function-call part, in part order, a `tool-call-delta` event followed
at once by a `tool-call` event, both with the id generated for the part, its
name and its stringified arguments. -/
def toolCallPairs (stringify : JSValue → String) (generateId : Nat → String) :
    Nat → List ResponsePart → List StreamPart
  | _, [] => []
  | next, .functionCall name args :: rest =>
    .toolCallDelta (generateId next) name (stringify args) ::
      .toolCall (generateId next) name (stringify args) ::
        toolCallPairs stringify generateId (next + 1) rest
  | next, _ :: rest => toolCallPairs stringify generateId next rest

/-- The parts of a candidate content that is present: the array `parts`, or
no part when the content is the empty object or `parts` is absent or `null`. -/
def CandidateContent.partList : CandidateContent → List ResponsePart
  | .content _ (.present ps) => ps
  | _ => []

/-- Whether the assistant part is a text part with the empty text. -/
def AssistantPart.isEmptyText : AssistantPart → Bool
  | .text t => decide (t = "")
  | _ => false

/-- The vendor part the specification gives for an assistant part: none for an
empty text, a text part for any other text, an inline-data part for an inline
file, a function-call part for a tool call; a URL file has none. -/
def AssistantPart.vendorPart? : AssistantPart → Option GooglePart
  | .text t => if t = "" then none else some (.text t)
  | .file (.base64 d) mimeType => some (.inlineData mimeType d)
  | .file (.url _) _ => none
  | .toolCall _ toolName args => some (.functionCall toolName args)

/-- The content of an assistant message; none for the other messages. -/
def Message.assistantContent? : Message → Option (List AssistantPart)
  | .assistant content => some content
  | _ => none

/-- The keywords of the vendor's schema dialect. -/
def vendorKeywords : List String :=
  ["description", "required", "format", "enum", "type", "nullable", "properties", "items",
    "allOf", "anyOf", "oneOf", "minLength"]

/-- A value confined to the vendor's schema dialect at every depth: `undefined`,
or an object whose keys are vendor keywords and whose sub-schemas (the values of
`properties`, the value or the elements of `items`, the elements of `allOf`,
`anyOf` and `oneOf`) are confined in turn. -/
inductive VendorSchema : JSValue → Prop where
  | undefined : VendorSchema .undefined
  | object (kvs : JSObject)
      (hkeys : ∀ kv ∈ kvs, kv.1 ∈ vendorKeywords)
      (hproperties : ∀ ps, ("properties", JSValue.object ps) ∈ kvs →
        ∀ kv ∈ ps, VendorSchema kv.2)
      (hitem : ∀ v, ("items", v) ∈ kvs → (∀ xs, v ≠ JSValue.array xs) → VendorSchema v)
      (hitems : ∀ xs, ("items", JSValue.array xs) ∈ kvs → ∀ x ∈ xs, VendorSchema x)
      (hlists : ∀ k xs, k ∈ ["allOf", "anyOf", "oneOf"] → (k, JSValue.array xs) ∈ kvs →
        ∀ x ∈ xs, VendorSchema x) :
      VendorSchema (.object kvs)

/-- The vendor content the translator makes of one message: none for a system
message; for a user message the role `user` with one part per part; for an
assistant message the role `model` with the vendor parts of its parts; for a
tool message the role `user` with one function response per part. -/
def Message.vendorContent? (convertUint8ArrayToBase64 : List Nat → String) :
    Message → Option GoogleContent
  | .system _ => none
  | .user content => some ⟨"user", content.map (convertUserPart convertUint8ArrayToBase64)⟩
  | .assistant content => some ⟨"model", content.filterMap AssistantPart.vendorPart?⟩
  | .tool content => some ⟨"user", content.map convertToolResultPart⟩

/-- The first candidate of a successfully parsed chunk; none for a failed chunk
and for a chunk without candidates. -/
def ParseResult.firstCandidate? : ParseResult → Option Candidate
  | .success ⟨some (candidate :: _), _⟩ => some candidate
  | _ => none

/-- The parts of the first candidate of a successfully parsed chunk. -/
def ParseResult.partList (chunk : ParseResult) : List ResponsePart :=
  match chunk.firstCandidate? with
  | some candidate => candidate.content.partList
  | none => []

/-- Whether a function-call part occurs in the chunk, that is, among the parts
of the first candidate of a successfully parsed chunk. -/
def ParseResult.hasFunctionCall (chunk : ParseResult) : Bool :=
  chunk.partList.any ResponsePart.isFunctionCall

/-- The vendor finish reason the chunk carries, that is, the one of the first
candidate of a successfully parsed chunk. -/
def ParseResult.finishReason? (chunk : ParseResult) : Option String :=
  match chunk.firstCandidate? with
  | some candidate => candidate.finishReason
  | none => none

/-- Whether the event is a `text-delta` event. -/
def StreamPart.isTextDelta : StreamPart → Bool
  | .textDelta _ => true
  | _ => false

/-! ## Schemas used as concrete inputs -/

/-- The schema object whose only keyword is `type`. -/
def schemaOfType (type : SchemaType) : JSONSchema7Definition :=
  .schema (some type) none none none none none none none none none none none []

/-- The schema object whose only keyword is `anyOf`. -/
def schemaOfAnyOf (branches : List JSONSchema7Definition) : JSONSchema7Definition :=
  .schema none none none none none none (some branches) none none none none none []

/-! ## Message translator: ordering of system messages -/

/-- A message that is not a system message clears the latch. -/
theorem convertMessage_clears_latch (f : List Nat → String) (st st1 : ConvertState)
    (m : Message) (hm : m.isSystem = false) (h : convertMessage f st m = .ok st1) :
    st1.systemMessagesAllowed = false := by
  cases m with
  | system c => simp [Message.isSystem] at hm
  | user c => simp only [convertMessage, Except.ok.injEq] at h; rw [← h]
  | tool c => simp only [convertMessage, Except.ok.injEq] at h; rw [← h]
  | assistant c =>
    simp only [convertMessage] at h
    cases hp : mapAssistantParts c with
    | error e => rw [hp] at h; simp at h
    | ok parts => rw [hp] at h; simp only [Except.ok.injEq] at h; rw [← h]

/-- Once cleared, the latch stays cleared. -/
theorem convertMessage_latch_stays (f : List Nat → String) (st st1 : ConvertState)
    (m : Message) (hst : st.systemMessagesAllowed = false)
    (h : convertMessage f st m = .ok st1) : st1.systemMessagesAllowed = false := by
  cases hm : m.isSystem with
  | false => exact convertMessage_clears_latch f st st1 m hm h
  | true =>
    cases m with
    | system c => simp [convertMessage, hst] at h
    | user c => simp [Message.isSystem] at hm
    | tool c => simp [Message.isSystem] at hm
    | assistant c => simp [Message.isSystem] at hm

/-- With the latch cleared, a message list that holds a system message makes
the loop fail. -/
theorem convertLoop_fails_of_system (f : List Nat → String) (ms : List Message) :
    ∀ st : ConvertState, st.systemMessagesAllowed = false →
      (∃ m ∈ ms, m.isSystem = true) → ∃ e, convertLoop f st ms = .error e := by
  induction ms with
  | nil => intro st _ h; obtain ⟨m, hm, _⟩ := h; simp at hm
  | cons m rest ih =>
    intro st hst h
    rw [convertLoop]
    cases hc : convertMessage f st m with
    | error e => exact ⟨e, rfl⟩
    | ok st1 =>
      have hst1 := convertMessage_latch_stays f st st1 m hst hc
      obtain ⟨m1, hm1, hsys⟩ := h
      rcases List.mem_cons.mp hm1 with heq | hmem
      · subst heq
        cases m1 with
        | system c => simp [convertMessage, hst] at hc
        | user c => simp [Message.isSystem] at hsys
        | tool c => simp [Message.isSystem] at hsys
        | assistant c => simp [Message.isSystem] at hsys
      · exact ih st1 hst1 ⟨m1, hmem, hsys⟩

/-- A non-system message followed later by a system message makes the loop
fail, whatever precedes them and whatever the latch holds. -/
theorem convertLoop_fails_of_late_system (f : List Nat → String) (pre : List Message) :
    ∀ (st : ConvertState) (m : Message) (rest : List Message), m.isSystem = false →
      (∃ m1 ∈ rest, m1.isSystem = true) → ∃ e, convertLoop f st (pre ++ m :: rest) = .error e := by
  induction pre with
  | nil =>
    intro st m rest hm h
    rw [List.nil_append, convertLoop]
    cases hc : convertMessage f st m with
    | error e => exact ⟨e, rfl⟩
    | ok st1 =>
      exact convertLoop_fails_of_system f rest st1 (convertMessage_clears_latch f st st1 m hm hc) h
  | cons p pre ih =>
    intro st m rest hm h
    rw [List.cons_append, convertLoop]
    cases hc : convertMessage f st p with
    | error e => exact ⟨e, rfl⟩
    | ok st1 => exact ih st1 m rest hm h

/-- Claim C1: a prompt in which a system message comes after some user,
assistant or tool message is rejected: the translator fails with an
`UnsupportedFunctionalityError` and so returns no result at all. -/
theorem convertToGoogleGenerativeAIMessages_late_system_fails
    (convertUint8ArrayToBase64 : List Nat → String)
    (before : List Message) (m : Message) (between : List Message) (content : String)
    (after : List Message) (hm : m.isSystem = false) :
    (∃ e : UnsupportedFunctionalityError,
      convertToGoogleGenerativeAIMessages convertUint8ArrayToBase64
        (before ++ m :: (between ++ Message.system content :: after)) = .error e) ∧
    ∀ r : GooglePrompt,
      convertToGoogleGenerativeAIMessages convertUint8ArrayToBase64
        (before ++ m :: (between ++ Message.system content :: after)) ≠ .ok r := by
  obtain ⟨e, he⟩ := convertLoop_fails_of_late_system convertUint8ArrayToBase64 before
    ⟨[], [], true⟩ m (between ++ Message.system content :: after) hm
    ⟨Message.system content, by simp, rfl⟩
  have hres : convertToGoogleGenerativeAIMessages convertUint8ArrayToBase64
      (before ++ m :: (between ++ Message.system content :: after)) = .error e := by
    simp only [convertToGoogleGenerativeAIMessages, he]
  refine ⟨⟨e, hres⟩, ?_⟩
  intro r hr
  rw [hres] at hr
  cases hr

/-- Witness for C1: a user message followed by a system message. -/
theorem convertToGoogleGenerativeAIMessages_late_system_fails_witness :
    (Message.user [UserPart.text "hi"]).isSystem = false ∧
    ((∃ e : UnsupportedFunctionalityError,
      convertToGoogleGenerativeAIMessages (fun _ => "")
        ([] ++ Message.user [UserPart.text "hi"] ::
          ([] ++ Message.system "be brief" :: [])) = .error e) ∧
    ∀ r : GooglePrompt,
      convertToGoogleGenerativeAIMessages (fun _ => "")
        ([] ++ Message.user [UserPart.text "hi"] ::
          ([] ++ Message.system "be brief" :: [])) ≠ .ok r) :=
  ⟨rfl, convertToGoogleGenerativeAIMessages_late_system_fails (fun _ => "") []
    (Message.user [UserPart.text "hi"]) [] "be brief" [] rfl⟩

/-! ## Finish-reason mapper -/

/-- Claim C2: the complete table of `mapGoogleGenerativeAIFinishReason`:
`STOP` gives `tool-calls` with tool calls and `stop` without, `MAX_TOKENS`
gives `length`, the six safety reasons give `content-filter`,
`FINISH_REASON_UNSPECIFIED` and `OTHER` give `other`,
`MALFORMED_FUNCTION_CALL` gives `error`, and every other string as well as an
absent reason gives `unknown`. -/
theorem mapGoogleGenerativeAIFinishReason_table :
    mapGoogleGenerativeAIFinishReason (some "STOP") true = "tool-calls" ∧
    mapGoogleGenerativeAIFinishReason (some "STOP") false = "stop" ∧
    (∀ h : Bool, mapGoogleGenerativeAIFinishReason (some "MAX_TOKENS") h = "length") ∧
    (∀ (h : Bool) (r : String),
      r ∈ ["IMAGE_SAFETY", "RECITATION", "SAFETY", "BLOCKLIST", "PROHIBITED_CONTENT", "SPII"] →
        mapGoogleGenerativeAIFinishReason (some r) h = "content-filter") ∧
    (∀ (h : Bool) (r : String), r ∈ ["FINISH_REASON_UNSPECIFIED", "OTHER"] →
        mapGoogleGenerativeAIFinishReason (some r) h = "other") ∧
    (∀ h : Bool,
      mapGoogleGenerativeAIFinishReason (some "MALFORMED_FUNCTION_CALL") h = "error") ∧
    (∀ (h : Bool) (r : String),
      r ∉ ["STOP", "MAX_TOKENS", "IMAGE_SAFETY", "RECITATION", "SAFETY", "BLOCKLIST",
        "PROHIBITED_CONTENT", "SPII", "FINISH_REASON_UNSPECIFIED", "OTHER",
        "MALFORMED_FUNCTION_CALL"] →
        mapGoogleGenerativeAIFinishReason (some r) h = "unknown") ∧
    (∀ h : Bool, mapGoogleGenerativeAIFinishReason none h = "unknown") := by
  refine ⟨rfl, rfl, fun h => rfl, ?_, ?_, fun h => rfl, ?_, fun h => rfl⟩
  · intro h r hr
    simp only [List.mem_cons, List.mem_singleton, List.not_mem_nil, or_false] at hr
    rcases hr with h1 | h1 | h1 | h1 | h1 | h1 <;> subst h1 <;> rfl
  · intro h r hr
    simp only [List.mem_cons, List.mem_singleton, List.not_mem_nil, or_false] at hr
    rcases hr with h1 | h1 <;> subst h1 <;> rfl
  · intro h r hr
    simp only [List.mem_cons, List.mem_singleton, not_or, List.not_mem_nil, not_false_eq_true,
      and_true] at hr
    obtain ⟨h1, h2, h3, h4, h5, h6, h7, h8, h9, h10, h11⟩ := hr
    simp only [mapGoogleGenerativeAIFinishReason, if_neg h1, if_neg h2, if_neg h3, if_neg h4,
      if_neg h5, if_neg h6, if_neg h7, if_neg h8, if_neg h9, if_neg h10, if_neg h11]

/-- Witness for C2: one listed safety reason and one unlisted string. -/
theorem mapGoogleGenerativeAIFinishReason_table_witness :
    mapGoogleGenerativeAIFinishReason (some "SAFETY") false = "content-filter" ∧
    mapGoogleGenerativeAIFinishReason (some "OTHER") true = "other" ∧
    mapGoogleGenerativeAIFinishReason (some "LANGUAGE") true = "unknown" :=
  ⟨mapGoogleGenerativeAIFinishReason_table.2.2.2.1 false "SAFETY" (by decide),
    mapGoogleGenerativeAIFinishReason_table.2.2.2.2.1 true "OTHER" (by decide),
    mapGoogleGenerativeAIFinishReason_table.2.2.2.2.2.2.1 true "LANGUAGE" (by decide)⟩

/-! ## JavaScript objects: assignment and lookup -/

/-- Every entry of `obj[key] = value` is an old entry or the new one. -/
theorem JSObject.mem_set (obj : JSObject) (key : String) (value : JSValue)
    (p : String × JSValue) (hp : p ∈ JSObject.set obj key value) : p ∈ obj ∨ p = (key, value) := by
  induction obj with
  | nil => simp [JSObject.set] at hp; exact Or.inr hp
  | cons kv rest ih =>
    obtain ⟨k, v⟩ := kv
    simp only [JSObject.set] at hp
    by_cases hk : k = key
    · simp only [hk, if_true, List.mem_cons] at hp
      rcases hp with h | h
      · exact Or.inr h
      · exact Or.inl (List.mem_cons_of_mem _ h)
    · simp only [hk, if_false, List.mem_cons] at hp
      rcases hp with h | h
      · exact Or.inl (by rw [h]; exact List.mem_cons_self _ _)
      · rcases ih h with h1 | h1
        · exact Or.inl (List.mem_cons_of_mem _ h1)
        · exact Or.inr h1

/-- Every entry of `Object.assign(target, source)` comes from one of the two. -/
theorem JSObject.mem_assign (source : JSObject) :
    ∀ (target : JSObject) (p : String × JSValue),
      p ∈ JSObject.assign target source → p ∈ target ∨ p ∈ source := by
  induction source with
  | nil => intro target p hp; exact Or.inl hp
  | cons kv rest ih =>
    intro target p hp
    have hp1 : p ∈ JSObject.assign (JSObject.set target kv.1 kv.2) rest := hp
    rcases ih _ p hp1 with h | h
    · rcases JSObject.mem_set target kv.1 kv.2 p h with h1 | h1
      · exact Or.inl h1
      · exact Or.inr (by rw [h1]; exact List.mem_cons_self _ _)
    · exact Or.inr (List.mem_cons_of_mem _ h)

/-- A successful read returns the value of an entry. -/
theorem JSObject.mem_of_get? (obj : JSObject) (key : String) (value : JSValue)
    (h : JSObject.get? obj key = some value) : (key, value) ∈ obj := by
  induction obj with
  | nil => simp [JSObject.get?] at h
  | cons kv rest ih =>
    obtain ⟨k, v⟩ := kv
    simp only [JSObject.get?] at h
    by_cases hk : k = key
    · simp only [hk, if_true, Option.some.injEq] at h
      rw [hk, h]; exact List.mem_cons_self _ _
    · simp only [hk, if_false] at h
      exact List.mem_cons_of_mem _ (ih h)

/-- Reading the key just assigned gives the assigned value. -/
theorem JSObject.get?_set_self (obj : JSObject) (key : String) (value : JSValue) :
    JSObject.get? (JSObject.set obj key value) key = some value := by
  induction obj with
  | nil => simp [JSObject.set, JSObject.get?]
  | cons kv rest ih =>
    obtain ⟨k, v⟩ := kv
    by_cases hk : k = key
    · simp [JSObject.set, JSObject.get?, hk]
    · simp [JSObject.set, JSObject.get?, hk, ih]

/-- Assigning one key leaves the reads of the other keys unchanged. -/
theorem JSObject.get?_set_of_ne (obj : JSObject) (key other : String) (value : JSValue)
    (h : other ≠ key) : JSObject.get? (JSObject.set obj key value) other = JSObject.get? obj other := by
  induction obj with
  | nil => simp [JSObject.set, JSObject.get?, Ne.symm h]
  | cons kv rest ih =>
    obtain ⟨k, v⟩ := kv
    by_cases hk : k = key
    · have hko : ¬ k = other := fun h1 => h (h1 ▸ hk)
      simp [JSObject.set, JSObject.get?, hk, Ne.symm h]
    · by_cases hko : k = other
      · subst hko
        simp [JSObject.set, JSObject.get?, hk]
      · simp [JSObject.set, JSObject.get?, hk, hko, ih]

/-- A key is an own key exactly when reading it succeeds. -/
theorem JSObject.mem_keys_iff (obj : JSObject) (key : String) :
    key ∈ JSObject.keys obj ↔ ∃ value, JSObject.get? obj key = some value := by
  induction obj with
  | nil => simp [JSObject.keys, JSObject.get?]
  | cons kv rest ih =>
    obtain ⟨k, v⟩ := kv
    by_cases hk : k = key
    · simp [JSObject.keys, JSObject.get?, hk]
    · have ih1 : key ∈ List.map Prod.fst rest ↔ ∃ value, JSObject.get? rest key = some value := ih
      simp only [JSObject.keys, List.map_cons, List.mem_cons, JSObject.get?, hk, if_false]
      rw [ih1]
      constructor
      · rintro (h | h)
        · exact absurd h.symm hk
        · exact h
      · intro h; exact Or.inr h

/-- The keys after an assignment: the old keys, and the new one if it was not
among them. -/
theorem JSObject.mem_keys_set (obj : JSObject) (key other : String) (value : JSValue) :
    other ∈ JSObject.keys (JSObject.set obj key value) ↔ other ∈ JSObject.keys obj ∨ other = key := by
  rw [JSObject.mem_keys_iff, JSObject.mem_keys_iff]
  by_cases h : other = key
  · subst h
    simp [JSObject.get?_set_self]
  · rw [JSObject.get?_set_of_ne obj key other value h]
    simp [h]

/-- Reading a key that the source of `Object.assign` lacks gives the target's
value. -/
theorem JSObject.get?_assign_of_not_mem (source : JSObject) :
    ∀ (target : JSObject) (key : String), key ∉ JSObject.keys source →
      JSObject.get? (JSObject.assign target source) key = JSObject.get? target key := by
  induction source with
  | nil => intro target key _; rfl
  | cons kv rest ih =>
    intro target key hk
    have h1 : key ≠ kv.1 := by
      intro h; apply hk; simp [JSObject.keys, h]
    have h2 : key ∉ JSObject.keys rest := by
      intro h; apply hk; simp only [JSObject.keys, List.map_cons, List.mem_cons]
      exact Or.inr h
    have : JSObject.assign target (kv :: rest) =
        JSObject.assign (JSObject.set target kv.1 kv.2) rest := rfl
    rw [this, ih _ key h2, JSObject.get?_set_of_ne _ _ _ _ h1]

/-- Reading a key of the source of `Object.assign` gives the source's value,
when the source has no key twice. -/
theorem JSObject.get?_assign_of_mem (source : JSObject) :
    ∀ (target : JSObject) (key : String), (JSObject.keys source).Nodup →
      key ∈ JSObject.keys source →
      JSObject.get? (JSObject.assign target source) key = JSObject.get? source key := by
  induction source with
  | nil => intro target key _ hk; simp [JSObject.keys] at hk
  | cons kv rest ih =>
    intro target key hnd hk
    obtain ⟨k, v⟩ := kv
    have hnd1 : k ∉ JSObject.keys rest ∧ (JSObject.keys rest).Nodup := by
      simpa [JSObject.keys] using hnd
    have : JSObject.assign target ((k, v) :: rest) =
        JSObject.assign (JSObject.set target k v) rest := rfl
    rw [this]
    by_cases h : k = key
    · subst h
      rw [JSObject.get?_assign_of_not_mem rest _ k hnd1.1, JSObject.get?_set_self]
      simp [JSObject.get?]
    · have hk1 : key ∈ JSObject.keys rest := by
        simp only [JSObject.keys, List.map_cons, List.mem_cons] at hk
        rcases hk with h1 | h1
        · exact absurd h1.symm h
        · exact h1
      rw [ih _ key hnd1.2 hk1]
      simp [JSObject.get?, h]

/-- The keys of `Object.assign(target, source)` are those of the two objects. -/
theorem JSObject.mem_keys_assign (source : JSObject) :
    ∀ (target : JSObject) (key : String),
      key ∈ JSObject.keys (JSObject.assign target source) ↔
        key ∈ JSObject.keys target ∨ key ∈ JSObject.keys source := by
  induction source with
  | nil => intro target key; simp [JSObject.assign, JSObject.keys]
  | cons kv rest ih =>
    intro target key
    have : JSObject.assign target (kv :: rest) =
        JSObject.assign (JSObject.set target kv.1 kv.2) rest := rfl
    rw [this, ih, JSObject.mem_keys_set]
    simp only [JSObject.keys, List.map_cons, List.mem_cons]
    tauto

/-- Assignment keeps the keys free of repetition. -/
theorem JSObject.nodup_keys_set (obj : JSObject) (key : String) (value : JSValue)
    (h : (JSObject.keys obj).Nodup) : (JSObject.keys (JSObject.set obj key value)).Nodup := by
  induction obj with
  | nil => simp [JSObject.set, JSObject.keys]
  | cons kv rest ih =>
    obtain ⟨k, v⟩ := kv
    have h1 : k ∉ JSObject.keys rest ∧ (JSObject.keys rest).Nodup := by
      simpa [JSObject.keys] using h
    by_cases hk : k = key
    · simp only [JSObject.set, hk, if_true]
      simpa [JSObject.keys, hk] using h
    · simp only [JSObject.set, hk, if_false]
      have h2 := ih h1.2
      have h3 : k ∉ JSObject.keys (JSObject.set rest key value) := by
        rw [JSObject.mem_keys_set]
        rintro (h4 | h4)
        · exact h1.1 h4
        · exact hk h4
      have h5 : JSObject.keys ((k, v) :: JSObject.set rest key value) =
          k :: JSObject.keys (JSObject.set rest key value) := rfl
      rw [h5]
      exact List.nodup_cons.mpr ⟨h3, h2⟩

/-- `Object.assign` keeps the keys free of repetition. -/
theorem JSObject.nodup_keys_assign (source : JSObject) :
    ∀ target : JSObject, (JSObject.keys target).Nodup →
      (JSObject.keys (JSObject.assign target source)).Nodup := by
  induction source with
  | nil => intro target h; exact h
  | cons kv rest ih =>
    intro target h
    exact ih _ (JSObject.nodup_keys_set target kv.1 kv.2 h)

/-! ## Schema translator: unfolding and induction -/

/-- The helper `convertSchemas` is the map of the translator over the list. -/
theorem convertSchemas_eq_map (xs : List JSONSchema7Definition) :
    convertSchemas xs = xs.map convertJSONSchemaToOpenAPISchema := by
  induction xs with
  | nil => rfl
  | cons s rest ih => rw [convertSchemas, ih]; rfl

/-- The helper `convertNonNullSchemas` is the map of the translator over the
branches that are not null-typed. -/
theorem convertNonNullSchemas_eq_map (xs : List JSONSchema7Definition) :
    convertNonNullSchemas xs =
      (xs.filter (fun s => !isNullTypeSchema s)).map convertJSONSchemaToOpenAPISchema := by
  induction xs with
  | nil => rfl
  | cons s rest ih =>
    rw [convertNonNullSchemas]
    by_cases h : isNullTypeSchema s = true
    · simp [h, ih]
    · simp [h, ih]

/-- The helper `convertProperties` translates the value of every entry. -/
theorem convertProperties_eq_map (ps : List (String × JSONSchema7Definition)) :
    convertProperties ps = ps.map (fun kv => (kv.1, convertJSONSchemaToOpenAPISchema kv.2)) := by
  induction ps with
  | nil => rfl
  | cons kv rest ih =>
    obtain ⟨k, v⟩ := kv
    rw [convertProperties, ih]; rfl

/-- The translation of a boolean schema. -/
theorem convert_boolean (b : Bool) :
    convertJSONSchemaToOpenAPISchema (.boolean b) =
      .object [("type", .string "boolean"), ("properties", .object [])] := rfl

/-- The translation of a schema object, with the recursive calls written as
maps over the sub-schemas. -/
theorem convert_schema (type : Option SchemaType) (description : Option String)
    (required : Option (List String))
    (properties : Option (List (String × JSONSchema7Definition)))
    (items : Option (OneOrMany JSONSchema7Definition))
    (allOf anyOf oneOf : Option (List JSONSchema7Definition))
    (format : Option String) (constValue : Option JSValue) (minLength : Option Int)
    (enumValues : Option (List JSValue)) (others : JSObject) :
    convertJSONSchemaToOpenAPISchema
        (.schema type description required properties items allOf anyOf oneOf format constValue
          minLength enumValues others) =
      if isEmptyObjectSchema
          (.schema type description required properties items allOf anyOf oneOf format constValue
            minLength enumValues others) then .undefined
      else
        .object (buildResult type description required format constValue minLength enumValues
          (properties.map
            (fun ps => ps.map (fun kv => (kv.1, convertJSONSchemaToOpenAPISchema kv.2))))
          (convertItems items)
          (allOf.map (fun xs => xs.map convertJSONSchemaToOpenAPISchema))
          anyOf
          (((anyOf.getD []).filter (fun s => !isNullTypeSchema s)).map
            convertJSONSchemaToOpenAPISchema)
          ((anyOf.getD []).map convertJSONSchemaToOpenAPISchema)
          (oneOf.map (fun xs => xs.map convertJSONSchemaToOpenAPISchema))) := by
  have key : convertJSONSchemaToOpenAPISchema
        (.schema type description required properties items allOf anyOf oneOf format constValue
          minLength enumValues others) =
      if isEmptyObjectSchema
          (.schema type description required properties items allOf anyOf oneOf format constValue
            minLength enumValues others) then .undefined
      else
        .object (buildResult type description required format constValue minLength enumValues
          (properties.map convertProperties)
          (convertItems items)
          (allOf.map convertSchemas)
          anyOf
          (convertNonNullSchemas (anyOf.getD []))
          (convertSchemas (anyOf.getD []))
          (oneOf.map convertSchemas)) := by
    cases properties <;> cases allOf <;> cases anyOf <;> cases oneOf <;>
      (cases items with
       | none => rfl
       | some it =>
         cases it with
         | many xs => rfl
         | one s =>
           cases s with
           | schema => rfl
           | boolean b => cases b <;> rfl)
  rw [key]
  have hp : properties.map convertProperties = properties.map
      (fun ps => ps.map (fun kv => (kv.1, convertJSONSchemaToOpenAPISchema kv.2))) := by
    cases properties with
    | none => rfl
    | some ps => simp only [Option.map_some', convertProperties_eq_map]
  have hl : ∀ o : Option (List JSONSchema7Definition), o.map convertSchemas =
      o.map (fun xs => xs.map convertJSONSchemaToOpenAPISchema) := by
    intro o
    cases o with
    | none => rfl
    | some xs => simp only [Option.map_some', convertSchemas_eq_map]
  rw [hp, hl allOf, hl oneOf, convertNonNullSchemas_eq_map, convertSchemas_eq_map]

/-- When `isEmptyObjectSchema` holds: type `"object"` and no declared
property. -/
theorem isEmptyObjectSchema_iff (s : JSONSchema7Definition) :
    isEmptyObjectSchema s = true ↔
      ∃ description required properties items allOf anyOf oneOf format constValue minLength
        enumValues others,
        s = .schema (some (.single "object")) description required properties items allOf anyOf
          oneOf format constValue minLength enumValues others ∧
        (properties = none ∨ properties = some []) := by
  constructor
  · intro h
    cases s with
    | boolean b => simp [isEmptyObjectSchema] at h
    | schema type description required properties items allOf anyOf oneOf format constValue
        minLength enumValues others =>
      simp only [isEmptyObjectSchema, Bool.and_eq_true] at h
      obtain ⟨h1, h2⟩ := h
      have ht : type = some (.single "object") := by
        cases type with
        | none => simp at h1
        | some t =>
          cases t with
          | multiple ts => simp at h1
          | single t => simp at h1; rw [h1]
      have hp : properties = none ∨ properties = some [] := by
        cases properties with
        | none => exact Or.inl rfl
        | some ps =>
          simp at h2
          exact Or.inr (by rw [h2])
      subst ht
      exact ⟨description, required, properties, items, allOf, anyOf, oneOf, format, constValue,
        minLength, enumValues, others, rfl, hp⟩
  · rintro ⟨description, required, properties, items, allOf, anyOf, oneOf, format, constValue,
      minLength, enumValues, others, hs, hp⟩
    subst hs
    rcases hp with hp | hp <;> subst hp <;> simp [isEmptyObjectSchema]

/-- Induction over schemas: a property that holds for the boolean schemas and
passes from the sub-schemas of a schema object to the object holds for every
schema. -/
theorem schema_induction (P : JSONSchema7Definition → Prop)
    (hbool : ∀ b, P (.boolean b))
    (hschema : ∀ type description required properties items allOf anyOf oneOf format constValue
      minLength enumValues others,
      (∀ ps, properties = some ps → ∀ kv ∈ ps, P kv.2) →
      (∀ s, items = some (.one s) → P s) →
      (∀ xs, items = some (.many xs) → ∀ s ∈ xs, P s) →
      (∀ xs, allOf = some xs → ∀ s ∈ xs, P s) →
      (∀ xs, anyOf = some xs → ∀ s ∈ xs, P s) →
      (∀ xs, oneOf = some xs → ∀ s ∈ xs, P s) →
      P (.schema type description required properties items allOf anyOf oneOf format constValue
        minLength enumValues others)) :
    ∀ s, P s := by
  suffices hall : ∀ (n : Nat) (s : JSONSchema7Definition), sizeOf s = n → P s from
    fun s => hall _ s rfl
  intro n
  induction n using Nat.strong_induction_on with
  | _ n ih =>
    intro s hn
    cases s with
    | boolean b => exact hbool b
    | schema type description required properties items allOf anyOf oneOf format constValue
        minLength enumValues others =>
      subst hn
      apply hschema
      · intro ps hps kv hkv
        subst hps
        apply ih (sizeOf kv.2) _ kv.2 rfl
        have h1 := List.sizeOf_lt_of_mem hkv
        obtain ⟨k, v⟩ := kv
        simp only [JSONSchema7Definition.schema.sizeOf_spec, Option.some.sizeOf_spec,
          Prod.mk.sizeOf_spec] at h1 ⊢
        omega
      · intro s hs
        subst hs
        apply ih (sizeOf s) _ s rfl
        simp only [JSONSchema7Definition.schema.sizeOf_spec, Option.some.sizeOf_spec,
          OneOrMany.one.sizeOf_spec]
        omega
      · intro xs hxs s hs
        subst hxs
        apply ih (sizeOf s) _ s rfl
        have h1 := List.sizeOf_lt_of_mem hs
        simp only [JSONSchema7Definition.schema.sizeOf_spec, Option.some.sizeOf_spec,
          OneOrMany.many.sizeOf_spec]
        omega
      · intro xs hxs s hs
        subst hxs
        apply ih (sizeOf s) _ s rfl
        have h1 := List.sizeOf_lt_of_mem hs
        simp only [JSONSchema7Definition.schema.sizeOf_spec, Option.some.sizeOf_spec]
        omega
      · intro xs hxs s hs
        subst hxs
        apply ih (sizeOf s) _ s rfl
        have h1 := List.sizeOf_lt_of_mem hs
        simp only [JSONSchema7Definition.schema.sizeOf_spec, Option.some.sizeOf_spec]
        omega
      · intro xs hxs s hs
        subst hxs
        apply ih (sizeOf s) _ s rfl
        have h1 := List.sizeOf_lt_of_mem hs
        simp only [JSONSchema7Definition.schema.sizeOf_spec, Option.some.sizeOf_spec]
        omega

/-! ## Schema translator: the statements one by one -/

/-- A statement that assigns at most one key leaves the other keys as they
were. -/
theorem get?_of_step (r r1 : JSObject) (key k : String)
    (h : r1 = r ∨ ∃ v, r1 = JSObject.set r key v) (hk : k ≠ key) :
    JSObject.get? r1 k = JSObject.get? r k := by
  rcases h with h | ⟨v, h⟩
  · rw [h]
  · rw [h, JSObject.get?_set_of_ne r key k v hk]

/-- A statement that assigns at most one key adds entries under that key only. -/
theorem mem_of_step (r r1 : JSObject) (key : String) (p : String × JSValue)
    (h : r1 = r ∨ ∃ v, r1 = JSObject.set r key v) (hp : p ∈ r1) : p ∈ r ∨ p.1 = key := by
  rcases h with h | ⟨v, h⟩
  · rw [h] at hp; exact Or.inl hp
  · rw [h] at hp
    rcases JSObject.mem_set r key v p hp with h1 | h1
    · exact Or.inl h1
    · exact Or.inr (by rw [h1])

/-- A statement that assigns at most one key removes no key and adds at most
that key. -/
theorem keys_of_step (r r1 : JSObject) (key k : String)
    (h : r1 = r ∨ ∃ v, r1 = JSObject.set r key v) :
    (k ∈ JSObject.keys r → k ∈ JSObject.keys r1) ∧
    (k ∈ JSObject.keys r1 → k ∈ JSObject.keys r ∨ k = key) := by
  rcases h with h | ⟨v, h⟩
  · rw [h]; exact ⟨fun h1 => h1, fun h1 => Or.inl h1⟩
  · rw [h]
    exact ⟨fun h1 => (JSObject.mem_keys_set r key k v).mpr (Or.inl h1),
      fun h1 => (JSObject.mem_keys_set r key k v).mp h1⟩

/-- A statement that assigns at most one key keeps the keys free of
repetition. -/
theorem nodup_of_step (r r1 : JSObject) (key : String)
    (h : r1 = r ∨ ∃ v, r1 = JSObject.set r key v) (hr : (JSObject.keys r).Nodup) :
    (JSObject.keys r1).Nodup := by
  rcases h with h | ⟨v, h⟩
  · rw [h]; exact hr
  · rw [h]; exact JSObject.nodup_keys_set r key v hr

/-- The statement `withDescription` leaves `result` as it is or assigns `description`. -/
theorem withDescription_shape (r : JSObject) (a : Option String) :
    withDescription r a = r ∨ ∃ v, withDescription r a = JSObject.set r "description" v := by
  cases a with
  | none => exact Or.inl rfl
  | some d =>
    by_cases hd : d = ""
    · exact Or.inl (by simp [withDescription, hd])
    · exact Or.inr ⟨.string d, by simp [withDescription, hd]⟩

/-- The statement `withRequired` leaves `result` as it is or assigns `required`. -/
theorem withRequired_shape (r : JSObject) (a : Option (List String)) :
    withRequired r a = r ∨ ∃ v, withRequired r a = JSObject.set r "required" v := by
  cases a with
  | none => exact Or.inl rfl
  | some v => exact Or.inr ⟨_, rfl⟩

/-- The statement `withFormat` leaves `result` as it is or assigns `format`. -/
theorem withFormat_shape (r : JSObject) (a : Option String) :
    withFormat r a = r ∨ ∃ v, withFormat r a = JSObject.set r "format" v := by
  cases a with
  | none => exact Or.inl rfl
  | some d =>
    by_cases hd : d = ""
    · exact Or.inl (by simp [withFormat, hd])
    · exact Or.inr ⟨.string d, by simp [withFormat, hd]⟩

/-- The statement `withConst` leaves `result` as it is or assigns `enum`. -/
theorem withConst_shape (r : JSObject) (a : Option JSValue) :
    withConst r a = r ∨ ∃ v, withConst r a = JSObject.set r "enum" v := by
  cases a with
  | none => exact Or.inl rfl
  | some v => cases v <;> first | exact Or.inl rfl | exact Or.inr ⟨_, rfl⟩

/-- The statement `withEnum` leaves `result` as it is or assigns `enum`. -/
theorem withEnum_shape (r : JSObject) (a : Option (List JSValue)) :
    withEnum r a = r ∨ ∃ v, withEnum r a = JSObject.set r "enum" v := by
  cases a with
  | none => exact Or.inl rfl
  | some v => exact Or.inr ⟨_, rfl⟩

/-- The statement `withProperties` leaves `result` as it is or assigns `properties`. -/
theorem withProperties_shape (r : JSObject) (a : Option (List (String × JSValue))) :
    withProperties r a = r ∨ ∃ v, withProperties r a = JSObject.set r "properties" v := by
  cases a with
  | none => exact Or.inl rfl
  | some v => exact Or.inr ⟨_, rfl⟩

/-- The statement `withItems` leaves `result` as it is or assigns `items`. -/
theorem withItems_shape (r : JSObject) (a : Option JSValue) :
    withItems r a = r ∨ ∃ v, withItems r a = JSObject.set r "items" v := by
  cases a with
  | none => exact Or.inl rfl
  | some v => exact Or.inr ⟨_, rfl⟩

/-- The statement `withAllOf` leaves `result` as it is or assigns `allOf`. -/
theorem withAllOf_shape (r : JSObject) (a : Option (List JSValue)) :
    withAllOf r a = r ∨ ∃ v, withAllOf r a = JSObject.set r "allOf" v := by
  cases a with
  | none => exact Or.inl rfl
  | some v => exact Or.inr ⟨_, rfl⟩

/-- The statement `withOneOf` leaves `result` as it is or assigns `oneOf`. -/
theorem withOneOf_shape (r : JSObject) (a : Option (List JSValue)) :
    withOneOf r a = r ∨ ∃ v, withOneOf r a = JSObject.set r "oneOf" v := by
  cases a with
  | none => exact Or.inl rfl
  | some v => exact Or.inr ⟨_, rfl⟩

/-- The statement `withMinLength` leaves `result` as it is or assigns `minLength`. -/
theorem withMinLength_shape (r : JSObject) (a : Option Int) :
    withMinLength r a = r ∨ ∃ v, withMinLength r a = JSObject.set r "minLength" v := by
  cases a with
  | none => exact Or.inl rfl
  | some v => exact Or.inr ⟨_, rfl⟩

/-- The block `withType` is an optional assignment of `type` followed by an
optional assignment of `nullable: true`. -/
theorem withType_shape (r : JSObject) (a : Option SchemaType) :
    ∃ r1, (r1 = r ∨ ∃ v, r1 = JSObject.set r "type" v) ∧
      (withType r a = r1 ∨ withType r a = JSObject.set r1 "nullable" (.bool true)) := by
  cases a with
  | none => exact ⟨r, Or.inl rfl, Or.inl rfl⟩
  | some t =>
    cases t with
    | multiple ts =>
      by_cases h : ts.contains "null" = true
      · exact ⟨JSObject.set r "type" (firstTypeName (ts.filter (fun t => t ≠ "null"))),
          Or.inr ⟨_, rfl⟩, Or.inr (by simp only [withType, h, if_true])⟩
      · exact ⟨JSObject.set r "type" (.array (ts.map JSValue.string)),
          Or.inr ⟨_, rfl⟩, Or.inl (by simp only [withType, h]; rfl)⟩
    | single t =>
      by_cases h1 : t = ""
      · exact ⟨r, Or.inl rfl, Or.inl (by simp [withType, h1])⟩
      · by_cases h2 : t = "null"
        · exact ⟨JSObject.set r "type" (.string "null"),
            Or.inr ⟨_, rfl⟩, Or.inl (by simp [withType, h2])⟩
        · exact ⟨JSObject.set r "type" (.string t),
            Or.inr ⟨_, rfl⟩, Or.inl (by simp only [withType, h1, h2, if_false])⟩

/-- The four outcomes of the block `withAnyOf`. -/
theorem withAnyOf_shape (r : JSObject) (anyOf : Option (List JSONSchema7Definition))
    (nn all : List JSValue) :
    withAnyOf r anyOf nn all = r ∨
    (∃ v, withAnyOf r anyOf nn all = JSObject.set r "anyOf" v) ∨
    (∃ v, withAnyOf r anyOf nn all =
      JSObject.set (JSObject.set r "anyOf" v) "nullable" (.bool true)) ∨
    (∃ xs c, anyOf = some xs ∧ xs.any isNullTypeSchema = true ∧
      (xs.filter (fun s => !isNullTypeSchema s)).length = 1 ∧ firstValue nn = .object c ∧
      withAnyOf r anyOf nn all = JSObject.assign (JSObject.set r "nullable" (.bool true)) c) := by
  cases anyOf with
  | none => exact Or.inl rfl
  | some xs =>
    by_cases h1 : xs.any isNullTypeSchema = true
    · by_cases h2 : (xs.filter (fun s => !isNullTypeSchema s)).length = 1
      · cases h3 : firstValue nn with
        | object c =>
          refine Or.inr (Or.inr (Or.inr ⟨xs, c, rfl, h1, h2, rfl, ?_⟩))
          simp only [withAnyOf, h1, h2, h3, if_true]
        | undefined => exact Or.inl (by simp only [withAnyOf, h1, h2, h3, if_true])
        | null => exact Or.inl (by simp only [withAnyOf, h1, h2, h3, if_true])
        | bool b => exact Or.inl (by simp only [withAnyOf, h1, h2, h3, if_true])
        | number n => exact Or.inl (by simp only [withAnyOf, h1, h2, h3, if_true])
        | string s => exact Or.inl (by simp only [withAnyOf, h1, h2, h3, if_true])
        | array ys => exact Or.inl (by simp only [withAnyOf, h1, h2, h3, if_true])
      · exact Or.inr (Or.inr (Or.inl
          ⟨.array nn, by simp only [withAnyOf, h1, h2, if_true, if_false]⟩))
    · exact Or.inr (Or.inl ⟨.array all, by simp only [withAnyOf, h1]; rfl⟩)

/-! ## Schema translator: facts about the result object -/

/-- The block `withType` changes no key other than `type` and `nullable`. -/
theorem get?_withType (r : JSObject) (a : Option SchemaType) (k : String)
    (h1 : k ≠ "type") (h2 : k ≠ "nullable") :
    JSObject.get? (withType r a) k = JSObject.get? r k := by
  obtain ⟨r1, hr1, hr⟩ := withType_shape r a
  have e1 := get?_of_step r r1 "type" k hr1 h1
  rcases hr with hr | hr
  · rw [hr, e1]
  · rw [hr, JSObject.get?_set_of_ne r1 "nullable" k _ h2, e1]

/-- The block `withType` removes no key. -/
theorem keys_withType (r : JSObject) (a : Option SchemaType) (k : String)
    (h : k ∈ JSObject.keys r) : k ∈ JSObject.keys (withType r a) := by
  obtain ⟨r1, hr1, hr⟩ := withType_shape r a
  have e1 := (keys_of_step r r1 "type" k hr1).1 h
  rcases hr with hr | hr
  · rw [hr]; exact e1
  · rw [hr]; exact (JSObject.mem_keys_set r1 "nullable" k _).mpr (Or.inl e1)

/-- The block `withType` keeps the keys free of repetition. -/
theorem nodup_withType (r : JSObject) (a : Option SchemaType) (h : (JSObject.keys r).Nodup) :
    (JSObject.keys (withType r a)).Nodup := by
  obtain ⟨r1, hr1, hr⟩ := withType_shape r a
  have e1 := nodup_of_step r r1 "type" hr1 h
  rcases hr with hr | hr
  · rw [hr]; exact e1
  · rw [hr]; exact JSObject.nodup_keys_set r1 "nullable" _ e1

/-- The entries added by the block `withType`. -/
theorem mem_withType (r : JSObject) (a : Option SchemaType) (p : String × JSValue)
    (hp : p ∈ withType r a) : p ∈ r ∨ p.1 = "type" ∨ p = ("nullable", .bool true) := by
  obtain ⟨r1, hr1, hr⟩ := withType_shape r a
  rcases hr with hr | hr
  · rw [hr] at hp
    rcases mem_of_step r r1 "type" p hr1 hp with h | h
    · exact Or.inl h
    · exact Or.inr (Or.inl h)
  · rw [hr] at hp
    rcases JSObject.mem_set r1 "nullable" _ p hp with h | h
    · rcases mem_of_step r r1 "type" p hr1 h with h3 | h3
      · exact Or.inl h3
      · exact Or.inr (Or.inl h3)
    · exact Or.inr (Or.inr h)

/-- For a `type` array that contains `"null"`, the block `withType` assigns the
first other entry to `type` and `true` to `nullable`. -/
theorem get?_withType_nullable (r : JSObject) (ts : List String) (h : "null" ∈ ts) :
    JSObject.get? (withType r (some (.multiple ts))) "type" =
        some (firstTypeName (ts.filter (fun t => t ≠ "null"))) ∧
    JSObject.get? (withType r (some (.multiple ts))) "nullable" = some (.bool true) := by
  have hc : ts.contains "null" = true := by simpa using h
  simp only [withType, hc, if_true]
  constructor
  · rw [JSObject.get?_set_of_ne _ "nullable" "type" _ (by decide), JSObject.get?_set_self]
  · rw [JSObject.get?_set_self]

/-- The block `withAnyOf` removes no key. -/
theorem keys_withAnyOf (r : JSObject) (anyOf : Option (List JSONSchema7Definition))
    (nn all : List JSValue) (k : String) (h : k ∈ JSObject.keys r) :
    k ∈ JSObject.keys (withAnyOf r anyOf nn all) := by
  rcases withAnyOf_shape r anyOf nn all with hs | ⟨v, hs⟩ | ⟨v, hs⟩ | ⟨xs, c, _, _, _, _, hs⟩
  · rw [hs]; exact h
  · rw [hs]; exact (JSObject.mem_keys_set r "anyOf" k v).mpr (Or.inl h)
  · rw [hs]
    exact (JSObject.mem_keys_set _ "nullable" k _).mpr
      (Or.inl ((JSObject.mem_keys_set r "anyOf" k v).mpr (Or.inl h)))
  · rw [hs]
    exact (JSObject.mem_keys_assign c _ k).mpr
      (Or.inl ((JSObject.mem_keys_set r "nullable" k _).mpr (Or.inl h)))

/-- The block `withAnyOf` keeps the keys free of repetition. -/
theorem nodup_withAnyOf (r : JSObject) (anyOf : Option (List JSONSchema7Definition))
    (nn all : List JSValue) (h : (JSObject.keys r).Nodup) :
    (JSObject.keys (withAnyOf r anyOf nn all)).Nodup := by
  rcases withAnyOf_shape r anyOf nn all with hs | ⟨v, hs⟩ | ⟨v, hs⟩ | ⟨xs, c, _, _, _, _, hs⟩
  · rw [hs]; exact h
  · rw [hs]; exact JSObject.nodup_keys_set r "anyOf" v h
  · rw [hs]
    exact JSObject.nodup_keys_set _ "nullable" _ (JSObject.nodup_keys_set r "anyOf" v h)
  · rw [hs]
    exact JSObject.nodup_keys_assign c _ (JSObject.nodup_keys_set r "nullable" _ h)

/-- The entries added by the block `withAnyOf`. -/
theorem mem_withAnyOf (r : JSObject) (anyOf : Option (List JSONSchema7Definition))
    (nn all : List JSValue) (p : String × JSValue) (hp : p ∈ withAnyOf r anyOf nn all) :
    p ∈ r ∨ p.1 = "anyOf" ∨ p = ("nullable", .bool true) ∨
      ∃ c, firstValue nn = .object c ∧ p ∈ c := by
  rcases withAnyOf_shape r anyOf nn all with hs | ⟨v, hs⟩ | ⟨v, hs⟩ | ⟨xs, c, _, _, _, hc, hs⟩
  · rw [hs] at hp; exact Or.inl hp
  · rw [hs] at hp
    rcases JSObject.mem_set r "anyOf" v p hp with h | h
    · exact Or.inl h
    · exact Or.inr (Or.inl (by rw [h]))
  · rw [hs] at hp
    rcases JSObject.mem_set _ "nullable" _ p hp with h | h
    · rcases JSObject.mem_set r "anyOf" v p h with h1 | h1
      · exact Or.inl h1
      · exact Or.inr (Or.inl (by rw [h1]))
    · exact Or.inr (Or.inr (Or.inl h))
  · rw [hs] at hp
    rcases JSObject.mem_assign c _ p hp with h | h
    · rcases JSObject.mem_set r "nullable" _ p h with h1 | h1
      · exact Or.inl h1
      · exact Or.inr (Or.inr (Or.inl h1))
    · exact Or.inr (Or.inr (Or.inr ⟨c, hc, h⟩))

/-- The block `withAnyOf` leaves a key as it was, provided the key is neither
`anyOf` nor `nullable` and is not a key of a branch that gets merged. -/
theorem get?_withAnyOf (r : JSObject) (anyOf : Option (List JSONSchema7Definition))
    (nn all : List JSValue) (k : String) (h1 : k ≠ "anyOf") (h2 : k ≠ "nullable")
    (h3 : ∀ xs c, anyOf = some xs → xs.any isNullTypeSchema = true →
      (xs.filter (fun s => !isNullTypeSchema s)).length = 1 → firstValue nn = .object c →
      k ∉ JSObject.keys c) :
    JSObject.get? (withAnyOf r anyOf nn all) k = JSObject.get? r k := by
  rcases withAnyOf_shape r anyOf nn all with hs | ⟨v, hs⟩ | ⟨v, hs⟩ | ⟨xs, c, ha, hb, hl, hc, hs⟩
  · rw [hs]
  · rw [hs, JSObject.get?_set_of_ne r "anyOf" k v h1]
  · rw [hs, JSObject.get?_set_of_ne _ "nullable" k _ h2, JSObject.get?_set_of_ne r "anyOf" k v h1]
  · rw [hs, JSObject.get?_assign_of_not_mem c _ k (h3 xs c ha hb hl hc),
      JSObject.get?_set_of_ne r "nullable" k _ h2]

/-- The result object has no key twice. -/
theorem nodup_buildResult (type : Option SchemaType) (description : Option String)
    (required : Option (List String)) (format : Option String) (constValue : Option JSValue)
    (minLength : Option Int) (enumValues : Option (List JSValue))
    (properties : Option (List (String × JSValue))) (items : Option JSValue)
    (allOf : Option (List JSValue)) (anyOf : Option (List JSONSchema7Definition))
    (nn all : List JSValue) (oneOf : Option (List JSValue)) :
    (JSObject.keys (buildResult type description required format constValue minLength enumValues
      properties items allOf anyOf nn all oneOf)).Nodup := by
  simp only [buildResult]
  apply nodup_of_step _ _ "minLength" (withMinLength_shape _ _)
  apply nodup_of_step _ _ "oneOf" (withOneOf_shape _ _)
  apply nodup_withAnyOf
  apply nodup_of_step _ _ "allOf" (withAllOf_shape _ _)
  apply nodup_of_step _ _ "items" (withItems_shape _ _)
  apply nodup_of_step _ _ "properties" (withProperties_shape _ _)
  apply nodup_of_step _ _ "enum" (withEnum_shape _ _)
  apply nodup_withType
  apply nodup_of_step _ _ "enum" (withConst_shape _ _)
  apply nodup_of_step _ _ "format" (withFormat_shape _ _)
  apply nodup_of_step _ _ "required" (withRequired_shape _ _)
  apply nodup_of_step _ _ "description" (withDescription_shape _ _)
  exact List.nodup_nil

/-- Every entry of the result object is assigned by one of the statements: its
key is one of the eleven keywords, or it is `nullable: true`, or it comes from
the merged `anyOf` branch. -/
theorem mem_buildResult (type : Option SchemaType) (description : Option String)
    (required : Option (List String)) (format : Option String) (constValue : Option JSValue)
    (minLength : Option Int) (enumValues : Option (List JSValue))
    (properties : Option (List (String × JSValue))) (items : Option JSValue)
    (allOf : Option (List JSValue)) (anyOf : Option (List JSONSchema7Definition))
    (nn all : List JSValue) (oneOf : Option (List JSValue)) (p : String × JSValue)
    (hp : p ∈ buildResult type description required format constValue minLength enumValues
      properties items allOf anyOf nn all oneOf) :
    p.1 ∈ ["description", "required", "format", "enum", "type", "properties", "items", "allOf",
      "anyOf", "oneOf", "minLength"] ∨ p = ("nullable", .bool true) ∨
      ∃ c, firstValue nn = .object c ∧ p ∈ c := by
  simp only [buildResult] at hp
  rcases mem_of_step _ _ "minLength" p (withMinLength_shape _ _) hp with hp | h
  swap
  · exact Or.inl (by rw [h]; decide)
  rcases mem_of_step _ _ "oneOf" p (withOneOf_shape _ _) hp with hp | h
  swap
  · exact Or.inl (by rw [h]; decide)
  rcases mem_withAnyOf _ _ _ _ p hp with hp | h | h | h
  rotate_left
  · exact Or.inl (by rw [h]; decide)
  · exact Or.inr (Or.inl h)
  · exact Or.inr (Or.inr h)
  rcases mem_of_step _ _ "allOf" p (withAllOf_shape _ _) hp with hp | h
  swap
  · exact Or.inl (by rw [h]; decide)
  rcases mem_of_step _ _ "items" p (withItems_shape _ _) hp with hp | h
  swap
  · exact Or.inl (by rw [h]; decide)
  rcases mem_of_step _ _ "properties" p (withProperties_shape _ _) hp with hp | h
  swap
  · exact Or.inl (by rw [h]; decide)
  rcases mem_of_step _ _ "enum" p (withEnum_shape _ _) hp with hp | h
  swap
  · exact Or.inl (by rw [h]; decide)
  rcases mem_withType _ _ p hp with hp | h | h
  rotate_left
  · exact Or.inl (by rw [h]; decide)
  · exact Or.inr (Or.inl h)
  rcases mem_of_step _ _ "enum" p (withConst_shape _ _) hp with hp | h
  swap
  · exact Or.inl (by rw [h]; decide)
  rcases mem_of_step _ _ "format" p (withFormat_shape _ _) hp with hp | h
  swap
  · exact Or.inl (by rw [h]; decide)
  rcases mem_of_step _ _ "required" p (withRequired_shape _ _) hp with hp | h
  swap
  · exact Or.inl (by rw [h]; decide)
  rcases mem_of_step _ _ "description" p (withDescription_shape _ _) hp with hp | h
  swap
  · exact Or.inl (by rw [h]; decide)
  simp at hp

/-- The first element of a mapped list, when it is an object, is the image of
an element of the list. -/
theorem firstValue_map_object (f : JSONSchema7Definition → JSValue)
    (xs : List JSONSchema7Definition) (c : JSObject)
    (h : firstValue (xs.map f) = .object c) : ∃ b ∈ xs, f b = .object c := by
  cases xs with
  | nil => simp [firstValue] at h
  | cons b rest => exact ⟨b, List.mem_cons_self _ _, h⟩

/-- In every translated schema, at the top level, `nullable` holds no value
other than `true`. -/
theorem nullable_entries_true (s : JSONSchema7Definition) :
    ∀ obj, convertJSONSchemaToOpenAPISchema s = .object obj →
      ∀ v, ("nullable", v) ∈ obj → v = .bool true := by
  induction s using schema_induction with
  | hbool b =>
    intro obj h v hv
    rw [convert_boolean] at h
    injection h with h
    rw [← h] at hv
    simp at hv
  | hschema type description required properties items allOf anyOf oneOf format constValue
      minLength enumValues others _ _ _ _ ihAny _ =>
    intro obj h v hv
    rw [convert_schema] at h
    split at h
    · cases h
    · injection h with h
      rw [← h] at hv
      rcases mem_buildResult _ _ _ _ _ _ _ _ _ _ _ _ _ _ _ hv with h1 | h1 | ⟨c, hc, hmem⟩
      · simp at h1
      · injection h1 with _ h2
      · obtain ⟨b, hb, hconv⟩ := firstValue_map_object _ _ c hc
        cases anyOf with
        | none => simp at hb
        | some xs =>
          have hb1 : b ∈ xs := by
            simp only [Option.getD_some] at hb
            exact (List.mem_filter.mp hb).1
          exact ihAny xs rfl b hb1 c hconv v hmem

/-- An empty-object schema translates to `undefined`. -/
theorem convert_of_isEmptyObjectSchema (s : JSONSchema7Definition)
    (h : isEmptyObjectSchema s = true) : convertJSONSchemaToOpenAPISchema s = .undefined := by
  cases s with
  | boolean b => simp [isEmptyObjectSchema] at h
  | schema type description required properties items allOf anyOf oneOf format constValue
      minLength enumValues others =>
    rw [convert_schema, if_pos h]

/-- A schema that is not an empty-object schema translates to an object without
a repeated key. -/
theorem convert_of_not_isEmptyObjectSchema (s : JSONSchema7Definition)
    (h : isEmptyObjectSchema s = false) :
    ∃ obj, convertJSONSchemaToOpenAPISchema s = .object obj ∧ (JSObject.keys obj).Nodup := by
  cases s with
  | boolean b => exact ⟨_, convert_boolean b, by decide⟩
  | schema type description required properties items allOf anyOf oneOf format constValue
      minLength enumValues others =>
    rw [convert_schema, h]
    exact ⟨_, rfl, nodup_buildResult _ _ _ _ _ _ _ _ _ _ _ _ _ _⟩

/-- The object of a translated schema has no key twice. -/
theorem nodup_keys_convert (s : JSONSchema7Definition) (obj : JSObject)
    (h : convertJSONSchemaToOpenAPISchema s = .object obj) : (JSObject.keys obj).Nodup := by
  cases he : isEmptyObjectSchema s with
  | true => rw [convert_of_isEmptyObjectSchema s he] at h; cases h
  | false =>
    obtain ⟨o, ho, hnd⟩ := convert_of_not_isEmptyObjectSchema s he
    rw [ho] at h
    injection h with h
    rw [← h]; exact hnd

/-- Claim C3: the translator returns `undefined` exactly for a schema object
whose type is `"object"` and whose properties are absent or have no key,
whatever its other keywords; every other input gives a schema object. -/
theorem convertJSONSchemaToOpenAPISchema_undefined_iff (s : JSONSchema7Definition) :
    (convertJSONSchemaToOpenAPISchema s = .undefined ↔
      ∃ description required properties items allOf anyOf oneOf format constValue minLength
        enumValues others,
        s = .schema (some (.single "object")) description required properties items allOf anyOf
          oneOf format constValue minLength enumValues others ∧
        (properties = none ∨ properties = some [])) ∧
    (convertJSONSchemaToOpenAPISchema s = .undefined ∨
      ∃ obj, convertJSONSchemaToOpenAPISchema s = .object obj) := by
  rw [← isEmptyObjectSchema_iff]
  cases he : isEmptyObjectSchema s with
  | true =>
    have h := convert_of_isEmptyObjectSchema s he
    exact ⟨⟨fun _ => rfl, fun _ => h⟩, Or.inl h⟩
  | false =>
    obtain ⟨obj, ho, _⟩ := convert_of_not_isEmptyObjectSchema s he
    refine ⟨⟨fun h => ?_, fun h => by cases h⟩, Or.inr ⟨obj, ho⟩⟩
    rw [ho] at h; cases h

/-- The first element of a filtered list of type names is the first element
that passes the filter. -/
theorem firstTypeName_filter (p : String → Bool) (ts : List String) :
    firstTypeName (ts.filter p) =
      match ts.find? p with
      | some t => .string t
      | none => .undefined := by
  induction ts with
  | nil => rfl
  | cons t rest ih =>
    by_cases h : p t = true
    · simp [List.filter, List.find?, h, firstTypeName]
    · simp only [Bool.not_eq_true] at h
      simp only [List.filter, List.find?, h]
      exact ih

/-- A list of length one is a singleton. -/
theorem eq_singleton_of_length_one {α : Type} (l : List α) (h : l.length = 1) :
    ∃ b, l = [b] := by
  cases l with
  | nil => simp at h
  | cons b rest =>
    cases rest with
    | nil => exact ⟨b, rfl⟩
    | cons c rest => simp at h

/-- Counterexample to C4 as stated: with `type: ["string", "null"]` and an
`anyOf` of a null branch and a number branch, the flattening of `anyOf`
replaces the type `"string"` by `"number"`. -/
theorem convert_type_array_overridden :
    convertJSONSchemaToOpenAPISchema
        (.schema (some (.multiple ["string", "null"])) none none none none none
          (some [schemaOfType (.single "null"), schemaOfType (.single "number")])
          none none none none none []) =
      .object [("type", .string "number"), ("nullable", .bool true)] ∧
    JSObject.get? [("type", JSValue.string "number"), ("nullable", JSValue.bool true)] "type" ≠
      some (.string "string") := by
  refine ⟨rfl, ?_⟩
  intro h
  simp [JSObject.get?] at h

/-- Claim C4, amended: for a schema whose type is an array containing
`"null"`, the translated schema has `nullable: true`; its `type` is the first
entry of the array that is not `"null"` (`undefined` when there is none),
unless the flattening of `anyOf` merges a branch whose translation has a
`type` of its own; and `type: ["string", "null"]` alone translates to exactly
`type: "string", nullable: true`. -/
theorem convert_type_array_with_null (ts : List String) (hnull : "null" ∈ ts)
    (description : Option String) (required : Option (List String))
    (properties : Option (List (String × JSONSchema7Definition)))
    (items : Option (OneOrMany JSONSchema7Definition))
    (allOf anyOf oneOf : Option (List JSONSchema7Definition))
    (format : Option String) (constValue : Option JSValue) (minLength : Option Int)
    (enumValues : Option (List JSValue)) (others : JSObject) :
    (∃ obj,
      convertJSONSchemaToOpenAPISchema
        (.schema (some (.multiple ts)) description required properties items allOf anyOf oneOf
          format constValue minLength enumValues others) = .object obj ∧
      JSObject.get? obj "nullable" = some (.bool true) ∧
      ((∀ xs b c, anyOf = some xs → xs.any isNullTypeSchema = true →
          xs.filter (fun s => !isNullTypeSchema s) = [b] →
          convertJSONSchemaToOpenAPISchema b = .object c → "type" ∉ JSObject.keys c) →
        JSObject.get? obj "type" =
          some (match ts.find? (fun t => t ≠ "null") with
            | some t => .string t
            | none => .undefined))) ∧
    convertJSONSchemaToOpenAPISchema (schemaOfType (.multiple ["string", "null"])) =
      .object [("type", .string "string"), ("nullable", .bool true)] := by
  refine ⟨?_, rfl⟩
  have hconv := convert_schema (some (.multiple ts)) description required properties items allOf
    anyOf oneOf format constValue minLength enumValues others
  have hne : isEmptyObjectSchema (.schema (some (.multiple ts)) description required properties
      items allOf anyOf oneOf format constValue minLength enumValues others) = false := by
    simp [isEmptyObjectSchema]
  rw [hne] at hconv
  simp only [Bool.false_eq_true, if_false] at hconv
  refine ⟨_, hconv, ?_, ?_⟩
  · have hk : "nullable" ∈ JSObject.keys (buildResult (some (.multiple ts)) description required
        format constValue minLength enumValues
        (properties.map
          (fun ps => ps.map (fun kv => (kv.1, convertJSONSchemaToOpenAPISchema kv.2))))
        (convertItems items)
        (allOf.map (fun xs => xs.map convertJSONSchemaToOpenAPISchema))
        anyOf
        (((anyOf.getD []).filter (fun s => !isNullTypeSchema s)).map
          convertJSONSchemaToOpenAPISchema)
        ((anyOf.getD []).map convertJSONSchemaToOpenAPISchema)
        (oneOf.map (fun xs => xs.map convertJSONSchemaToOpenAPISchema))) := by
      simp only [buildResult]
      apply (keys_of_step _ _ "minLength" _ (withMinLength_shape _ _)).1
      apply (keys_of_step _ _ "oneOf" _ (withOneOf_shape _ _)).1
      apply keys_withAnyOf
      apply (keys_of_step _ _ "allOf" _ (withAllOf_shape _ _)).1
      apply (keys_of_step _ _ "items" _ (withItems_shape _ _)).1
      apply (keys_of_step _ _ "properties" _ (withProperties_shape _ _)).1
      apply (keys_of_step _ _ "enum" _ (withEnum_shape _ _)).1
      rw [JSObject.mem_keys_iff]
      exact ⟨_, (get?_withType_nullable _ ts hnull).2⟩
    obtain ⟨v, hv⟩ := (JSObject.mem_keys_iff _ _).mp hk
    have hv1 := nullable_entries_true _ _ hconv v (JSObject.mem_of_get? _ _ _ hv)
    rw [hv, hv1]
  · intro hbranch
    simp only [buildResult]
    rw [get?_of_step _ _ "minLength" "type" (withMinLength_shape _ _) (by decide),
      get?_of_step _ _ "oneOf" "type" (withOneOf_shape _ _) (by decide),
      get?_withAnyOf _ _ _ _ "type" (by decide) (by decide),
      get?_of_step _ _ "allOf" "type" (withAllOf_shape _ _) (by decide),
      get?_of_step _ _ "items" "type" (withItems_shape _ _) (by decide),
      get?_of_step _ _ "properties" "type" (withProperties_shape _ _) (by decide),
      get?_of_step _ _ "enum" "type" (withEnum_shape _ _) (by decide),
      (get?_withType_nullable _ ts hnull).1, firstTypeName_filter]
    intro xs c hxs hany hlen hfirst
    obtain ⟨b, hb⟩ := eq_singleton_of_length_one _ hlen
    subst hxs
    simp only [Option.getD_some, hb, List.map_cons, List.map_nil, firstValue] at hfirst
    exact hbranch xs b c rfl hany hb hfirst

/-- Witness for C4: the schema `type: ["string", "null"]`. -/
theorem convert_type_array_with_null_witness :
    "null" ∈ ["string", "null"] ∧
    ∃ obj,
      convertJSONSchemaToOpenAPISchema (schemaOfType (.multiple ["string", "null"])) =
        .object obj ∧
      JSObject.get? obj "nullable" = some (.bool true) ∧
      JSObject.get? obj "type" = some (.string "string") := by
  refine ⟨by decide, ?_⟩
  obtain ⟨⟨obj, h1, h2, h3⟩, _⟩ := convert_type_array_with_null ["string", "null"] (by decide)
    none none none none none none none none none none none []
  refine ⟨obj, h1, h2, ?_⟩
  have h4 := h3 (by intro xs b c h; cases h)
  rw [h4]
  rfl

/-- The statements before the `anyOf` block assign none of the keys `anyOf`,
`oneOf` and `minLength`. -/
theorem keys_before_anyOf (type : Option SchemaType) (description : Option String)
    (required : Option (List String)) (format : Option String) (constValue : Option JSValue)
    (enumValues : Option (List JSValue)) (properties : Option (List (String × JSValue)))
    (items : Option JSValue) (allOf : Option (List JSValue)) (k : String)
    (hk : k ∈ JSObject.keys (withAllOf (withItems (withProperties (withEnum (withType
      (withConst (withFormat (withRequired (withDescription [] description) required) format)
        constValue) type) enumValues) properties) items) allOf)) :
    k ∈ ["description", "required", "format", "enum", "type", "nullable", "properties", "items",
      "allOf"] := by
  rcases (keys_of_step _ _ "allOf" k (withAllOf_shape _ _)).2 hk with hk | h
  swap
  · rw [h]; decide
  rcases (keys_of_step _ _ "items" k (withItems_shape _ _)).2 hk with hk | h
  swap
  · rw [h]; decide
  rcases (keys_of_step _ _ "properties" k (withProperties_shape _ _)).2 hk with hk | h
  swap
  · rw [h]; decide
  rcases (keys_of_step _ _ "enum" k (withEnum_shape _ _)).2 hk with hk | h
  swap
  · rw [h]; decide
  obtain ⟨v, hv⟩ := (JSObject.mem_keys_iff _ _).mp hk
  rcases mem_withType _ _ _ (JSObject.mem_of_get? _ _ _ hv) with hp | h | h
  rotate_left
  · have h1 : k = "type" := h
    rw [h1]; decide
  · have h1 : k = "nullable" := congrArg Prod.fst h
    rw [h1]; decide
  have hk1 : k ∈ JSObject.keys (withConst (withFormat (withRequired
      (withDescription [] description) required) format) constValue) :=
    List.mem_map.mpr ⟨_, hp, rfl⟩
  rcases (keys_of_step _ _ "enum" k (withConst_shape _ _)).2 hk1 with hk | h
  swap
  · rw [h]; decide
  rcases (keys_of_step _ _ "format" k (withFormat_shape _ _)).2 hk with hk | h
  swap
  · rw [h]; decide
  rcases (keys_of_step _ _ "required" k (withRequired_shape _ _)).2 hk with hk | h
  swap
  · rw [h]; decide
  rcases (keys_of_step _ _ "description" k (withDescription_shape _ _)).2 hk with hk | h
  swap
  · rw [h]; decide
  simp [JSObject.keys] at hk

/-- Counterexample to C5 as stated.  First input: the only non-null branch is
an empty-object schema, its translation is `undefined`, the guard skips the
merge and the result is the empty object, without `nullable`.  Second input:
the only non-null branch has an `anyOf` of its own, which the merge copies, so
the result has an `anyOf` key. -/
theorem convert_anyOf_flatten_exceptions :
    convertJSONSchemaToOpenAPISchema
        (schemaOfAnyOf [schemaOfType (.single "null"), schemaOfType (.single "object")]) =
      .object [] ∧
    JSObject.get? [] "nullable" = none ∧
    convertJSONSchemaToOpenAPISchema
        (schemaOfAnyOf [schemaOfType (.single "null"),
          schemaOfAnyOf [schemaOfType (.single "string"), schemaOfType (.single "number")]]) =
      .object [("nullable", .bool true),
        ("anyOf", .array [.object [("type", .string "string")],
          .object [("type", .string "number")]])] ∧
    "anyOf" ∈ JSObject.keys [("nullable", JSValue.bool true),
        ("anyOf", JSValue.array [JSValue.object [("type", JSValue.string "string")],
          JSValue.object [("type", JSValue.string "number")]])] :=
  ⟨rfl, rfl, rfl, by decide⟩

/-- Claim C5, amended: for a translated schema whose `anyOf` has a null-typed
branch and exactly one other branch `b`: when `b` translates to a schema, the
result has `nullable: true`, has every key of the translation of `b` (with the
value from `b`, except that an outer `oneOf` or `minLength` is assigned
afterwards), and has an `anyOf` key only if the translation of `b` has one;
when `b` translates to `undefined`, nothing is merged and the result is that
of the same schema without `anyOf`. -/
theorem convert_anyOf_flatten (type : Option SchemaType) (description : Option String)
    (required : Option (List String))
    (properties : Option (List (String × JSONSchema7Definition)))
    (items : Option (OneOrMany JSONSchema7Definition))
    (allOf oneOf : Option (List JSONSchema7Definition))
    (format : Option String) (constValue : Option JSValue) (minLength : Option Int)
    (enumValues : Option (List JSValue)) (others : JSObject)
    (xs : List JSONSchema7Definition) (b : JSONSchema7Definition)
    (hnull : xs.any isNullTypeSchema = true)
    (hone : xs.filter (fun s => !isNullTypeSchema s) = [b])
    (hne : isEmptyObjectSchema (.schema type description required properties items allOf
      (some xs) oneOf format constValue minLength enumValues others) = false) :
    ∃ obj,
      convertJSONSchemaToOpenAPISchema
        (.schema type description required properties items allOf (some xs) oneOf format
          constValue minLength enumValues others) = .object obj ∧
      (∀ c, convertJSONSchemaToOpenAPISchema b = .object c →
        JSObject.get? obj "nullable" = some (.bool true) ∧
        (∀ k ∈ JSObject.keys c, k ∈ JSObject.keys obj ∧
          ((oneOf = none ∨ k ≠ "oneOf") → (minLength = none ∨ k ≠ "minLength") →
            JSObject.get? obj k = JSObject.get? c k)) ∧
        ("anyOf" ∈ JSObject.keys obj → "anyOf" ∈ JSObject.keys c)) ∧
      (convertJSONSchemaToOpenAPISchema b = .undefined →
        convertJSONSchemaToOpenAPISchema
          (.schema type description required properties items allOf (some xs) oneOf format
            constValue minLength enumValues others) =
        convertJSONSchemaToOpenAPISchema
          (.schema type description required properties items allOf none oneOf format
            constValue minLength enumValues others)) := by
  have hconv := convert_schema type description required properties items allOf (some xs) oneOf
    format constValue minLength enumValues others
  rw [hne] at hconv
  simp only [Bool.false_eq_true, if_false, Option.getD_some, hone, List.map_cons,
    List.map_nil] at hconv
  refine ⟨_, hconv, ?_, ?_⟩
  · intro c hc
    have hlen : (xs.filter (fun s => !isNullTypeSchema s)).length = 1 := by rw [hone]; rfl
    have hany : ∀ r all, withAnyOf r (some xs) [convertJSONSchemaToOpenAPISchema b] all =
        JSObject.assign (JSObject.set r "nullable" (.bool true)) c := by
      intro r all
      simp only [withAnyOf, hnull, hlen, if_true, firstValue, hc]
    have hkeys : ∀ k ∈ JSObject.keys c, k ∈ JSObject.keys (buildResult type description required
        format constValue minLength enumValues
        (properties.map
          (fun ps => ps.map (fun kv => (kv.1, convertJSONSchemaToOpenAPISchema kv.2))))
        (convertItems items)
        (allOf.map (fun xs => xs.map convertJSONSchemaToOpenAPISchema))
        (some xs) [convertJSONSchemaToOpenAPISchema b]
        (xs.map convertJSONSchemaToOpenAPISchema)
        (oneOf.map (fun xs => xs.map convertJSONSchemaToOpenAPISchema))) := by
      intro k hk
      simp only [buildResult]
      apply (keys_of_step _ _ "minLength" _ (withMinLength_shape _ _)).1
      apply (keys_of_step _ _ "oneOf" _ (withOneOf_shape _ _)).1
      rw [hany]
      exact (JSObject.mem_keys_assign c _ k).mpr (Or.inr hk)
    refine ⟨?_, ?_, ?_⟩
    · have hk : "nullable" ∈ JSObject.keys (buildResult type description required
          format constValue minLength enumValues
          (properties.map
            (fun ps => ps.map (fun kv => (kv.1, convertJSONSchemaToOpenAPISchema kv.2))))
          (convertItems items)
          (allOf.map (fun xs => xs.map convertJSONSchemaToOpenAPISchema))
          (some xs) [convertJSONSchemaToOpenAPISchema b]
          (xs.map convertJSONSchemaToOpenAPISchema)
          (oneOf.map (fun xs => xs.map convertJSONSchemaToOpenAPISchema))) := by
        simp only [buildResult]
        apply (keys_of_step _ _ "minLength" _ (withMinLength_shape _ _)).1
        apply (keys_of_step _ _ "oneOf" _ (withOneOf_shape _ _)).1
        rw [hany]
        exact (JSObject.mem_keys_assign c _ _).mpr
          (Or.inl ((JSObject.mem_keys_set _ "nullable" _ _).mpr (Or.inr rfl)))
      obtain ⟨v, hv⟩ := (JSObject.mem_keys_iff _ _).mp hk
      have hv1 := nullable_entries_true _ _ hconv v (JSObject.mem_of_get? _ _ _ hv)
      rw [hv, hv1]
    · intro k hk
      refine ⟨hkeys k hk, ?_⟩
      intro h1 h2
      simp only [buildResult]
      have e2 : ∀ r, JSObject.get? (withMinLength r minLength) k = JSObject.get? r k := by
        intro r
        rcases h2 with h2 | h2
        · rw [h2]; rfl
        · exact get?_of_step _ _ "minLength" k (withMinLength_shape _ _) h2
      have e1 : ∀ r, JSObject.get?
          (withOneOf r (oneOf.map (fun xs => xs.map convertJSONSchemaToOpenAPISchema))) k =
          JSObject.get? r k := by
        intro r
        rcases h1 with h1 | h1
        · rw [h1]; rfl
        · exact get?_of_step _ _ "oneOf" k (withOneOf_shape _ _) h1
      rw [e2, e1, hany,
        JSObject.get?_assign_of_mem c _ k (nodup_keys_convert b c hc) hk]
    · intro hk
      simp only [buildResult] at hk
      rcases (keys_of_step _ _ "minLength" _ (withMinLength_shape _ _)).2 hk with hk | h
      swap
      · exact absurd h (by decide)
      rcases (keys_of_step _ _ "oneOf" _ (withOneOf_shape _ _)).2 hk with hk | h
      swap
      · exact absurd h (by decide)
      rw [hany] at hk
      rcases (JSObject.mem_keys_assign c _ _).mp hk with hk | hk
      · rcases (JSObject.mem_keys_set _ "nullable" _ _).mp hk with hk | h
        · exact absurd (keys_before_anyOf _ _ _ _ _ _ _ _ _ _ hk) (by decide)
        · exact absurd h (by decide)
      · exact hk
  · intro hu
    have hconv2 := convert_schema type description required properties items allOf none oneOf
      format constValue minLength enumValues others
    have hne2 : isEmptyObjectSchema (.schema type description required properties items allOf
        none oneOf format constValue minLength enumValues others) = false := hne
    rw [hne2] at hconv2
    simp only [Bool.false_eq_true, if_false] at hconv2
    rw [hconv, hconv2]
    have hlen : (xs.filter (fun s => !isNullTypeSchema s)).length = 1 := by rw [hone]; rfl
    have hany : ∀ r all, withAnyOf r (some xs) [convertJSONSchemaToOpenAPISchema b] all = r := by
      intro r all
      simp only [withAnyOf, hnull, hlen, if_true, firstValue, hu]
    simp only [buildResult, hany]
    rfl

/-- Witness for C5: `anyOf` of a null branch and a string branch. -/
theorem convert_anyOf_flatten_witness :
    [schemaOfType (.single "null"), schemaOfType (.single "string")].any isNullTypeSchema =
      true ∧
    [schemaOfType (.single "null"), schemaOfType (.single "string")].filter
      (fun s => !isNullTypeSchema s) = [schemaOfType (.single "string")] ∧
    ∃ obj,
      convertJSONSchemaToOpenAPISchema
        (schemaOfAnyOf [schemaOfType (.single "null"), schemaOfType (.single "string")]) =
        .object obj ∧
      JSObject.get? obj "nullable" = some (.bool true) ∧
      JSObject.get? obj "type" = some (.string "string") ∧
      "anyOf" ∉ JSObject.keys obj := by
  refine ⟨rfl, rfl, ?_⟩
  obtain ⟨obj, h1, h2, _⟩ := convert_anyOf_flatten none none none none none none none none none
    none none [] [schemaOfType (.single "null"), schemaOfType (.single "string")]
    (schemaOfType (.single "string")) rfl rfl rfl
  obtain ⟨h3, h4, h5⟩ := h2 [("type", .string "string")] rfl
  refine ⟨obj, h1, h3, ?_, ?_⟩
  · rw [(h4 "type" (by decide)).2 (Or.inl rfl) (Or.inl rfl)]
    rfl
  · intro h
    exact absurd (h5 h) (by decide)

/-! ## Tool and tool-choice translator -/

/-- With search grounding off and a non-empty tool list, `prepareTools` runs
the loop over the tools and then dispatches on the tool choice. -/
theorem prepareTools_of_tools (ts : List Tool) (hts : ts ≠ []) (choice : Option ToolChoice)
    (dynamicRetrievalConfig : Option DynamicRetrievalConfig) (modelId : String) :
    prepareTools ⟨some ts, choice⟩ false dynamicRetrievalConfig modelId =
      match choice with
      | none =>
        .ok ⟨some (.functionDeclarations (prepareToolsLoop ([], []) ts).1), none,
          (prepareToolsLoop ([], []) ts).2⟩
      | some .auto =>
        .ok ⟨some (.functionDeclarations (prepareToolsLoop ([], []) ts).1),
          some ⟨⟨"AUTO", none⟩⟩, (prepareToolsLoop ([], []) ts).2⟩
      | some .none =>
        .ok ⟨some (.functionDeclarations (prepareToolsLoop ([], []) ts).1),
          some ⟨⟨"NONE", none⟩⟩, (prepareToolsLoop ([], []) ts).2⟩
      | some .required =>
        .ok ⟨some (.functionDeclarations (prepareToolsLoop ([], []) ts).1),
          some ⟨⟨"ANY", none⟩⟩, (prepareToolsLoop ([], []) ts).2⟩
      | some (.tool toolName) =>
        .ok ⟨some (.functionDeclarations (prepareToolsLoop ([], []) ts).1),
          some ⟨⟨"ANY", some [toolName]⟩⟩, (prepareToolsLoop ([], []) ts).2⟩
      | some (.other type) => .error ⟨"Unsupported tool choice type: " ++ type⟩ := by
  have hlen : ¬ ts.length = 0 := by
    intro h; exact hts (List.length_eq_zero.mp h)
  simp only [prepareTools, hlen, if_false, Bool.false_eq_true]

/-- Claim C6: with search grounding off and at least one tool supplied, the
tool choice `tool X` gives calling mode `ANY` with the allow-list `[X]`,
whether or not `X` is a declared tool and however many tools there are. -/
theorem prepareTools_tool_choice_tool (ts : List Tool) (hts : ts ≠ []) (toolName : String)
    (dynamicRetrievalConfig : Option DynamicRetrievalConfig) (modelId : String) :
    ∃ r, prepareTools ⟨some ts, some (.tool toolName)⟩ false dynamicRetrievalConfig modelId =
        .ok r ∧
      r.toolConfig = some ⟨⟨"ANY", some [toolName]⟩⟩ := by
  rw [prepareTools_of_tools ts hts]
  exact ⟨_, rfl, rfl⟩

/-- Witness for C6: one declared tool `f` and the choice of the undeclared
tool `X`. -/
theorem prepareTools_tool_choice_tool_witness :
    [Tool.function "f" none (.boolean true)] ≠ [] ∧
    ∃ r, prepareTools ⟨some [Tool.function "f" none (.boolean true)], some (.tool "X")⟩ false
        none "gemini-1.5-pro" = .ok r ∧
      r.toolConfig = some ⟨⟨"ANY", some ["X"]⟩⟩ :=
  ⟨by simp, prepareTools_tool_choice_tool [Tool.function "f" none (.boolean true)] (by simp) "X"
    none "gemini-1.5-pro"⟩

/-- Claim C7: with search grounding off and at least one tool supplied, an
absent tool choice gives the declarations and no `toolConfig`; `auto`, `none`
and `required` give the modes `AUTO`, `NONE` and `ANY` without an allow-list;
and the declarations (and warnings) are the same in all five cases. -/
theorem prepareTools_tool_choice_table (ts : List Tool) (hts : ts ≠ [])
    (dynamicRetrievalConfig : Option DynamicRetrievalConfig) (modelId : String) :
    ∃ declarations warnings,
      prepareTools ⟨some ts, none⟩ false dynamicRetrievalConfig modelId =
        .ok ⟨some (.functionDeclarations declarations), none, warnings⟩ ∧
      prepareTools ⟨some ts, some .auto⟩ false dynamicRetrievalConfig modelId =
        .ok ⟨some (.functionDeclarations declarations), some ⟨⟨"AUTO", none⟩⟩, warnings⟩ ∧
      prepareTools ⟨some ts, some .none⟩ false dynamicRetrievalConfig modelId =
        .ok ⟨some (.functionDeclarations declarations), some ⟨⟨"NONE", none⟩⟩, warnings⟩ ∧
      prepareTools ⟨some ts, some .required⟩ false dynamicRetrievalConfig modelId =
        .ok ⟨some (.functionDeclarations declarations), some ⟨⟨"ANY", none⟩⟩, warnings⟩ ∧
      ∀ toolName,
        prepareTools ⟨some ts, some (.tool toolName)⟩ false dynamicRetrievalConfig modelId =
          .ok ⟨some (.functionDeclarations declarations), some ⟨⟨"ANY", some [toolName]⟩⟩,
            warnings⟩ :=
  ⟨(prepareToolsLoop ([], []) ts).1, (prepareToolsLoop ([], []) ts).2,
    prepareTools_of_tools ts hts none _ _, prepareTools_of_tools ts hts (some .auto) _ _,
    prepareTools_of_tools ts hts (some .none) _ _,
    prepareTools_of_tools ts hts (some .required) _ _,
    fun toolName => prepareTools_of_tools ts hts (some (.tool toolName)) _ _⟩

/-- Witness for C7: one function tool without description. -/
theorem prepareTools_tool_choice_table_witness :
    [Tool.function "f" none (.boolean true)] ≠ [] ∧
    ∃ declarations warnings,
      prepareTools ⟨some [Tool.function "f" none (.boolean true)], none⟩ false none
          "gemini-1.5-pro" =
        .ok ⟨some (.functionDeclarations declarations), none, warnings⟩ ∧
      prepareTools ⟨some [Tool.function "f" none (.boolean true)], some .required⟩ false none
          "gemini-1.5-pro" =
        .ok ⟨some (.functionDeclarations declarations), some ⟨⟨"ANY", none⟩⟩, warnings⟩ := by
  refine ⟨by simp, ?_⟩
  obtain ⟨d, w, h1, _, _, h4, _⟩ := prepareTools_tool_choice_table
    [Tool.function "f" none (.boolean true)] (by simp) none "gemini-1.5-pro"
  exact ⟨d, w, h1, h4⟩

/-! ## Streaming: the finish event -/

/-- The loop over the tool calls enqueues no `finish` event. -/
theorem toolCallEvents_no_finish (calls : List ToolCall) :
    ∀ e ∈ toolCallEvents calls, e.isFinish = false := by
  induction calls with
  | nil => intro e he; simp [toolCallEvents] at he
  | cons tc rest ih =>
    intro e he
    simp only [toolCallEvents, List.mem_cons] at he
    rcases he with h | h | h
    · rw [h]; rfl
    · rw [h]; rfl
    · exact ih e h

/-- The content block of the transform enqueues no `finish` event. -/
theorem contentEvents_no_finish (stringify : JSValue → String) (generateId : Nat → String)
    (st : StreamState) (parts : Option (List ResponsePart)) :
    ∀ e ∈ (contentEvents stringify generateId st parts).2, e.isFinish = false := by
  have htext : ∀ e ∈ (match getTextFromParts parts with
      | some deltaText => [StreamPart.textDelta deltaText]
      | none => []), e.isFinish = false := by
    intro e he
    cases h : getTextFromParts parts with
    | none => rw [h] at he; simp at he
    | some t => rw [h] at he; simp at he; rw [he]; rfl
  have hfile : ∀ e ∈ (match getInlineDataParts parts with
      | some ps => ps.filterMap fileEvents
      | none => []), e.isFinish = false := by
    intro e he
    cases h : getInlineDataParts parts with
    | none => rw [h] at he; simp at he
    | some ps =>
      rw [h] at he
      obtain ⟨p, _, hp⟩ := List.mem_filterMap.mp he
      cases p with
      | text t => simp [fileEvents] at hp
      | functionCall n a => simp [fileEvents] at hp
      | inlineData m d => simp [fileEvents] at hp; rw [← hp]; rfl
  intro e he
  simp only [contentEvents] at he
  cases hc : (getToolCallsFromParts stringify generateId st.nextId parts).1 with
  | none =>
    rw [hc] at he
    simp only [List.mem_append] at he
    rcases he with h | h
    · exact htext e h
    · exact hfile e h
  | some calls =>
    rw [hc] at he
    simp only [List.mem_append] at he
    rcases he with (h | h) | h
    · exact htext e h
    · exact hfile e h
    · exact toolCallEvents_no_finish calls e h

/-- The transform enqueues no `finish` event. -/
theorem transform_no_finish (stringify : JSValue → String) (generateId : Nat → String)
    (st : StreamState) (chunk : ParseResult) :
    ∀ e ∈ (transform stringify generateId st chunk).2, e.isFinish = false := by
  intro e he
  cases chunk with
  | failure err =>
    simp only [transform, List.mem_singleton] at he
    rw [he]; rfl
  | success value =>
    simp only [transform] at he
    cases hcs : value.candidates with
    | none => rw [hcs] at he; simp at he
    | some cs =>
      cases cs with
      | nil => rw [hcs] at he; simp at he
      | cons candidate rest =>
        rw [hcs] at he
        simp only at he
        have hcontent : ∀ (st1 : StreamState), ∀ e ∈ (match candidate.content with
            | .absent => (st1, [])
            | .empty => contentEvents stringify generateId st1 none
            | .content _ parts => contentEvents stringify generateId st1 parts.value).2,
            e.isFinish = false := by
          intro st1 e he
          cases hcc : candidate.content with
          | absent => rw [hcc] at he; simp at he
          | empty => rw [hcc] at he; exact contentEvents_no_finish _ _ _ _ e he
          | content role parts => rw [hcc] at he; exact contentEvents_no_finish _ _ _ _ e he
        cases hfr : candidate.finishReason with
        | none =>
          rw [hfr] at he
          exact hcontent _ e he
        | some reason =>
          rw [hfr] at he
          simp only [List.mem_append, List.mem_map] at he
          rcases he with h | ⟨src, _, h⟩
          · exact hcontent _ e h
          · rw [← h]; rfl

/-- No call of the transform enqueues a `finish` event. -/
theorem transformAll_no_finish (stringify : JSValue → String) (generateId : Nat → String)
    (chunks : List ParseResult) :
    ∀ (st : StreamState), ∀ e ∈ (transformAll stringify generateId st chunks).2,
      e.isFinish = false := by
  induction chunks with
  | nil => intro st e he; simp [transformAll] at he
  | cons chunk rest ih =>
    intro st e he
    simp only [transformAll, List.mem_append] at he
    rcases he with h | h
    · exact transform_no_finish _ _ _ _ e h
    · exact ih _ e h

/-- Claim C8: for every finite inbound sequence, failed and successful chunks
mixed, the empty sequence included, the outbound sequence holds exactly one
`finish` event and that event is the last one. -/
theorem doStreamEvents_one_finish_last (stringify : JSValue → String)
    (generateId : Nat → String) (nextId : Nat) (chunks : List ParseResult) :
    ((doStreamEvents stringify generateId nextId chunks).filter StreamPart.isFinish).length = 1 ∧
    ∃ events finishReason usage providerMetadata,
      doStreamEvents stringify generateId nextId chunks =
        events ++ [.finish finishReason usage providerMetadata] ∧
      ∀ e ∈ events, e.isFinish = false := by
  have hno := transformAll_no_finish stringify generateId chunks (StreamState.initial nextId)
  have heq : doStreamEvents stringify generateId nextId chunks =
      (transformAll stringify generateId (StreamState.initial nextId) chunks).2 ++
        [.finish (transformAll stringify generateId (StreamState.initial nextId) chunks).1.finishReason
          (transformAll stringify generateId (StreamState.initial nextId) chunks).1.usage
          (transformAll stringify generateId (StreamState.initial nextId) chunks).1.providerMetadata] :=
    rfl
  refine ⟨?_, _, _, _, _, heq, hno⟩
  rw [heq, List.filter_append]
  have h0 : (transformAll stringify generateId (StreamState.initial nextId) chunks).2.filter
      StreamPart.isFinish = [] := by
    rw [List.filter_eq_nil_iff]
    intro e he
    rw [hno e he]
    simp
  rw [h0]
  rfl

/-! ## Response mapping: text and finish reason -/

/-- The texts of the text parts, in part order, are what the filter on
`"text" in part` followed by the map to `part.text` yields. -/
theorem textOf_filter_eq_filterMap (ps : List ResponsePart) :
    (ps.filter ResponsePart.isText).map ResponsePart.textOf =
      ps.filterMap (fun p => match p with
        | .text t => some t
        | _ => none) := by
  induction ps with
  | nil => rfl
  | cons p rest ih =>
    cases p with
    | text t =>
      simp only [List.filter, ResponsePart.isText, List.map_cons, ResponsePart.textOf,
        List.filterMap_cons]
      rw [ih]
    | functionCall n a =>
      simp only [List.filter, ResponsePart.isText, List.filterMap_cons]
      exact ih
    | inlineData m d =>
      simp only [List.filter, ResponsePart.isText, List.filterMap_cons]
      exact ih

/-- Claim C9: `getTextFromParts` returns `undefined` exactly when the list is
absent or holds no text part; otherwise it returns the concatenation, in part
order, of the texts of the text parts, the other parts being skipped; the text
parts `"Hello, "` and `"world"` give `"Hello, world"`. -/
theorem getTextFromParts_spec :
    getTextFromParts none = none ∧
    (∀ ps : List ResponsePart,
      getTextFromParts (some ps) = none ↔ ∀ p ∈ ps, p.isText = false) ∧
    (∀ ps : List ResponsePart, (∃ p ∈ ps, p.isText = true) →
      getTextFromParts (some ps) =
        some (String.join (ps.filterMap (fun p => match p with
          | .text t => some t
          | _ => none)))) ∧
    getTextFromParts (some [.text "Hello, ", .text "world"]) = some "Hello, world" ∧
    getTextFromParts (some [.text "Hello, ", .functionCall "f" .null, .text "world"]) =
      some "Hello, world" := by
  refine ⟨rfl, ?_, ?_, by decide, by decide⟩
  · intro ps
    simp only [getTextFromParts]
    constructor
    · intro h
      by_cases hl : (ps.filter ResponsePart.isText).length = 0
      · intro p hp
        have hnil : ps.filter ResponsePart.isText = [] := List.length_eq_zero.mp hl
        rw [List.filter_eq_nil_iff] at hnil
        simpa using hnil p hp
      · rw [if_neg hl] at h; cases h
    · intro h
      have hnil : ps.filter ResponsePart.isText = [] := by
        rw [List.filter_eq_nil_iff]
        intro p hp
        rw [h p hp]
        simp
      rw [hnil]
      rfl
  · rintro ps ⟨p, hp, ht⟩
    simp only [getTextFromParts]
    have hl : ¬ (ps.filter ResponsePart.isText).length = 0 := by
      intro h
      have hnil : ps.filter ResponsePart.isText = [] := List.length_eq_zero.mp h
      rw [List.filter_eq_nil_iff] at hnil
      exact hnil p hp ht
    rw [if_neg hl, textOf_filter_eq_filterMap]

/-- Witness for C9: a list with one text part among others. -/
theorem getTextFromParts_spec_witness :
    (∃ p ∈ [ResponsePart.inlineData "image/png" "AAAA", ResponsePart.text "ok"],
      p.isText = true) ∧
    getTextFromParts (some [.inlineData "image/png" "AAAA", .text "ok"]) =
      some (String.join ([ResponsePart.inlineData "image/png" "AAAA",
        ResponsePart.text "ok"].filterMap (fun p => match p with
          | .text t => some t
          | _ => none))) ∧
    (getTextFromParts (some [.inlineData "image/png" "AAAA"]) = none ↔
      ∀ p ∈ [ResponsePart.inlineData "image/png" "AAAA"], p.isText = false) :=
  ⟨⟨.text "ok", by simp, rfl⟩,
    getTextFromParts_spec.2.2.1 _ ⟨.text "ok", by simp, rfl⟩,
    getTextFromParts_spec.2.1 _⟩

/-- The tool calls built from a list of parts are as many as its function-call
parts. -/
theorem length_mapToolCalls (stringify : JSValue → String) (generateId : Nat → String)
    (ps : List ResponsePart) :
    ∀ next, (mapToolCalls stringify generateId next ps).length =
      (ps.filter ResponsePart.isFunctionCall).length := by
  induction ps with
  | nil => intro next; rfl
  | cons p rest ih =>
    intro next
    cases p with
    | text t => simp only [mapToolCalls, List.filter, ResponsePart.isFunctionCall]; exact ih next
    | inlineData m d =>
      simp only [mapToolCalls, List.filter, ResponsePart.isFunctionCall]; exact ih next
    | functionCall n a =>
      simp only [mapToolCalls, List.filter, ResponsePart.isFunctionCall, List.length_cons]
      rw [ih]

/-- The test `toolCalls != null && toolCalls.length > 0` holds exactly when
some part is a function-call part. -/
theorem hasToolCalls_iff_any (stringify : JSValue → String) (generateId : Nat → String)
    (next : Nat) (parts : Option (List ResponsePart)) :
    (match (getToolCallsFromParts stringify generateId next parts).1 with
      | some calls => decide (calls.length > 0)
      | none => false) = (parts.getD []).any ResponsePart.isFunctionCall := by
  cases parts with
  | none => rfl
  | some ps =>
    simp only [getToolCallsFromParts, Option.getD_some]
    by_cases h : (ps.filter ResponsePart.isFunctionCall).length = 0
    · rw [if_pos h]
      have hnil : ps.filter ResponsePart.isFunctionCall = [] := List.length_eq_zero.mp h
      rw [List.filter_eq_nil_iff] at hnil
      symm
      rw [List.any_eq_false]
      intro p hp
      exact hnil p hp
    · rw [if_neg h]
      simp only [length_mapToolCalls]
      have hpos : 0 < (ps.filter ResponsePart.isFunctionCall).length := Nat.pos_of_ne_zero h
      obtain ⟨p, hp⟩ := List.exists_mem_of_length_pos hpos
      have hp1 := List.mem_filter.mp hp
      have hany : ps.any ResponsePart.isFunctionCall = true :=
        List.any_eq_true.mpr ⟨p, hp1.1, hp1.2⟩
      rw [hany]
      simpa using hpos

/-- Claim C10: the finish reason of `doGenerate` is
`mapGoogleGenerativeAIFinishReason` of the first candidate's `finishReason`
with `hasToolCalls` true exactly when the parts of the first candidate hold a
function-call part; with `STOP` this gives `stop` without and `tool-calls`
with a function-call part. -/
theorem doGenerateResult_finishReason (stringify : JSValue → String)
    (generateId : Nat → String) (next : Nat) (candidate : Candidate) (others : List Candidate)
    (usageMetadata : Option UsageMetadata) :
    ∃ r, doGenerateResult stringify generateId next ⟨candidate :: others, usageMetadata⟩ =
        .ok r ∧
      r.finishReason =
        mapGoogleGenerativeAIFinishReason candidate.finishReason
          ((match candidate.content with
            | .content _ (.present ps) => ps
            | _ => []).any ResponsePart.isFunctionCall) ∧
      (candidate.finishReason = some "STOP" →
        ((∀ p ∈ (match candidate.content with
            | .content _ (.present ps) => ps
            | _ => []), p.isFunctionCall = false) → r.finishReason = "stop") ∧
        ((∃ p ∈ (match candidate.content with
            | .content _ (.present ps) => ps
            | _ => []), p.isFunctionCall = true) → r.finishReason = "tool-calls")) := by
  have hparts : (candidateParts candidate.content).getD [] =
      (match candidate.content with
        | .content _ (.present ps) => ps
        | _ => []) := by
    cases candidate.content with
    | absent => rfl
    | empty => rfl
    | content role parts => cases parts <;> rfl
  have hfr : (doGenerateResult stringify generateId next
      ⟨candidate :: others, usageMetadata⟩) = .ok
      { text := getTextFromParts (candidateParts candidate.content)
        files := (getInlineDataParts (candidateParts candidate.content)).map
          (fun ps => ps.filterMap toGeneratedFile)
        toolCalls := (getToolCallsFromParts stringify generateId next
          (candidateParts candidate.content)).1
        finishReason := mapGoogleGenerativeAIFinishReason candidate.finishReason
          ((match candidate.content with
            | .content _ (.present ps) => ps
            | _ => []).any ResponsePart.isFunctionCall)
        usage := usageOf usageMetadata
        providerMetadata := ⟨candidate.groundingMetadata, candidate.safetyRatings⟩
        sources := (extractSources generateId (getToolCallsFromParts stringify generateId next
          (candidateParts candidate.content)).2 candidate.groundingMetadata).1 } := by
    simp only [doGenerateResult]
    rw [← hparts, ← hasToolCalls_iff_any stringify generateId next]
  refine ⟨_, hfr, rfl, ?_⟩
  intro hstop
  simp only [hstop]
  constructor
  · intro hnone
    have : (match candidate.content with
        | .content _ (.present ps) => ps
        | _ => []).any ResponsePart.isFunctionCall = false := by
      rw [List.any_eq_false]
      intro p hp
      rw [hnone p hp]
      simp
    rw [this]
    rfl
  · rintro ⟨p, hp, hcall⟩
    have : (match candidate.content with
        | .content _ (.present ps) => ps
        | _ => []).any ResponsePart.isFunctionCall = true :=
      List.any_eq_true.mpr ⟨p, hp, hcall⟩
    rw [this]
    rfl

/-- Witness for C10: a first candidate with finish reason `STOP`, two text
parts and no function-call part. -/
theorem doGenerateResult_finishReason_witness :
    ∃ r, doGenerateResult (fun _ => "") (fun _ => "id") 0
        ⟨[⟨.content "model" (.present [.text "Hello, ", .text "world"]), some "STOP", none,
          none⟩], none⟩ = .ok r ∧
      r.finishReason = "stop" ∧ r.text = some "Hello, world" := by
  obtain ⟨r, h1, _, h3⟩ := doGenerateResult_finishReason (fun _ => "") (fun _ => "id") 0
    ⟨.content "model" (.present [.text "Hello, ", .text "world"]), some "STOP", none, none⟩
    [] none
  refine ⟨r, h1, (h3 rfl).1 (by decide), ?_⟩
  have h4 : doGenerateResult (fun _ => "") (fun _ => "id") 0
      ⟨[⟨.content "model" (.present [.text "Hello, ", .text "world"]), some "STOP", none,
        none⟩], none⟩ = .ok
      ⟨some "Hello, world", some [], none, "stop", ⟨.nan, .nan⟩, ⟨none, none⟩, none⟩ := rfl
  rw [h4] at h1
  injection h1 with h1
  rw [← h1]

/-! ## Message translator: system instruction and contents -/

/-- Accepted assistant parts are all translated. -/
theorem mapAssistantParts_ok_of_supported (content : List AssistantPart)
    (h : content.all AssistantPart.isSupported = true) :
    ∃ parts, mapAssistantParts content = .ok parts := by
  induction content with
  | nil => exact ⟨[], rfl⟩
  | cons p rest ih =>
    simp only [List.all_cons, Bool.and_eq_true] at h
    obtain ⟨parts, hparts⟩ := ih h.2
    have hp : ∃ r, convertAssistantPart p = .ok r := by
      cases p with
      | text t => exact ⟨_, rfl⟩
      | toolCall i n a => exact ⟨_, rfl⟩
      | file data mimeType =>
        cases data with
        | url u => simp [AssistantPart.isSupported] at h
        | base64 d =>
          have hm : mimeType = "image/png" := by simpa [AssistantPart.isSupported] using h.1
          subst hm
          exact ⟨_, rfl⟩
    obtain ⟨r, hr⟩ := hp
    exact ⟨r :: parts, by simp only [mapAssistantParts, hr, hparts]⟩

/-- A message that is not a system message and has only accepted parts adds
one content, which depends on the message alone, and clears the latch. -/
theorem convertMessage_ok_of_supported (f : List Nat → String) (m : Message)
    (hm : m.isSystem = false) (hs : m.partsSupported = true) :
    ∃ c, ∀ st : ConvertState,
      convertMessage f st m = .ok ⟨st.systemInstructionParts, st.contents ++ [c], false⟩ := by
  cases m with
  | system c => simp [Message.isSystem] at hm
  | user content => exact ⟨_, fun st => rfl⟩
  | tool content => exact ⟨_, fun st => rfl⟩
  | assistant content =>
    obtain ⟨parts, hparts⟩ := mapAssistantParts_ok_of_supported content hs
    exact ⟨⟨"model", parts.filterMap id⟩, fun st => by simp only [convertMessage, hparts]⟩

/-- A list of such messages adds its contents, which depend on the list alone,
and leaves the system instruction parts as they are. -/
theorem convertLoop_ok_of_supported (f : List Nat → String) (ms : List Message)
    (h : ∀ m ∈ ms, m.isSystem = false ∧ m.partsSupported = true) :
    ∃ cs, ∀ st : ConvertState, ∃ b,
      convertLoop f st ms = .ok ⟨st.systemInstructionParts, st.contents ++ cs, b⟩ := by
  induction ms with
  | nil => exact ⟨[], fun st => ⟨st.systemMessagesAllowed, by simp [convertLoop]⟩⟩
  | cons m rest ih =>
    obtain ⟨c, hc⟩ := convertMessage_ok_of_supported f m (h m (List.mem_cons_self _ _)).1
      (h m (List.mem_cons_self _ _)).2
    obtain ⟨cs, hcs⟩ := ih (fun m1 hm1 => h m1 (List.mem_cons_of_mem _ hm1))
    refine ⟨c :: cs, fun st => ?_⟩
    obtain ⟨b, hb⟩ := hcs ⟨st.systemInstructionParts, st.contents ++ [c], false⟩
    refine ⟨b, ?_⟩
    simp only [convertLoop, hc st, hb, List.append_assoc, List.singleton_append]

/-- Leading system messages, met with the latch set, add their texts to the
system instruction parts and nothing else. -/
theorem convertLoop_leading_systems (f : List Nat → String) (systems : List String)
    (rest : List Message) :
    ∀ (parts : List GooglePart) (contents : List GoogleContent),
      convertLoop f ⟨parts, contents, true⟩ (systems.map Message.system ++ rest) =
        convertLoop f ⟨parts ++ systems.map GooglePart.text, contents, true⟩ rest := by
  induction systems with
  | nil => intro parts contents; simp
  | cons s more ih =>
    intro parts contents
    have h1 := ih (parts ++ [GooglePart.text s]) contents
    have h2 : convertLoop f ⟨parts, contents, true⟩
        (Message.system s :: (more.map Message.system ++ rest)) =
        convertLoop f ⟨parts ++ [GooglePart.text s], contents, true⟩
          (more.map Message.system ++ rest) := rfl
    rw [List.map_cons, List.cons_append, h2, h1]
    simp

/-- Counterexample to C11 as stated: a prompt of one system message followed
by an assistant message whose file part is a URL reference returns no result
at all, hence no system instruction. -/
theorem convertToGoogleGenerativeAIMessages_system_then_bad_file :
    convertToGoogleGenerativeAIMessages (fun _ => "")
        [.system "be brief", .assistant [.file (.url "https://example.com/a.png") "image/png"]] =
      .error ⟨"File data URLs in assistant messages are not supported"⟩ := rfl

/-- Claim C11, amended: for a prompt of k >= 1 system messages followed only by
messages that are not system messages and whose assistant file parts are all
inline `image/png`, the translator returns one system instruction whose parts
are exactly the k texts in message order, and the contents are those of the
prompt without its system messages, for which the system instruction is
absent. -/
theorem convertToGoogleGenerativeAIMessages_system_prefix
    (convertUint8ArrayToBase64 : List Nat → String) (systems : List String)
    (hk : systems ≠ []) (rest : List Message)
    (hrest : ∀ m ∈ rest, m.isSystem = false ∧ m.partsSupported = true) :
    ∃ contents,
      convertToGoogleGenerativeAIMessages convertUint8ArrayToBase64
          (systems.map Message.system ++ rest) =
        .ok ⟨some ⟨systems.map GooglePart.text⟩, contents⟩ ∧
      convertToGoogleGenerativeAIMessages convertUint8ArrayToBase64 rest =
        .ok ⟨none, contents⟩ := by
  obtain ⟨cs, hcs⟩ := convertLoop_ok_of_supported convertUint8ArrayToBase64 rest hrest
  refine ⟨cs, ?_, ?_⟩
  · obtain ⟨b, hb⟩ := hcs ⟨[] ++ systems.map GooglePart.text, [], true⟩
    simp only [convertToGoogleGenerativeAIMessages, convertLoop_leading_systems, hb]
    have hlen : (systems.map GooglePart.text).length > 0 := by
      rw [List.length_map]
      exact List.length_pos.mpr hk
    simp only [List.nil_append, hlen, if_true]
  · obtain ⟨b, hb⟩ := hcs ⟨[], [], true⟩
    simp only [convertToGoogleGenerativeAIMessages, hb]
    simp

/-- Witness for C11: two system messages followed by a user message. -/
theorem convertToGoogleGenerativeAIMessages_system_prefix_witness :
    ["be brief", "be kind"] ≠ [] ∧
    (∀ m ∈ [Message.user [UserPart.text "hi"]],
      m.isSystem = false ∧ m.partsSupported = true) ∧
    ∃ contents,
      convertToGoogleGenerativeAIMessages (fun _ => "")
          (["be brief", "be kind"].map Message.system ++ [Message.user [UserPart.text "hi"]]) =
        .ok ⟨some ⟨["be brief", "be kind"].map GooglePart.text⟩, contents⟩ ∧
      convertToGoogleGenerativeAIMessages (fun _ => "") [Message.user [UserPart.text "hi"]] =
        .ok ⟨none, contents⟩ :=
  ⟨by simp, by simp [Message.isSystem, Message.partsSupported],
    convertToGoogleGenerativeAIMessages_system_prefix (fun _ => "") ["be brief", "be kind"]
      (by simp) [Message.user [UserPart.text "hi"]]
      (by simp [Message.isSystem, Message.partsSupported])⟩

/-- One message adds at most one content, with the vendor role of the
message. -/
theorem convertMessage_roles (f : List Nat → String) (st st1 : ConvertState) (m : Message)
    (h : convertMessage f st m = .ok st1) :
    st1.contents.map (fun c => c.role) =
      st.contents.map (fun c => c.role) ++ m.vendorRole?.toList := by
  cases m with
  | system c =>
    simp only [convertMessage] at h
    split at h
    · cases h
    · injection h with h; rw [← h]; simp [Message.vendorRole?]
  | user content =>
    simp only [convertMessage] at h
    injection h with h; rw [← h]; simp [Message.vendorRole?]
  | tool content =>
    simp only [convertMessage] at h
    injection h with h; rw [← h]; simp [Message.vendorRole?]
  | assistant content =>
    simp only [convertMessage] at h
    cases hp : mapAssistantParts content with
    | error e => rw [hp] at h; cases h
    | ok parts =>
      rw [hp] at h
      injection h with h; rw [← h]; simp [Message.vendorRole?]

/-- The loop adds one content per message that is not a system message, in
order, with the vendor role of the message. -/
theorem convertLoop_roles (f : List Nat → String) (ms : List Message) :
    ∀ st st1 : ConvertState, convertLoop f st ms = .ok st1 →
      st1.contents.map (fun c => c.role) =
        st.contents.map (fun c => c.role) ++ ms.filterMap Message.vendorRole? := by
  induction ms with
  | nil =>
    intro st st1 h
    simp only [convertLoop] at h
    injection h with h; rw [← h]; simp
  | cons m rest ih =>
    intro st st1 h
    simp only [convertLoop] at h
    cases hm : convertMessage f st m with
    | error e => rw [hm] at h; cases h
    | ok st2 =>
      rw [hm] at h
      rw [ih st2 st1 h, convertMessage_roles f st st2 m hm, List.append_assoc]
      congr 1
      cases hv : m.vendorRole? with
      | none => simp [List.filterMap_cons, hv]
      | some r => simp [List.filterMap_cons, hv]

/-- Claim C12: when the translation succeeds, `contents` has one entry per
message that is not a system message, in input order, also for a message
without parts; the role of the entry is `user` for a user or tool message and
`model` for an assistant message, and no other role occurs. -/
theorem convertToGoogleGenerativeAIMessages_roles
    (convertUint8ArrayToBase64 : List Nat → String) (prompt : List Message) (r : GooglePrompt)
    (h : convertToGoogleGenerativeAIMessages convertUint8ArrayToBase64 prompt = .ok r) :
    r.contents.map (fun c => c.role) = prompt.filterMap Message.vendorRole? ∧
    r.contents.length = (prompt.filter (fun m => !m.isSystem)).length ∧
    ∀ c ∈ r.contents, c.role = "user" ∨ c.role = "model" := by
  simp only [convertToGoogleGenerativeAIMessages] at h
  cases hl : convertLoop convertUint8ArrayToBase64 ⟨[], [], true⟩ prompt with
  | error e => rw [hl] at h; cases h
  | ok st =>
    rw [hl] at h
    injection h with h
    have hroles := convertLoop_roles convertUint8ArrayToBase64 prompt _ st hl
    simp only [List.map_nil, List.nil_append] at hroles
    have hc : r.contents = st.contents := by rw [← h]
    rw [hc]
    refine ⟨hroles, ?_, ?_⟩
    · have h1 := congrArg List.length hroles
      rw [List.length_map] at h1
      rw [h1]
      clear h1 hroles hl h hc
      induction prompt with
      | nil => rfl
      | cons m rest ih =>
        cases m <;> simp [List.filterMap_cons, Message.vendorRole?, List.filter,
          Message.isSystem, ih]
    · intro c hcm
      have hmem : c.role ∈ st.contents.map (fun c => c.role) := List.mem_map.mpr ⟨c, hcm, rfl⟩
      rw [hroles] at hmem
      obtain ⟨m, _, hm⟩ := List.mem_filterMap.mp hmem
      cases m with
      | system s => simp [Message.vendorRole?] at hm
      | user content => simp [Message.vendorRole?] at hm; exact Or.inl hm.symm
      | tool content => simp [Message.vendorRole?] at hm; exact Or.inl hm.symm
      | assistant content => simp [Message.vendorRole?] at hm; exact Or.inr hm.symm

/-- Witness for C12: a system message, a user message, an assistant message
without parts and a tool message without parts. -/
theorem convertToGoogleGenerativeAIMessages_roles_witness :
    convertToGoogleGenerativeAIMessages (fun _ => "")
        [.system "s", .user [.text "hi"], .assistant [], .tool []] =
      .ok ⟨some ⟨[.text "s"]⟩, [⟨"user", [.text "hi"]⟩, ⟨"model", []⟩, ⟨"user", []⟩]⟩ ∧
    (([⟨"user", [.text "hi"]⟩, ⟨"model", []⟩, ⟨"user", []⟩] : List GoogleContent).map
        (fun c => c.role) =
      [Message.system "s", .user [.text "hi"], .assistant [], .tool []].filterMap
        Message.vendorRole?) :=
  ⟨rfl, (convertToGoogleGenerativeAIMessages_roles (fun _ => "")
    [.system "s", .user [.text "hi"], .assistant [], .tool []]
    ⟨some ⟨[.text "s"]⟩, [⟨"user", [.text "hi"]⟩, ⟨"model", []⟩, ⟨"user", []⟩]⟩ rfl).1⟩

/-! ## Tool translator: warnings and search grounding -/

/-- The loop over the tools appends, in order, the declarations of the function
tools and the warnings of the provider-defined tools. -/
theorem prepareToolsLoop_eq (ts : List Tool) :
    ∀ (declarations : List FunctionDeclaration) (warnings : List CallWarning),
      prepareToolsLoop (declarations, warnings) ts =
        (declarations ++ ts.filterMap Tool.declaration?,
          warnings ++ ts.filterMap Tool.warning?) := by
  induction ts with
  | nil => intro d w; simp [prepareToolsLoop]
  | cons t rest ih =>
    intro d w
    cases t with
    | function name description parameters =>
      simp only [prepareToolsLoop, ih, List.filterMap_cons, Tool.declaration?, Tool.warning?,
        List.append_assoc, List.singleton_append]
    | providerDefined id name args =>
      simp only [prepareToolsLoop, ih, List.filterMap_cons, Tool.declaration?, Tool.warning?,
        List.append_assoc, List.singleton_append]

/-- Counterexample to C13 as stated: with search grounding enabled a
provider-defined tool produces no warning. -/
theorem prepareTools_grounding_no_warning :
    prepareTools ⟨some [Tool.providerDefined "google.search" "search" .null], none⟩ true none
        "gemini-2.0-flash" =
      .ok ⟨some .googleSearch, none, []⟩ ∧
    CallWarning.unsupportedTool (Tool.providerDefined "google.search" "search" .null) ∉
      ([] : List CallWarning) :=
  ⟨rfl, by simp⟩

/-- Claim C13, amended: with search grounding disabled, for every tool list,
model id and tool choice, `prepareTools` either fails because the tool-choice
tag is not recognised or returns warnings that hold an unsupported-tool
warning for every provider-defined tool of the list, with function
declarations made from the function tools only. -/
theorem prepareTools_provider_defined_warned (ts : List Tool) (hts : ts ≠ [])
    (choice : Option ToolChoice) (dynamicRetrievalConfig : Option DynamicRetrievalConfig)
    (modelId : String) :
    (∃ type, choice = some (.other type) ∧
      ∃ e, prepareTools ⟨some ts, choice⟩ false dynamicRetrievalConfig modelId = .error e) ∨
    ∃ r, prepareTools ⟨some ts, choice⟩ false dynamicRetrievalConfig modelId = .ok r ∧
      (∀ tool ∈ ts, tool.isProviderDefined = true → .unsupportedTool tool ∈ r.toolWarnings) ∧
      r.tools = some (.functionDeclarations
        ((ts.filter (fun t => !t.isProviderDefined)).filterMap Tool.declaration?)) := by
  have hloop := prepareToolsLoop_eq ts [] []
  simp only [List.nil_append] at hloop
  have hw : ∀ tool ∈ ts, tool.isProviderDefined = true →
      CallWarning.unsupportedTool tool ∈ ts.filterMap Tool.warning? := by
    intro tool hmem hp
    cases tool with
    | function n d p => simp [Tool.isProviderDefined] at hp
    | providerDefined id name args => exact List.mem_filterMap.mpr ⟨_, hmem, rfl⟩
  have hd : ts.filterMap Tool.declaration? =
      (ts.filter (fun t => !t.isProviderDefined)).filterMap Tool.declaration? := by
    clear hw hloop hts
    induction ts with
    | nil => rfl
    | cons t rest ih =>
      cases t with
      | function n d p =>
        simp only [List.filterMap_cons, Tool.declaration?, List.filter, Tool.isProviderDefined,
          Bool.not_false]
        rw [ih]
        rfl
      | providerDefined id name args =>
        simp only [List.filterMap_cons, Tool.declaration?, List.filter, Tool.isProviderDefined,
          Bool.not_true]
        exact ih
  have h := prepareTools_of_tools ts hts choice dynamicRetrievalConfig modelId
  rw [hloop] at h
  cases choice with
  | none => exact Or.inr ⟨_, h, hw, by rw [← hd]⟩
  | some c =>
    cases c with
    | auto => exact Or.inr ⟨_, h, hw, by rw [← hd]⟩
    | none => exact Or.inr ⟨_, h, hw, by rw [← hd]⟩
    | required => exact Or.inr ⟨_, h, hw, by rw [← hd]⟩
    | tool toolName => exact Or.inr ⟨_, h, hw, by rw [← hd]⟩
    | other type => exact Or.inl ⟨type, rfl, _, h⟩

/-- Witness for C13: one provider-defined tool and one function tool. -/
theorem prepareTools_provider_defined_warned_witness :
    [Tool.providerDefined "google.search" "search" .null,
      Tool.function "f" none (.boolean true)] ≠ [] ∧
    ∃ r, prepareTools ⟨some [Tool.providerDefined "google.search" "search" .null,
        Tool.function "f" none (.boolean true)], some .auto⟩ false none "gemini-1.5-pro" =
        .ok r ∧
      CallWarning.unsupportedTool (Tool.providerDefined "google.search" "search" .null) ∈
        r.toolWarnings := by
  refine ⟨by simp, ?_⟩
  rcases prepareTools_provider_defined_warned
    [Tool.providerDefined "google.search" "search" .null,
      Tool.function "f" none (.boolean true)] (by simp) (some .auto) none "gemini-1.5-pro" with
    ⟨type, h, _⟩ | ⟨r, h1, h2, _⟩
  · cases h
  · exact ⟨r, h1, h2 _ (by simp) rfl⟩

/-- Claim C14: with search grounding enabled the result of `prepareTools` is
the same for every tool list and tool choice: the tools value is the
grounding-only tool, never function declarations, `toolConfig` is absent, and
there is no warning. -/
theorem prepareTools_grounding_independent (mode1 mode2 : RegularMode)
    (dynamicRetrievalConfig : Option DynamicRetrievalConfig) (modelId : String) :
    prepareTools mode1 true dynamicRetrievalConfig modelId =
      prepareTools mode2 true dynamicRetrievalConfig modelId ∧
    ∃ tools, prepareTools mode1 true dynamicRetrievalConfig modelId = .ok ⟨some tools, none, []⟩ ∧
      (tools = .googleSearch ∨ ∃ config, tools = .googleSearchRetrieval config) ∧
      ∀ declarations, tools ≠ .functionDeclarations declarations := by
  refine ⟨rfl, _, rfl, ?_, ?_⟩
  · by_cases h : jsIncludes modelId "gemini-2" = true
    · exact Or.inl (by simp only [h, if_true])
    · exact Or.inr ⟨_, by simp only [h]; rfl⟩
  · intro declarations
    by_cases h : jsIncludes modelId "gemini-2" = true
    · simp only [h, if_true]
      intro h1; cases h1
    · simp only [h]
      intro h1; cases h1

/-! ## Embedding model and model path -/

/-- Claim C15: `doEmbed` fails with the too-many-values error exactly when
more than 2048 values are given, and then no request is built or sent. -/
theorem doEmbed_too_many_iff (modelId : String) (settings : EmbeddingSettings)
    (config : EmbeddingConfig) (postJsonToApi : EmbedCall → Except JSValue EmbedResponse)
    (values : List String) :
    ((∃ provider model cap vs,
        (doEmbed modelId settings config postJsonToApi values).1 =
          .error (.tooManyEmbeddingValuesForCall provider model cap vs)) ↔
      values.length > 2048) ∧
    (values.length > 2048 →
      (doEmbed modelId settings config postJsonToApi values).1 =
          .error (.tooManyEmbeddingValuesForCall config.provider modelId 2048 values) ∧
        (doEmbed modelId settings config postJsonToApi values).2 = []) := by
  by_cases h : values.length > 2048
  · have h1 : doEmbed modelId settings config postJsonToApi values =
        (.error (.tooManyEmbeddingValuesForCall config.provider modelId 2048 values), []) := by
      simp only [doEmbed, maxEmbeddingsPerCall, h, if_true]
    rw [h1]
    exact ⟨⟨fun _ => h, fun _ => ⟨_, _, _, _, rfl⟩⟩, fun _ => ⟨rfl, rfl⟩⟩
  · refine ⟨⟨?_, fun h1 => absurd h1 h⟩, fun h1 => absurd h1 h⟩
    rintro ⟨provider, model, cap, vs, he⟩
    simp only [doEmbed, maxEmbeddingsPerCall, h, if_false] at he
    split at he <;> cases he

/-- Witness for C15: 2049 values fail before any request, 2048 values do not
raise the error. -/
theorem doEmbed_too_many_iff_witness :
    (List.replicate 2049 "v").length > 2048 ∧
    (doEmbed "text-embedding-004" ⟨none, none⟩ ⟨"google.generative-ai", "https://example.com"⟩
        (fun _ => .ok ⟨[]⟩) (List.replicate 2049 "v")).2 = [] ∧
    ¬ ∃ provider model cap vs,
      (doEmbed "text-embedding-004" ⟨none, none⟩ ⟨"google.generative-ai", "https://example.com"⟩
        (fun _ => .ok ⟨[]⟩) (List.replicate 2048 "v")).1 =
          .error (.tooManyEmbeddingValuesForCall provider model cap vs) := by
  have h1 : (List.replicate 2049 "v").length > 2048 := by
    rw [List.length_replicate]; decide
  refine ⟨h1, ((doEmbed_too_many_iff _ _ _ _ _).2 h1).2, ?_⟩
  intro h
  have h2 := (doEmbed_too_many_iff _ _ _ _ _).1.mp h
  rw [List.length_replicate] at h2
  exact absurd h2 (by decide)

/-- Counterexample to C16 as stated: for two input values and a schema-valid
response with one embedding, `doEmbed` returns one vector, not two. -/
theorem doEmbed_fewer_vectors :
    (doEmbed "text-embedding-004" ⟨none, none⟩ ⟨"google.generative-ai", "https://example.com"⟩
        (fun _ => .ok ⟨[⟨[1, 2]⟩]⟩) ["a", "b"]).1 = .ok ⟨[[1, 2]]⟩ ∧
    ([[1, 2]] : List (List Int)).length ≠ ["a", "b"].length :=
  ⟨rfl, by decide⟩

/-- Claim C16, amended: for at most 2048 input values `doEmbed` makes one call
with exactly one sub-request per value, the i-th carrying the i-th value as the
single text part of a user content and the model `models/<modelId>`; for every
validated response it returns one vector per embedding of the response, the
i-th being the values of the i-th embedding, hence n vectors when the response
holds n embeddings. -/
theorem doEmbed_requests_and_vectors (modelId : String) (settings : EmbeddingSettings)
    (config : EmbeddingConfig) (postJsonToApi : EmbedCall → Except JSValue EmbedResponse)
    (values : List String) (h : values.length ≤ 2048) :
    ∃ call, (doEmbed modelId settings config postJsonToApi values).2 = [call] ∧
      call.requests.length = values.length ∧
      (∀ i : Nat, call.requests[i]? =
        values[i]?.map (fun value =>
          ({ model := "models/" ++ modelId, content := ⟨"user", [.text value]⟩,
             outputDimensionality := settings.outputDimensionality,
             taskType := settings.taskType } : EmbedRequest))) ∧
      ∀ response, postJsonToApi call = .ok response →
        (doEmbed modelId settings config postJsonToApi values).1 =
          .ok ⟨response.embeddings.map (fun item => item.values)⟩ ∧
        (response.embeddings.map (fun item => item.values)).length =
          response.embeddings.length ∧
        (response.embeddings.length = values.length →
          (response.embeddings.map (fun item => item.values)).length = values.length) := by
  have hn : ¬ values.length > 2048 := by omega
  refine ⟨{
      url := config.baseURL ++ "/models/" ++ modelId ++ ":batchEmbedContents"
      requests := values.map (fun value => {
        model := "models/" ++ modelId
        content := ⟨"user", [.text value]⟩
        outputDimensionality := settings.outputDimensionality
        taskType := settings.taskType }) }, ?_, ?_, ?_, ?_⟩
  · simp only [doEmbed, maxEmbeddingsPerCall, hn, if_false]
    split <;> rfl
  · simp
  · intro i
    simp
  · intro response hr
    refine ⟨?_, by simp, fun hl => by simp [hl]⟩
    simp only [doEmbed, maxEmbeddingsPerCall, hn, if_false, hr]

/-- Witness for C16: two values and a response with two embeddings. -/
theorem doEmbed_requests_and_vectors_witness :
    ["a", "b"].length ≤ 2048 ∧
    (doEmbed "text-embedding-004" ⟨some 2, none⟩ ⟨"google.generative-ai", "https://example.com"⟩
        (fun _ => .ok ⟨[⟨[1, 2]⟩, ⟨[3, 4]⟩]⟩) ["a", "b"]).1 = .ok ⟨[[1, 2], [3, 4]]⟩ := by
  refine ⟨by decide, ?_⟩
  obtain ⟨call, _, _, _, h4⟩ := doEmbed_requests_and_vectors "text-embedding-004" ⟨some 2, none⟩
    ⟨"google.generative-ai", "https://example.com"⟩
    (fun _ => .ok ⟨[⟨[1, 2]⟩, ⟨[3, 4]⟩]⟩) ["a", "b"] (by decide)
  exact (h4 _ rfl).1

/-- A list of characters has a tail that starts with `/` exactly when it holds
the character `/`. -/
theorem any_tails_isPrefixOf_slash (l : List Char) :
    l.tails.any (fun t => ['/'].isPrefixOf t) = true ↔ '/' ∈ l := by
  induction l with
  | nil => simp [List.isPrefixOf]
  | cons c rest ih =>
    simp only [List.tails, List.any_cons, Bool.or_eq_true, ih, List.mem_cons]
    constructor
    · rintro (h | h)
      · left
        simpa [List.isPrefixOf] using h
      · exact Or.inr h
    · rintro (h | h)
      · left
        simpa [List.isPrefixOf] using h
      · exact Or.inr h

/-- Claim C17: `getModelPath` returns the model id unchanged when it contains
the character `/` and prefixes it with `models/` otherwise. -/
theorem getModelPath_spec (modelId : String) :
    ('/' ∈ modelId.data → getModelPath modelId = modelId) ∧
    ('/' ∉ modelId.data → getModelPath modelId = "models/" ++ modelId) ∧
    getModelPath "gemini-1.5-flash" = "models/gemini-1.5-flash" ∧
    getModelPath "tunedModels/x/gemini-1.5-flash" = "tunedModels/x/gemini-1.5-flash" := by
  have hiff : jsIncludes modelId "/" = true ↔ '/' ∈ modelId.data :=
    any_tails_isPrefixOf_slash modelId.data
  refine ⟨fun h => ?_, fun h => ?_, by decide, by decide⟩
  · simp only [getModelPath, hiff.mpr h, if_true]
  · have hf : ¬ jsIncludes modelId "/" = true := fun h1 => h (hiff.mp h1)
    simp only [getModelPath, hf]
    rfl

/-- Witness for C17: a tuned-model id and a plain model id. -/
theorem getModelPath_spec_witness :
    '/' ∈ "tunedModels/x".data ∧ getModelPath "tunedModels/x" = "tunedModels/x" ∧
    '/' ∉ "gemini-pro".data ∧ getModelPath "gemini-pro" = "models/" ++ "gemini-pro" :=
  ⟨by decide, (getModelPath_spec "tunedModels/x").1 (by decide), by decide,
    (getModelPath_spec "gemini-pro").2.1 (by decide)⟩

/-! ## Streaming: failed chunks, tool calls and defaults -/

/-- The fold over a concatenation is the fold over the first part followed by
the fold over the second part from the state reached. -/
theorem transformAll_append (stringify : JSValue → String) (generateId : Nat → String)
    (xs ys : List ParseResult) :
    ∀ st : StreamState,
      transformAll stringify generateId st (xs ++ ys) =
        ((transformAll stringify generateId
            (transformAll stringify generateId st xs).1 ys).1,
          (transformAll stringify generateId st xs).2 ++
            (transformAll stringify generateId
              (transformAll stringify generateId st xs).1 ys).2) := by
  induction xs with
  | nil => intro st; simp [transformAll]
  | cons x rest ih =>
    intro st
    have hcons : ∀ l : List ParseResult,
        transformAll stringify generateId st (x :: l) =
          ((transformAll stringify generateId (transform stringify generateId st x).1 l).1,
            (transform stringify generateId st x).2 ++
              (transformAll stringify generateId (transform stringify generateId st x).1 l).2) :=
      fun l => rfl
    rw [List.cons_append, hcons, hcons, ih]
    simp only [List.append_assoc]

/-- Claim C18: a chunk that failed to parse produces the single event `error`
with its error and leaves the accumulator unchanged, so the outbound sequence
is that of the sequence without the failed chunk, with the error event
inserted where the chunk stood. -/
theorem doStreamEvents_failed_chunk (stringify : JSValue → String)
    (generateId : Nat → String) (nextId : Nat) (before after : List ParseResult)
    (error : JSValue) :
    (∀ st : StreamState,
      transform stringify generateId st (.failure error) = (st, [.error error])) ∧
    ∃ rest,
      doStreamEvents stringify generateId nextId (before ++ after) =
        (transformAll stringify generateId (StreamState.initial nextId) before).2 ++ rest ∧
      doStreamEvents stringify generateId nextId (before ++ .failure error :: after) =
        (transformAll stringify generateId (StreamState.initial nextId) before).2 ++
          .error error :: rest := by
  refine ⟨fun st => rfl, ?_⟩
  refine ⟨(transformAll stringify generateId
      (transformAll stringify generateId (StreamState.initial nextId) before).1 after).2 ++
    flush (transformAll stringify generateId
      (transformAll stringify generateId (StreamState.initial nextId) before).1 after).1, ?_, ?_⟩
  · simp only [doStreamEvents, transformAll_append, List.append_assoc]
  · simp only [doStreamEvents, transformAll_append, transformAll, transform, List.append_assoc,
      List.singleton_append, List.cons_append, List.nil_append]

/-- The loop over the tool calls built from the parts enqueues the pairs the
specification asks for. -/
theorem toolCallEvents_mapToolCalls (stringify : JSValue → String) (generateId : Nat → String)
    (ps : List ResponsePart) :
    ∀ next, toolCallEvents (mapToolCalls stringify generateId next ps) =
      toolCallPairs stringify generateId next ps := by
  induction ps with
  | nil => intro next; rfl
  | cons p rest ih =>
    intro next
    cases p with
    | text t => simp only [mapToolCalls, toolCallPairs]; exact ih next
    | inlineData m d => simp only [mapToolCalls, toolCallPairs]; exact ih next
    | functionCall n a => simp only [mapToolCalls, toolCallPairs, toolCallEvents, ih]

/-- Without a function-call part there is no pair. -/
theorem toolCallPairs_eq_nil (stringify : JSValue → String) (generateId : Nat → String)
    (ps : List ResponsePart) (h : (ps.filter ResponsePart.isFunctionCall).length = 0) :
    ∀ next, toolCallPairs stringify generateId next ps = [] := by
  induction ps with
  | nil => intro next; rfl
  | cons p rest ih =>
    intro next
    cases p with
    | text t =>
      simp only [List.filter, ResponsePart.isFunctionCall] at h
      simp only [toolCallPairs]; exact ih h next
    | inlineData m d =>
      simp only [List.filter, ResponsePart.isFunctionCall] at h
      simp only [toolCallPairs]; exact ih h next
    | functionCall n a => simp [List.filter, ResponsePart.isFunctionCall] at h

/-- The pairs hold one `tool-call-delta` and one `tool-call` event per
function-call part. -/
theorem toolCallPairs_counts (stringify : JSValue → String) (generateId : Nat → String)
    (ps : List ResponsePart) :
    ∀ next,
      ((toolCallPairs stringify generateId next ps).filter StreamPart.isToolCallDelta).length =
          (ps.filter ResponsePart.isFunctionCall).length ∧
      ((toolCallPairs stringify generateId next ps).filter StreamPart.isToolCall).length =
          (ps.filter ResponsePart.isFunctionCall).length := by
  induction ps with
  | nil => intro next; exact ⟨rfl, rfl⟩
  | cons p rest ih =>
    intro next
    cases p with
    | text t =>
      simp only [toolCallPairs, List.filter, ResponsePart.isFunctionCall]; exact ih next
    | inlineData m d =>
      simp only [toolCallPairs, List.filter, ResponsePart.isFunctionCall]; exact ih next
    | functionCall n a =>
      simp only [toolCallPairs, List.filter, ResponsePart.isFunctionCall,
        StreamPart.isToolCallDelta, StreamPart.isToolCall, List.length_cons]
      exact ⟨by rw [(ih (next + 1)).1], by rw [(ih (next + 1)).2]⟩

/-- The events of the content block: text and file events, then the pairs of
the function-call parts. -/
theorem contentEvents_events (stringify : JSValue → String) (generateId : Nat → String)
    (st : StreamState) (parts : Option (List ResponsePart)) :
    ∃ before, (contentEvents stringify generateId st parts).2 =
        before ++ toolCallPairs stringify generateId st.nextId (parts.getD []) ∧
      ∀ e ∈ before, e.isToolCallEvent = false := by
  have htext : ∀ e ∈ (match getTextFromParts parts with
      | some deltaText => [StreamPart.textDelta deltaText]
      | none => []), e.isToolCallEvent = false := by
    intro e he
    cases h : getTextFromParts parts with
    | none => rw [h] at he; simp at he
    | some t => rw [h] at he; simp at he; rw [he]; rfl
  have hfile : ∀ e ∈ (match getInlineDataParts parts with
      | some ps => ps.filterMap fileEvents
      | none => []), e.isToolCallEvent = false := by
    intro e he
    cases h : getInlineDataParts parts with
    | none => rw [h] at he; simp at he
    | some ps =>
      rw [h] at he
      obtain ⟨p, _, hp⟩ := List.mem_filterMap.mp he
      cases p with
      | text t => simp [fileEvents] at hp
      | functionCall n a => simp [fileEvents] at hp
      | inlineData m d => simp [fileEvents] at hp; rw [← hp]; rfl
  refine ⟨(match getTextFromParts parts with
      | some deltaText => [StreamPart.textDelta deltaText]
      | none => []) ++ (match getInlineDataParts parts with
      | some ps => ps.filterMap fileEvents
      | none => []), ?_, ?_⟩
  · cases parts with
    | none => simp [contentEvents, getToolCallsFromParts, toolCallPairs]
    | some ps =>
      by_cases hl : (ps.filter ResponsePart.isFunctionCall).length = 0
      · simp only [contentEvents, getToolCallsFromParts, hl, if_true, Option.getD_some,
          toolCallPairs_eq_nil stringify generateId ps hl, List.append_nil]
      · simp only [contentEvents, getToolCallsFromParts, hl, if_false, Option.getD_some,
          toolCallEvents_mapToolCalls]
  · intro e he
    rcases List.mem_append.mp he with h | h
    · exact htext e h
    · exact hfile e h

/-- Claim C19: for a successfully parsed chunk whose first candidate has
content, the events hold, for each function-call part in part order, a
`tool-call-delta` event followed at once by a `tool-call` event with the same
id, the same name and the same stringified arguments; no other event of the
chunk is of these two kinds, and each kind occurs as often as there are
function-call parts. -/
theorem transform_tool_call_events (stringify : JSValue → String) (generateId : Nat → String)
    (st : StreamState) (value : ChunkValue) (candidate : Candidate) (others : List Candidate)
    (hc : value.candidates = some (candidate :: others))
    (hcontent : candidate.content ≠ .absent) :
    ∃ before after,
      (transform stringify generateId st (.success value)).2 =
        before ++ toolCallPairs stringify generateId st.nextId candidate.content.partList ++
          after ∧
      (∀ e ∈ before, e.isToolCallEvent = false) ∧
      (∀ e ∈ after, e.isToolCallEvent = false) ∧
      ((transform stringify generateId st (.success value)).2.filter
          StreamPart.isToolCallDelta).length =
        (candidate.content.partList.filter ResponsePart.isFunctionCall).length ∧
      ((transform stringify generateId st (.success value)).2.filter
          StreamPart.isToolCall).length =
        (candidate.content.partList.filter ResponsePart.isFunctionCall).length := by
  have hshape : ∃ before after,
      (transform stringify generateId st (.success value)).2 =
        before ++ toolCallPairs stringify generateId st.nextId candidate.content.partList ++
          after ∧
      (∀ e ∈ before, e.isToolCallEvent = false) ∧
      (∀ e ∈ after, e.isToolCallEvent = false) := by
    have hst : ∀ st1 : StreamState, st1.nextId = st.nextId →
        ∃ before,
          (match candidate.content with
            | .absent => (st1, [])
            | .empty => contentEvents stringify generateId st1 none
            | .content _ parts => contentEvents stringify generateId st1 parts.value).2 =
            before ++ toolCallPairs stringify generateId st.nextId
              candidate.content.partList ∧
          ∀ e ∈ before, e.isToolCallEvent = false := by
      intro st1 hid
      cases hcc : candidate.content with
      | absent => exact absurd hcc hcontent
      | empty =>
        obtain ⟨b, hb, hb2⟩ := contentEvents_events stringify generateId st1 none
        exact ⟨b, by rw [hb, hid]; rfl, hb2⟩
      | content role parts =>
        obtain ⟨b, hb, hb2⟩ := contentEvents_events stringify generateId st1 parts.value
        refine ⟨b, ?_, hb2⟩
        rw [hb, hid]
        cases parts <;> rfl
    have hsrc : ∀ (srcs : List Source), ∀ e ∈ srcs.map StreamPart.source,
        e.isToolCallEvent = false := by
      intro srcs e he
      obtain ⟨src, _, h⟩ := List.mem_map.mp he
      rw [← h]; rfl
    have hsplit : ∃ (st1 : StreamState) (srcs : List Source), st1.nextId = st.nextId ∧
        (transform stringify generateId st (.success value)).2 =
          (match candidate.content with
            | .absent => (st1, [])
            | .empty => contentEvents stringify generateId st1 none
            | .content _ parts => contentEvents stringify generateId st1 parts.value).2 ++
            srcs.map StreamPart.source := by
      simp only [transform, hc]
      cases hu : value.usageMetadata with
      | none =>
        cases hfr : candidate.finishReason with
        | none => exact ⟨st, [], rfl, by simp⟩
        | some reason => exact ⟨st, _, rfl, rfl⟩
      | some u =>
        cases hfr : candidate.finishReason with
        | none => exact ⟨{ st with usage := usageOf (some u) }, [], rfl, by simp⟩
        | some reason => exact ⟨{ st with usage := usageOf (some u) }, _, rfl, rfl⟩
    obtain ⟨st1, srcs, hid, hev⟩ := hsplit
    obtain ⟨b, hb, hb2⟩ := hst st1 hid
    exact ⟨b, srcs.map StreamPart.source, by rw [hev, hb], hb2, hsrc srcs⟩
  obtain ⟨before, after, heq, hb, ha⟩ := hshape
  have hnone : ∀ (l : List StreamPart) (p : StreamPart → Bool),
      (∀ e, p e = true → e.isToolCallEvent = true) →
      (∀ e ∈ l, e.isToolCallEvent = false) → l.filter p = [] := by
    intro l p hp hl
    rw [List.filter_eq_nil_iff]
    intro e he hpe
    have h1 := hl e he
    have h2 := hp e hpe
    rw [h1] at h2
    cases h2
  have hd : ∀ e : StreamPart, e.isToolCallDelta = true → e.isToolCallEvent = true := by
    intro e h; cases e <;> first | rfl | cases h
  have ht : ∀ e : StreamPart, e.isToolCall = true → e.isToolCallEvent = true := by
    intro e h; cases e <;> first | rfl | cases h
  refine ⟨before, after, heq, hb, ha, ?_, ?_⟩
  · rw [heq, List.filter_append, List.filter_append, hnone before _ hd hb, hnone after _ hd ha]
    simp only [List.nil_append, List.append_nil]
    exact (toolCallPairs_counts stringify generateId _ _).1
  · rw [heq, List.filter_append, List.filter_append, hnone before _ ht hb, hnone after _ ht ha]
    simp only [List.nil_append, List.append_nil]
    exact (toolCallPairs_counts stringify generateId _ _).2

/-- Witness for C19: a chunk with one text part and one function-call part. -/
theorem transform_tool_call_events_witness :
    (⟨some [⟨.content "model" (.present [.text "a", .functionCall "f" .null]), none, none,
        none⟩], none⟩ : ChunkValue).candidates =
      some [⟨.content "model" (.present [.text "a", .functionCall "f" .null]), none, none,
        none⟩] ∧
    CandidateContent.content "model" (.present [.text "a", .functionCall "f" .null]) ≠
      .absent ∧
    (transform (fun _ => "null") (fun n => "id-" ++ toString n) (StreamState.initial 0)
        (.success ⟨some [⟨.content "model" (.present [.text "a", .functionCall "f" .null]),
          none, none, none⟩], none⟩)).2 =
      [.textDelta "a", .toolCallDelta "id-0" "f" "null", .toolCall "id-0" "f" "null"] ∧
    ((transform (fun _ => "null") (fun n => "id-" ++ toString n) (StreamState.initial 0)
        (.success ⟨some [⟨.content "model" (.present [.text "a", .functionCall "f" .null]),
          none, none, none⟩], none⟩)).2.filter StreamPart.isToolCallDelta).length = 1 := by
  obtain ⟨_, _, _, _, _, h4, _⟩ := transform_tool_call_events (fun _ => "null")
    (fun n => "id-" ++ toString n) (StreamState.initial 0)
    ⟨some [⟨.content "model" (.present [.text "a", .functionCall "f" .null]), none, none,
      none⟩], none⟩
    ⟨.content "model" (.present [.text "a", .functionCall "f" .null]), none, none, none⟩ []
    rfl (by intro h; cases h)
  refine ⟨rfl, ?_, ?_, h4⟩
  · intro h; cases h
  · rfl

/-- The content block changes neither the finish reason nor the usage nor the
provider metadata. -/
theorem contentEvents_fields (stringify : JSValue → String) (generateId : Nat → String)
    (st : StreamState) (parts : Option (List ResponsePart)) :
    (contentEvents stringify generateId st parts).1.finishReason = st.finishReason ∧
    (contentEvents stringify generateId st parts).1.usage = st.usage ∧
    (contentEvents stringify generateId st parts).1.providerMetadata = st.providerMetadata := by
  simp only [contentEvents]
  cases (getToolCallsFromParts stringify generateId st.nextId parts).1 with
  | none => exact ⟨rfl, rfl, rfl⟩
  | some calls => exact ⟨rfl, rfl, rfl⟩

/-- A chunk without usage metadata whose first candidate carries no finish
reason, and a failed chunk, change neither the finish reason nor the usage nor
the provider metadata. -/
theorem transform_fields (stringify : JSValue → String) (generateId : Nat → String)
    (st : StreamState) (chunk : ParseResult)
    (h : ∀ value, chunk = .success value →
      value.usageMetadata = none ∧
        ∀ c rest, value.candidates = some (c :: rest) → c.finishReason = none) :
    (transform stringify generateId st chunk).1.finishReason = st.finishReason ∧
    (transform stringify generateId st chunk).1.usage = st.usage ∧
    (transform stringify generateId st chunk).1.providerMetadata = st.providerMetadata := by
  cases chunk with
  | failure err => exact ⟨rfl, rfl, rfl⟩
  | success value =>
    obtain ⟨hu, hf⟩ := h value rfl
    simp only [transform, hu]
    cases hcs : value.candidates with
    | none => exact ⟨rfl, rfl, rfl⟩
    | some cs =>
      cases cs with
      | nil => exact ⟨rfl, rfl, rfl⟩
      | cons c rest =>
        simp only [hf c rest hcs]
        cases c.content with
        | absent => exact ⟨rfl, rfl, rfl⟩
        | empty => exact contentEvents_fields stringify generateId st none
        | content role parts => exact contentEvents_fields stringify generateId st parts.value

/-- A sequence of such chunks changes neither the finish reason nor the usage
nor the provider metadata. -/
theorem transformAll_fields (stringify : JSValue → String) (generateId : Nat → String)
    (chunks : List ParseResult)
    (h : ∀ chunk ∈ chunks, ∀ value, chunk = .success value →
      value.usageMetadata = none ∧
        ∀ c rest, value.candidates = some (c :: rest) → c.finishReason = none) :
    ∀ st : StreamState,
      (transformAll stringify generateId st chunks).1.finishReason = st.finishReason ∧
      (transformAll stringify generateId st chunks).1.usage = st.usage ∧
      (transformAll stringify generateId st chunks).1.providerMetadata =
        st.providerMetadata := by
  induction chunks with
  | nil => intro st; exact ⟨rfl, rfl, rfl⟩
  | cons chunk rest ih =>
    intro st
    have h1 := transform_fields stringify generateId st chunk (h chunk (List.mem_cons_self _ _))
    have h2 := ih (fun c hc => h c (List.mem_cons_of_mem _ hc))
      (transform stringify generateId st chunk).1
    have hcons : (transformAll stringify generateId st (chunk :: rest)).1 =
        (transformAll stringify generateId (transform stringify generateId st chunk).1 rest).1 :=
      rfl
    rw [hcons]
    exact ⟨h2.1.trans h1.1, h2.2.1.trans h1.2.1, h2.2.2.trans h1.2.2⟩

/-- Claim C20: when no successfully parsed chunk carries usage metadata or a
first candidate with a finish reason, as for the empty sequence and for a
sequence of failed chunks only, the finish event has the finish reason
`unknown`, the sentinel `NaN` for both usage counts and no provider
metadata. -/
theorem doStreamEvents_default_finish (stringify : JSValue → String)
    (generateId : Nat → String) (nextId : Nat) (chunks : List ParseResult)
    (h : ∀ chunk ∈ chunks, ∀ value, chunk = .success value →
      value.usageMetadata = none ∧
        ∀ c rest, value.candidates = some (c :: rest) → c.finishReason = none) :
    ∃ events,
      doStreamEvents stringify generateId nextId chunks =
        events ++ [.finish "unknown" ⟨.nan, .nan⟩ none] ∧
      ∀ e ∈ events, e.isFinish = false := by
  obtain ⟨h1, h2, h3⟩ := transformAll_fields stringify generateId chunks h
    (StreamState.initial nextId)
  refine ⟨(transformAll stringify generateId (StreamState.initial nextId) chunks).2, ?_,
    transformAll_no_finish stringify generateId chunks (StreamState.initial nextId)⟩
  have heq : doStreamEvents stringify generateId nextId chunks =
      (transformAll stringify generateId (StreamState.initial nextId) chunks).2 ++
        [.finish
          (transformAll stringify generateId (StreamState.initial nextId) chunks).1.finishReason
          (transformAll stringify generateId (StreamState.initial nextId) chunks).1.usage
          (transformAll stringify generateId (StreamState.initial nextId)
            chunks).1.providerMetadata] := rfl
  rw [heq, h1, h2, h3]
  rfl

/-- Witness for C20: a failed chunk followed by a chunk with text only. -/
theorem doStreamEvents_default_finish_witness :
    doStreamEvents (fun _ => "") (fun _ => "id") 0
        [.failure (.string "bad json"),
          .success ⟨some [⟨.content "model" (.present [.text "A"]), none, none, none⟩], none⟩] =
      [.error (.string "bad json"), .textDelta "A", .finish "unknown" ⟨.nan, .nan⟩ none] := by
  obtain ⟨events, h1, _⟩ := doStreamEvents_default_finish (fun _ => "") (fun _ => "id") 0
    [.failure (.string "bad json"),
      .success ⟨some [⟨.content "model" (.present [.text "A"]), none, none, none⟩], none⟩]
    (by
      intro chunk hmem value hv
      simp only [List.mem_cons, List.mem_singleton, List.not_mem_nil, or_false] at hmem
      rcases hmem with hm | hm
      · rw [hm] at hv; cases hv
      · rw [hm] at hv
        injection hv with hv
        subst hv
        refine ⟨rfl, ?_⟩
        intro c rest hc
        injection hc with hc
        injection hc with hc1 hc2
        rw [← hc1])
  rfl

/-! ## Only the first candidate is read -/

/-- Claim C21: the candidates after the first are never read: two responses
with the same first candidate and the same usage metadata give the same mapped
result in `doGenerate`, and two chunks with the same first candidate and usage
metadata give the same events and the same new state in the transform. -/
theorem first_candidate_only (stringify : JSValue → String) (generateId : Nat → String)
    (next : Nat) (candidate : Candidate) (others1 others2 : List Candidate)
    (usageMetadata : Option UsageMetadata) (st : StreamState) :
    doGenerateResult stringify generateId next ⟨candidate :: others1, usageMetadata⟩ =
      doGenerateResult stringify generateId next ⟨candidate :: others2, usageMetadata⟩ ∧
    transform stringify generateId st (.success ⟨some (candidate :: others1), usageMetadata⟩) =
      transform stringify generateId st
        (.success ⟨some (candidate :: others2), usageMetadata⟩) :=
  ⟨rfl, rfl⟩

/-! ## Message translator: assistant parts -/

/-- A message whose translation fails in every state makes the loop fail. -/
theorem convertLoop_fails_of_message (f : List Nat → String) (m : Message)
    (hm : ∀ st : ConvertState, ∃ e, convertMessage f st m = .error e) (ms : List Message)
    (hmem : m ∈ ms) : ∀ st : ConvertState, ∃ e, convertLoop f st ms = .error e := by
  induction ms with
  | nil => simp at hmem
  | cons m1 rest ih =>
    intro st
    rw [convertLoop]
    cases hc : convertMessage f st m1 with
    | error e => exact ⟨e, rfl⟩
    | ok st1 =>
      rcases List.mem_cons.mp hmem with heq | hin
      · subst heq
        obtain ⟨e, he⟩ := hm st
        rw [he] at hc
        cases hc
      · exact ih hin st1

/-- A file part that is not an inline `image/png` makes the map over the
assistant parts fail. -/
theorem mapAssistantParts_fails (data : FileData) (mimeType : String)
    (hbad : mimeType ≠ "image/png" ∨ ∃ href, data = .url href)
    (pre post : List AssistantPart) :
    ∃ e, mapAssistantParts (pre ++ AssistantPart.file data mimeType :: post) = .error e := by
  induction pre with
  | nil =>
    have hp : ∃ e, convertAssistantPart (.file data mimeType) = .error e := by
      by_cases hmt : mimeType = "image/png"
      · rcases hbad with h | ⟨href, h⟩
        · exact absurd hmt h
        · subst h
          exact ⟨⟨"File data URLs in assistant messages are not supported"⟩,
            by simp [convertAssistantPart, hmt]⟩
      · exact ⟨⟨"Only PNG images are supported in assistant messages"⟩,
          by simp [convertAssistantPart, hmt]⟩
    obtain ⟨e, he⟩ := hp
    exact ⟨e, by simp only [List.nil_append, mapAssistantParts, he]⟩
  | cons p rest ih =>
    obtain ⟨e, he⟩ := ih
    have hcons : mapAssistantParts (p :: (rest ++ AssistantPart.file data mimeType :: post)) =
        match convertAssistantPart p with
        | .error e => .error e
        | .ok r =>
          match mapAssistantParts (rest ++ AssistantPart.file data mimeType :: post) with
          | .error e => .error e
          | .ok rs => .ok (r :: rs) := rfl
    rw [List.cons_append, hcons, he]
    cases convertAssistantPart p with
    | error e1 => exact ⟨e1, rfl⟩
    | ok r => exact ⟨e, rfl⟩

/-- Claim C22: a prompt that holds an assistant file part whose mime type is
not exactly `image/png` or whose data is a URL is rejected with an
`UnsupportedFunctionalityError`; an assistant file part with mime type
`image/png` and inline data becomes an inline-data part with that mime type and
the same data. -/
theorem convertToGoogleGenerativeAIMessages_assistant_file
    (convertUint8ArrayToBase64 : List Nat → String) :
    (∀ (data : FileData) (mimeType : String) (pre post : List AssistantPart)
        (before after : List Message),
      (mimeType ≠ "image/png" ∨ ∃ href, data = .url href) →
      ∃ e : UnsupportedFunctionalityError,
        convertToGoogleGenerativeAIMessages convertUint8ArrayToBase64
          (before ++ Message.assistant (pre ++ AssistantPart.file data mimeType :: post) ::
            after) = .error e) ∧
    (∀ d : String,
      convertAssistantPart (.file (.base64 d) "image/png") =
          .ok (some (.inlineData "image/png" d)) ∧
        convertToGoogleGenerativeAIMessages convertUint8ArrayToBase64
            [.assistant [.file (.base64 d) "image/png"]] =
          .ok ⟨none, [⟨"model", [.inlineData "image/png" d]⟩]⟩) := by
  refine ⟨?_, fun d => ⟨rfl, rfl⟩⟩
  intro data mimeType pre post before after hbad
  obtain ⟨e0, he0⟩ := mapAssistantParts_fails data mimeType hbad pre post
  have hm : ∀ st : ConvertState, ∃ e,
      convertMessage convertUint8ArrayToBase64 st
        (Message.assistant (pre ++ AssistantPart.file data mimeType :: post)) = .error e :=
    fun st => ⟨e0, by simp only [convertMessage, he0]⟩
  obtain ⟨e, he⟩ := convertLoop_fails_of_message convertUint8ArrayToBase64 _ hm
    (before ++ Message.assistant (pre ++ AssistantPart.file data mimeType :: post) :: after)
    (by simp) ⟨[], [], true⟩
  exact ⟨e, by simp only [convertToGoogleGenerativeAIMessages, he]⟩

/-- Witness for C22: an assistant message with a JPEG file part. -/
theorem convertToGoogleGenerativeAIMessages_assistant_file_witness :
    ("image/jpeg" ≠ "image/png" ∨ ∃ href, FileData.base64 "AAAA" = .url href) ∧
    ∃ e : UnsupportedFunctionalityError,
      convertToGoogleGenerativeAIMessages (fun _ => "")
        ([Message.user [.text "hi"]] ++
          Message.assistant ([.text "see"] ++ AssistantPart.file (.base64 "AAAA") "image/jpeg" ::
            []) :: []) = .error e :=
  ⟨Or.inl (by decide),
    (convertToGoogleGenerativeAIMessages_assistant_file (fun _ => "")).1 (.base64 "AAAA")
      "image/jpeg" [.text "see"] [] [Message.user [.text "hi"]] [] (Or.inl (by decide))⟩

/-- A string has length zero exactly when it is the empty string. -/
theorem string_length_eq_zero_iff (t : String) : t.length = 0 ↔ t = "" := by
  constructor
  · intro h
    have hd : t.data = [] := List.length_eq_zero.mp h
    exact String.ext hd
  · intro h; rw [h]; rfl

/-- A translated assistant part is the vendor part of the specification, and
the part is an accepted one. -/
theorem convertAssistantPart_ok (p : AssistantPart) (r : Option GooglePart)
    (h : convertAssistantPart p = .ok r) : r = p.vendorPart? ∧ p.isSupported = true := by
  cases p with
  | text t =>
    simp only [convertAssistantPart, Except.ok.injEq] at h
    refine ⟨?_, rfl⟩
    rw [← h]
    by_cases ht : t = ""
    · simp [AssistantPart.vendorPart?, ht]
    · have hl : ¬ t.length = 0 := fun hl => ht ((string_length_eq_zero_iff t).mp hl)
      simp [AssistantPart.vendorPart?, ht, hl]
  | toolCall i n a =>
    simp only [convertAssistantPart, Except.ok.injEq] at h
    exact ⟨h.symm, rfl⟩
  | file data mimeType =>
    simp only [convertAssistantPart] at h
    by_cases hmt : mimeType = "image/png"
    · cases data with
      | url u => simp [hmt] at h
      | base64 d =>
        simp only [hmt, ne_eq, not_true_eq_false, if_false, Except.ok.injEq] at h
        exact ⟨by rw [← h, hmt]; rfl, by simp [AssistantPart.isSupported, hmt]⟩
    · simp [hmt] at h

/-- A successful map over the assistant parts gives the vendor parts of the
specification, and all parts are accepted ones. -/
theorem mapAssistantParts_ok (content : List AssistantPart) :
    ∀ parts, mapAssistantParts content = .ok parts →
      parts = content.map AssistantPart.vendorPart? ∧
        content.all AssistantPart.isSupported = true := by
  induction content with
  | nil =>
    intro parts h
    simp only [mapAssistantParts, Except.ok.injEq] at h
    exact ⟨h.symm, rfl⟩
  | cons p rest ih =>
    intro parts h
    simp only [mapAssistantParts] at h
    cases hp : convertAssistantPart p with
    | error e => rw [hp] at h; cases h
    | ok r =>
      rw [hp] at h
      cases hr : mapAssistantParts rest with
      | error e => rw [hr] at h; cases h
      | ok rs =>
        rw [hr] at h
        simp only [Except.ok.injEq] at h
        obtain ⟨h1, h2⟩ := convertAssistantPart_ok p r hp
        obtain ⟨h3, h4⟩ := ih rs hr
        refine ⟨?_, by simp only [List.all_cons, h2, h4, Bool.and_self]⟩
        rw [← h, h1, h3, List.map_cons]

/-- Among accepted parts, the parts without a vendor part are the empty
texts. -/
theorem length_filterMap_vendorPart (content : List AssistantPart)
    (h : content.all AssistantPart.isSupported = true) :
    (content.filterMap AssistantPart.vendorPart?).length =
      (content.filter (fun p => !p.isEmptyText)).length := by
  induction content with
  | nil => rfl
  | cons p rest ih =>
    simp only [List.all_cons, Bool.and_eq_true] at h
    have ih1 := ih h.2
    cases p with
    | text t =>
      by_cases ht : t = ""
      · simp [List.filterMap_cons, AssistantPart.vendorPart?, AssistantPart.isEmptyText, ht, ih1]
      · simp [List.filterMap_cons, AssistantPart.vendorPart?, AssistantPart.isEmptyText, ht, ih1]
    | toolCall i n a =>
      simp [List.filterMap_cons, AssistantPart.vendorPart?, AssistantPart.isEmptyText, ih1]
    | file data mimeType =>
      cases data with
      | url u => simp [AssistantPart.isSupported] at h
      | base64 d =>
        simp [List.filterMap_cons, AssistantPart.vendorPart?, AssistantPart.isEmptyText, ih1]

/-- No vendor part of the specification is a text part with the empty text. -/
theorem vendorPart_ne_empty_text (content : List AssistantPart) :
    GooglePart.text "" ∉ content.filterMap AssistantPart.vendorPart? := by
  intro h
  obtain ⟨p, _, hp⟩ := List.mem_filterMap.mp h
  cases p with
  | text t =>
    by_cases ht : t = ""
    · simp [AssistantPart.vendorPart?, ht] at hp
    · simp only [AssistantPart.vendorPart?, ht, if_false, Option.some.injEq,
        GooglePart.text.injEq] at hp
  | toolCall i n a => simp [AssistantPart.vendorPart?] at hp
  | file data mimeType => cases data <;> simp [AssistantPart.vendorPart?] at hp

/-- One message adds its vendor parts to the model-role contents when it is an
assistant message, whose parts are then all accepted, and adds no model-role
content otherwise. -/
theorem convertMessage_model_parts (f : List Nat → String) (st st1 : ConvertState)
    (m : Message) (h : convertMessage f st m = .ok st1) :
    (st1.contents.filter (fun c => decide (c.role = "model"))).map (fun c => c.parts) =
        (st.contents.filter (fun c => decide (c.role = "model"))).map (fun c => c.parts) ++
          (m.assistantContent?.toList.map
            (fun content => content.filterMap AssistantPart.vendorPart?)) ∧
      ∀ content, m = .assistant content → content.all AssistantPart.isSupported = true := by
  cases m with
  | system c =>
    simp only [convertMessage] at h
    split at h
    · cases h
    · injection h with h
      rw [← h]
      exact ⟨by simp [Message.assistantContent?], fun content hc => by cases hc⟩
  | user content =>
    simp only [convertMessage] at h
    injection h with h
    rw [← h]
    exact ⟨by simp [Message.assistantContent?, List.filter_append],
      fun content hc => by cases hc⟩
  | tool content =>
    simp only [convertMessage] at h
    injection h with h
    rw [← h]
    exact ⟨by simp [Message.assistantContent?, List.filter_append],
      fun content hc => by cases hc⟩
  | assistant content =>
    simp only [convertMessage] at h
    cases hp : mapAssistantParts content with
    | error e => rw [hp] at h; cases h
    | ok parts =>
      rw [hp] at h
      injection h with h
      obtain ⟨h1, h2⟩ := mapAssistantParts_ok content parts hp
      rw [← h]
      refine ⟨?_, fun c hc => by injection hc with hc; rw [← hc]; exact h2⟩
      simp [Message.assistantContent?, List.filter_append, h1, List.filterMap_map]

/-- The loop adds, per assistant message and in order, the vendor parts of the
message to the model-role contents; the parts of every assistant message are
accepted ones. -/
theorem convertLoop_model_parts (f : List Nat → String) (ms : List Message) :
    ∀ st st1 : ConvertState, convertLoop f st ms = .ok st1 →
      (st1.contents.filter (fun c => decide (c.role = "model"))).map (fun c => c.parts) =
          (st.contents.filter (fun c => decide (c.role = "model"))).map (fun c => c.parts) ++
            ((ms.filterMap Message.assistantContent?).map
              (fun content => content.filterMap AssistantPart.vendorPart?)) ∧
        ∀ content, Message.assistant content ∈ ms →
          content.all AssistantPart.isSupported = true := by
  induction ms with
  | nil =>
    intro st st1 h
    simp only [convertLoop, Except.ok.injEq] at h
    rw [← h]
    exact ⟨by simp, fun content hc => by simp at hc⟩
  | cons m rest ih =>
    intro st st1 h
    simp only [convertLoop] at h
    cases hm : convertMessage f st m with
    | error e => rw [hm] at h; cases h
    | ok st2 =>
      rw [hm] at h
      obtain ⟨h1, h2⟩ := convertMessage_model_parts f st st2 m hm
      obtain ⟨h3, h4⟩ := ih st2 st1 h
      refine ⟨?_, ?_⟩
      · rw [h3, h1, List.append_assoc]
        congr 1
        cases hv : m.assistantContent? with
        | none => simp [List.filterMap_cons, hv]
        | some content => simp [List.filterMap_cons, hv]
      · intro content hc
        rcases List.mem_cons.mp hc with heq | hin
        · exact h2 content heq.symm
        · exact h4 content hin

/-- Claim C23: when the translation succeeds, no model-role content holds a
text part with the empty text; the model-role contents are, per assistant
message and in order, the vendor parts of the parts that are not empty texts,
in their original order, and so as many as those parts. -/
theorem convertToGoogleGenerativeAIMessages_assistant_parts
    (convertUint8ArrayToBase64 : List Nat → String) (prompt : List Message) (r : GooglePrompt)
    (h : convertToGoogleGenerativeAIMessages convertUint8ArrayToBase64 prompt = .ok r) :
    (∀ c ∈ r.contents, c.role = "model" → GooglePart.text "" ∉ c.parts) ∧
    (r.contents.filter (fun c => decide (c.role = "model"))).map (fun c => c.parts) =
      (prompt.filterMap Message.assistantContent?).map
        (fun content => content.filterMap AssistantPart.vendorPart?) ∧
    (∀ content, Message.assistant content ∈ prompt →
      (content.filterMap AssistantPart.vendorPart?).length =
        (content.filter (fun p => !p.isEmptyText)).length) := by
  simp only [convertToGoogleGenerativeAIMessages] at h
  cases hl : convertLoop convertUint8ArrayToBase64 ⟨[], [], true⟩ prompt with
  | error e => rw [hl] at h; cases h
  | ok st =>
    rw [hl] at h
    injection h with h
    obtain ⟨h1, h2⟩ := convertLoop_model_parts convertUint8ArrayToBase64 prompt _ st hl
    simp only [List.filter_nil, List.map_nil, List.nil_append] at h1
    have hc : r.contents = st.contents := by rw [← h]
    rw [hc]
    refine ⟨?_, h1, fun content hmem => length_filterMap_vendorPart content (h2 content hmem)⟩
    intro c hcm hrole
    have hmem : c.parts ∈ (st.contents.filter (fun c => decide (c.role = "model"))).map
        (fun c => c.parts) :=
      List.mem_map.mpr ⟨c, List.mem_filter.mpr ⟨hcm, by simp [hrole]⟩, rfl⟩
    rw [h1] at hmem
    obtain ⟨content, _, hparts⟩ := List.mem_map.mp hmem
    rw [← hparts]
    exact vendorPart_ne_empty_text content

/-- Witness for C23: an assistant message with an empty text, a text and a
tool call. -/
theorem convertToGoogleGenerativeAIMessages_assistant_parts_witness :
    convertToGoogleGenerativeAIMessages (fun _ => "")
        [.user [.text ""], .assistant [.text "", .text "a", .toolCall "1" "f" .null]] =
      .ok ⟨none, [⟨"user", [.text ""]⟩, ⟨"model", [.text "a", .functionCall "f" .null]⟩]⟩ ∧
    (([⟨"user", [.text ""]⟩, ⟨"model", [.text "a", .functionCall "f" .null]⟩] :
        List GoogleContent).filter (fun c => decide (c.role = "model"))).map
        (fun c => c.parts) =
      ([Message.user [.text ""],
        .assistant [.text "", .text "a", .toolCall "1" "f" .null]].filterMap
          Message.assistantContent?).map
        (fun content => content.filterMap AssistantPart.vendorPart?) :=
  ⟨rfl, (convertToGoogleGenerativeAIMessages_assistant_parts (fun _ => "")
    [.user [.text ""], .assistant [.text "", .text "a", .toolCall "1" "f" .null]]
    ⟨none, [⟨"user", [.text ""]⟩, ⟨"model", [.text "a", .functionCall "f" .null]⟩]⟩ rfl).2.1⟩

/-! ## Schema translator: the keywords one by one -/

/-- Assigning the same key and value to two objects that agree on a key keeps
them in agreement on that key. -/
theorem get?_set_congr (r r1 : JSObject) (key k : String) (v : JSValue)
    (h : JSObject.get? r k = JSObject.get? r1 k) :
    JSObject.get? (JSObject.set r key v) k = JSObject.get? (JSObject.set r1 key v) k := by
  by_cases hk : k = key
  · subst hk
    rw [JSObject.get?_set_self, JSObject.get?_set_self]
  · rw [JSObject.get?_set_of_ne r key k v hk, JSObject.get?_set_of_ne r1 key k v hk, h]

/-- The statement `withOneOf` keeps two objects in agreement on a key. -/
theorem get?_withOneOf_congr (r r1 : JSObject) (a : Option (List JSValue)) (k : String)
    (h : JSObject.get? r k = JSObject.get? r1 k) :
    JSObject.get? (withOneOf r a) k = JSObject.get? (withOneOf r1 a) k := by
  cases a with
  | none => exact h
  | some xs => exact get?_set_congr r r1 "oneOf" k _ h

/-- The statement `withMinLength` keeps two objects in agreement on a key. -/
theorem get?_withMinLength_congr (r r1 : JSObject) (a : Option Int) (k : String)
    (h : JSObject.get? r k = JSObject.get? r1 k) :
    JSObject.get? (withMinLength r a) k = JSObject.get? (withMinLength r1 a) k := by
  cases a with
  | none => exact h
  | some n => exact get?_set_congr r r1 "minLength" k _ h

/-- The condition under which the flattening of `anyOf` leaves a key alone,
in the form the block `withAnyOf` needs it. -/
theorem not_merged_of_branch (anyOf : Option (List JSONSchema7Definition)) (k : String)
    (hbranch : ∀ xs b c, anyOf = some xs → xs.any isNullTypeSchema = true →
      xs.filter (fun s => !isNullTypeSchema s) = [b] →
      convertJSONSchemaToOpenAPISchema b = .object c → k ∉ JSObject.keys c) :
    ∀ xs c, anyOf = some xs → xs.any isNullTypeSchema = true →
      (xs.filter (fun s => !isNullTypeSchema s)).length = 1 →
      firstValue (((anyOf.getD []).filter (fun s => !isNullTypeSchema s)).map
        convertJSONSchemaToOpenAPISchema) = .object c →
      k ∉ JSObject.keys c := by
  intro xs c hxs hany hlen hfirst
  obtain ⟨b, hb⟩ := eq_singleton_of_length_one _ hlen
  subst hxs
  simp only [Option.getD_some, hb, List.map_cons, List.map_nil, firstValue] at hfirst
  exact hbranch xs b c rfl hany hb hfirst

/-- For a key other than `anyOf` and `nullable` that no merged branch brings,
the result object reads as the result object of the same schema without
`anyOf`. -/
theorem get?_buildResult_without_anyOf (type : Option SchemaType) (description : Option String)
    (required : Option (List String)) (format : Option String) (constValue : Option JSValue)
    (minLength : Option Int) (enumValues : Option (List JSValue))
    (properties : Option (List (String × JSValue))) (items : Option JSValue)
    (allOf : Option (List JSValue)) (anyOf : Option (List JSONSchema7Definition))
    (nn all : List JSValue) (oneOf : Option (List JSValue)) (k : String)
    (h1 : k ≠ "anyOf") (h2 : k ≠ "nullable")
    (h3 : ∀ xs c, anyOf = some xs → xs.any isNullTypeSchema = true →
      (xs.filter (fun s => !isNullTypeSchema s)).length = 1 → firstValue nn = .object c →
      k ∉ JSObject.keys c) :
    JSObject.get? (buildResult type description required format constValue minLength enumValues
        properties items allOf anyOf nn all oneOf) k =
      JSObject.get? (buildResult type description required format constValue minLength
        enumValues properties items allOf none [] [] oneOf) k := by
  simp only [buildResult]
  apply get?_withMinLength_congr
  apply get?_withOneOf_congr
  rw [get?_withAnyOf _ anyOf nn all k h1 h2 h3]
  rfl

/-- Reading a key of the result object of a schema without `anyOf`, when the
key is none of `allOf`, `oneOf`, `minLength`, `items`, `properties`: the value
is the one left by the statements up to `enum`. -/
theorem get?_buildResult_head (type : Option SchemaType) (description : Option String)
    (required : Option (List String)) (format : Option String) (constValue : Option JSValue)
    (minLength : Option Int) (enumValues : Option (List JSValue))
    (properties : Option (List (String × JSValue))) (items : Option JSValue)
    (allOf : Option (List JSValue)) (oneOf : Option (List JSValue)) (k : String)
    (h1 : k ≠ "minLength") (h2 : k ≠ "oneOf") (h3 : k ≠ "allOf") (h4 : k ≠ "items")
    (h5 : k ≠ "properties") :
    JSObject.get? (buildResult type description required format constValue minLength enumValues
        properties items allOf none [] [] oneOf) k =
      JSObject.get? (withEnum (withType (withConst (withFormat (withRequired
        (withDescription [] description) required) format) constValue) type) enumValues) k := by
  simp only [buildResult]
  rw [get?_of_step _ _ "minLength" k (withMinLength_shape _ _) h1,
    get?_of_step _ _ "oneOf" k (withOneOf_shape _ _) h2]
  have hany : ∀ r : JSObject, withAnyOf r none [] [] = r := fun r => rfl
  rw [hany, get?_of_step _ _ "allOf" k (withAllOf_shape _ _) h3,
    get?_of_step _ _ "items" k (withItems_shape _ _) h4,
    get?_of_step _ _ "properties" k (withProperties_shape _ _) h5]

/-- Counterexample to C24 as stated: with `const: 1` and an `anyOf` of a null
branch and a branch with `enum: [2]`, the flattening of `anyOf` replaces the
enum `[1]` by `[2]`. -/
theorem convert_const_overridden :
    convertJSONSchemaToOpenAPISchema
        (.schema none none none none none none
          (some [schemaOfType (.single "null"),
            .schema none none none none none none none none none none none
              (some [.number 2]) []])
          none none (some (.number 1)) none none []) =
      .object [("enum", .array [.number 2]), ("nullable", .bool true)] ∧
    JSObject.get? [("enum", JSValue.array [.number 2]), ("nullable", JSValue.bool true)] "enum" ≠
      some (.array [.number 1]) := by
  refine ⟨rfl, ?_⟩
  intro h
  simp [JSObject.get?] at h

/-- Claim C24, amended: for a translated schema object, unless the flattening
of `anyOf` merges a branch whose translation has an `enum` of its own: with a
`const` value and no `enum`, the result's `enum` is the one-element list of
that value; with an `enum` list, the result's `enum` is exactly that list,
also when a `const` is present. -/
theorem convert_const_and_enum (type : Option SchemaType) (description : Option String)
    (required : Option (List String))
    (properties : Option (List (String × JSONSchema7Definition)))
    (items : Option (OneOrMany JSONSchema7Definition))
    (allOf anyOf oneOf : Option (List JSONSchema7Definition))
    (format : Option String) (constValue : Option JSValue) (minLength : Option Int)
    (enumValues : Option (List JSValue)) (others : JSObject)
    (hne : isEmptyObjectSchema (.schema type description required properties items allOf anyOf
      oneOf format constValue minLength enumValues others) = false)
    (hbranch : ∀ xs b c, anyOf = some xs → xs.any isNullTypeSchema = true →
      xs.filter (fun s => !isNullTypeSchema s) = [b] →
      convertJSONSchemaToOpenAPISchema b = .object c → "enum" ∉ JSObject.keys c) :
    ∃ obj,
      convertJSONSchemaToOpenAPISchema (.schema type description required properties items
        allOf anyOf oneOf format constValue minLength enumValues others) = .object obj ∧
      (∀ v, constValue = some v → v ≠ .undefined → enumValues = none →
        JSObject.get? obj "enum" = some (.array [v])) ∧
      (∀ vs, enumValues = some vs → JSObject.get? obj "enum" = some (.array vs)) := by
  have hconv := convert_schema type description required properties items allOf anyOf oneOf
    format constValue minLength enumValues others
  rw [hne] at hconv
  simp only [Bool.false_eq_true, if_false] at hconv
  refine ⟨_, hconv, ?_, ?_⟩
  · intro v hv hvu he
    rw [get?_buildResult_without_anyOf _ _ _ _ _ _ _ _ _ _ anyOf _ _ _ "enum" (by decide)
        (by decide) (not_merged_of_branch anyOf "enum" hbranch),
      get?_buildResult_head _ _ _ _ _ _ _ _ _ _ _ "enum" (by decide) (by decide) (by decide)
        (by decide) (by decide), he, hv]
    have hw : ∀ r : JSObject, withEnum r none = r := fun r => rfl
    rw [hw, get?_withType _ _ "enum" (by decide) (by decide)]
    have hc : ∀ r : JSObject, withConst r (some v) = JSObject.set r "enum" (.array [v]) := by
      intro r
      cases v <;> first | rfl | exact absurd rfl hvu
    rw [hc, JSObject.get?_set_self]
  · intro vs he
    rw [get?_buildResult_without_anyOf _ _ _ _ _ _ _ _ _ _ anyOf _ _ _ "enum" (by decide)
        (by decide) (not_merged_of_branch anyOf "enum" hbranch),
      get?_buildResult_head _ _ _ _ _ _ _ _ _ _ _ "enum" (by decide) (by decide) (by decide)
        (by decide) (by decide), he]
    exact JSObject.get?_set_self _ _ _

/-- Witness for C24: `const: null` alone, and `const: 1` with `enum: [2, 3]`. -/
theorem convert_const_and_enum_witness :
    (∃ obj,
      convertJSONSchemaToOpenAPISchema
        (.schema none none none none none none none none none (some .null) none none []) =
        .object obj ∧
      JSObject.get? obj "enum" = some (.array [.null])) ∧
    ∃ obj,
      convertJSONSchemaToOpenAPISchema
        (.schema none none none none none none none none none (some (.number 1)) none
          (some [.number 2, .number 3]) []) = .object obj ∧
      JSObject.get? obj "enum" = some (.array [.number 2, .number 3]) := by
  constructor
  · obtain ⟨obj, h1, h2, _⟩ := convert_const_and_enum none none none none none none none none
      none (some .null) none none [] rfl (by intro xs b c h; cases h)
    exact ⟨obj, h1, h2 .null rfl (by intro h; cases h) rfl⟩
  · obtain ⟨obj, h1, _, h3⟩ := convert_const_and_enum none none none none none none none none
      none (some (.number 1)) none (some [.number 2, .number 3]) [] rfl
      (by intro xs b c h; cases h)
    exact ⟨obj, h1, h3 _ rfl⟩

/-- Counterexample to C25 as stated: a schema without `anyOf` whose
`description` and `format` are the empty string translates to the empty
object: both keywords are dropped. -/
theorem convert_empty_description_dropped :
    convertJSONSchemaToOpenAPISchema
        (.schema none (some "") none none none none none none (some "") none none none []) =
      .object [] ∧
    "description" ∉ JSObject.keys [] ∧ "format" ∉ JSObject.keys [] :=
  ⟨rfl, by decide, by decide⟩

/-- Claim C25, amended: for a translated schema object without `anyOf`, a
`description` or `format` that is not the empty string and any `required`
list, the empty list included, are carried over with the identical value; a
`description` or `format` that is the empty string is dropped. -/
theorem convert_description_required_format (type : Option SchemaType)
    (description : Option String) (required : Option (List String))
    (properties : Option (List (String × JSONSchema7Definition)))
    (items : Option (OneOrMany JSONSchema7Definition))
    (allOf oneOf : Option (List JSONSchema7Definition))
    (format : Option String) (constValue : Option JSValue) (minLength : Option Int)
    (enumValues : Option (List JSValue)) (others : JSObject)
    (hne : isEmptyObjectSchema (.schema type description required properties items allOf none
      oneOf format constValue minLength enumValues others) = false) :
    ∃ obj,
      convertJSONSchemaToOpenAPISchema (.schema type description required properties items
        allOf none oneOf format constValue minLength enumValues others) = .object obj ∧
      (∀ d, description = some d → d ≠ "" →
        JSObject.get? obj "description" = some (.string d)) ∧
      (∀ r, required = some r →
        JSObject.get? obj "required" = some (.array (r.map JSValue.string))) ∧
      (∀ f, format = some f → f ≠ "" → JSObject.get? obj "format" = some (.string f)) ∧
      (description = some "" → JSObject.get? obj "description" = none) ∧
      (format = some "" → JSObject.get? obj "format" = none) := by
  have hconv := convert_schema type description required properties items allOf none oneOf
    format constValue minLength enumValues others
  rw [hne] at hconv
  simp only [Bool.false_eq_true, if_false, Option.getD_none, List.filter_nil,
    List.map_nil] at hconv
  have hd : JSObject.get? (buildResult type description required format constValue minLength
      enumValues
      (properties.map
        (fun ps => ps.map (fun kv => (kv.1, convertJSONSchemaToOpenAPISchema kv.2))))
      (convertItems items) (allOf.map (fun xs => xs.map convertJSONSchemaToOpenAPISchema))
      none [] [] (oneOf.map (fun xs => xs.map convertJSONSchemaToOpenAPISchema)))
      "description" = JSObject.get? (withDescription [] description) "description" := by
    rw [get?_buildResult_head _ _ _ _ _ _ _ _ _ _ _ "description" (by decide) (by decide)
        (by decide) (by decide) (by decide),
      get?_of_step _ _ "enum" "description" (withEnum_shape _ _) (by decide),
      get?_withType _ _ "description" (by decide) (by decide),
      get?_of_step _ _ "enum" "description" (withConst_shape _ _) (by decide),
      get?_of_step _ _ "format" "description" (withFormat_shape _ _) (by decide),
      get?_of_step _ _ "required" "description" (withRequired_shape _ _) (by decide)]
  have hq : JSObject.get? (buildResult type description required format
      constValue minLength enumValues
      (properties.map
        (fun ps => ps.map (fun kv => (kv.1, convertJSONSchemaToOpenAPISchema kv.2))))
      (convertItems items) (allOf.map (fun xs => xs.map convertJSONSchemaToOpenAPISchema))
      none [] [] (oneOf.map (fun xs => xs.map convertJSONSchemaToOpenAPISchema)))
      "required" = JSObject.get? (withRequired (withDescription [] description) required)
        "required" := by
    rw [get?_buildResult_head _ _ _ _ _ _ _ _ _ _ _ "required" (by decide) (by decide)
        (by decide) (by decide) (by decide),
      get?_of_step _ _ "enum" "required" (withEnum_shape _ _) (by decide),
      get?_withType _ _ "required" (by decide) (by decide),
      get?_of_step _ _ "enum" "required" (withConst_shape _ _) (by decide),
      get?_of_step _ _ "format" "required" (withFormat_shape _ _) (by decide)]
  have hf : JSObject.get? (buildResult type description required format constValue minLength
      enumValues
      (properties.map
        (fun ps => ps.map (fun kv => (kv.1, convertJSONSchemaToOpenAPISchema kv.2))))
      (convertItems items) (allOf.map (fun xs => xs.map convertJSONSchemaToOpenAPISchema))
      none [] [] (oneOf.map (fun xs => xs.map convertJSONSchemaToOpenAPISchema)))
      "format" = JSObject.get? (withFormat (withRequired (withDescription [] description)
        required) format) "format" := by
    rw [get?_buildResult_head _ _ _ _ _ _ _ _ _ _ _ "format" (by decide) (by decide)
        (by decide) (by decide) (by decide),
      get?_of_step _ _ "enum" "format" (withEnum_shape _ _) (by decide),
      get?_withType _ _ "format" (by decide) (by decide),
      get?_of_step _ _ "enum" "format" (withConst_shape _ _) (by decide)]
  refine ⟨_, hconv, ?_, ?_, ?_, ?_, ?_⟩
  · intro d hdesc hdne
    rw [hd, hdesc]
    simp only [withDescription, hdne, ne_eq, not_false_eq_true, if_true]
    exact JSObject.get?_set_self _ _ _
  · intro r hreq
    rw [hq, hreq]
    exact JSObject.get?_set_self _ _ _
  · intro f hfmt hfne
    rw [hf, hfmt]
    simp only [withFormat, hfne, ne_eq, not_false_eq_true, if_true]
    exact JSObject.get?_set_self _ _ _
  · intro hdesc
    rw [hd, hdesc]
    rfl
  · intro hfmt
    rw [hf, hfmt]
    have hw : ∀ r : JSObject, withFormat r (some "") = r := fun r => rfl
    rw [hw, get?_of_step _ _ "required" "format" (withRequired_shape _ _) (by decide)]
    cases description with
    | none => rfl
    | some d =>
      exact (get?_of_step _ _ "description" "format" (withDescription_shape _ _) (by decide))

/-- Witness for C25: a description, an empty `required` list and a format. -/
theorem convert_description_required_format_witness :
    ∃ obj,
      convertJSONSchemaToOpenAPISchema
        (.schema (some (.single "string")) (some "a date") (some []) none none none none none
          (some "date") none none none []) = .object obj ∧
      JSObject.get? obj "description" = some (.string "a date") ∧
      JSObject.get? obj "required" = some (.array []) ∧
      JSObject.get? obj "format" = some (.string "date") := by
  obtain ⟨obj, h1, h2, h3, h4, _⟩ := convert_description_required_format
    (some (.single "string")) (some "a date") (some []) none none none none (some "date") none
    none none [] rfl
  exact ⟨obj, h1, h2 _ rfl (by decide), h3 _ rfl, h4 _ rfl (by decide)⟩

/-- Assigning a key that the object lacks appends the entry. -/
theorem JSObject.set_of_not_mem (obj : JSObject) (key : String) (value : JSValue)
    (h : key ∉ JSObject.keys obj) : JSObject.set obj key value = obj ++ [(key, value)] := by
  induction obj with
  | nil => rfl
  | cons kv rest ih =>
    obtain ⟨k, v⟩ := kv
    have hk : ¬ k = key := by
      intro hk; apply h; simp [JSObject.keys, hk]
    have hrest : key ∉ JSObject.keys rest := by
      intro hr; apply h
      simp only [JSObject.keys, List.map_cons, List.mem_cons]
      exact Or.inr hr
    simp only [JSObject.set, hk, if_false, ih hrest, List.cons_append]

/-- Assigning entries with distinct new keys one by one appends them. -/
theorem foldl_set_eq_append (l : List (String × JSValue)) :
    ∀ acc : JSObject, (JSObject.keys (acc ++ l)).Nodup →
      l.foldl (fun acc kv => JSObject.set acc kv.1 kv.2) acc = acc ++ l := by
  induction l with
  | nil => intro acc _; simp
  | cons kv rest ih =>
    intro acc hnd
    have hk : kv.1 ∉ JSObject.keys acc := by
      intro hk
      simp only [JSObject.keys, List.map_append, List.map_cons] at hnd hk
      have := (List.nodup_append.mp hnd).2.2
      exact this hk (List.mem_cons_self _ _)
    simp only [List.foldl_cons, JSObject.set_of_not_mem acc kv.1 kv.2 hk]
    have hnd1 : (JSObject.keys ((acc ++ [(kv.1, kv.2)]) ++ rest)).Nodup := by
      simpa [List.append_assoc] using hnd
    rw [ih _ hnd1]
    simp

/-- When no entry is named `__proto__`, the `reduce` over the entries assigns
every one of them as an own key. -/
theorem foldl_assignEntry_eq_foldl_set (l : List (String × JSValue))
    (h : "__proto__" ∉ JSObject.keys l) :
    ∀ acc : JSObject,
      l.foldl (fun acc kv => assignEntry acc kv.1 kv.2) acc =
        l.foldl (fun acc kv => JSObject.set acc kv.1 kv.2) acc := by
  induction l with
  | nil => intro acc; rfl
  | cons kv rest ih =>
    intro acc
    have h1 : ¬ kv.1 = "__proto__" := by
      intro hk
      exact h (by rw [← hk]; exact List.mem_cons_self _ _)
    have h2 : "__proto__" ∉ JSObject.keys rest := by
      intro hk
      exact h (List.mem_cons_of_mem _ hk)
    simp only [List.foldl_cons, assignEntry, h1, if_false]
    exact ih h2 _

/-- In an object without a repeated key, reading the key of an entry gives the
value of the entry. -/
theorem JSObject.get?_of_mem_nodup (obj : JSObject) (key : String) (value : JSValue)
    (hnd : (JSObject.keys obj).Nodup) (h : (key, value) ∈ obj) :
    JSObject.get? obj key = some value := by
  obtain ⟨v, hv⟩ := (JSObject.mem_keys_iff obj key).mp (List.mem_map.mpr ⟨_, h, rfl⟩)
  have hmem := JSObject.mem_of_get? obj key v hv
  rw [hv]
  congr 1
  clear hv
  induction obj with
  | nil => simp at h
  | cons kv rest ih =>
    have hnd1 : kv.1 ∉ JSObject.keys rest ∧ (JSObject.keys rest).Nodup := by
      simpa [JSObject.keys] using hnd
    rcases List.mem_cons.mp h with h1 | h1
    · rcases List.mem_cons.mp hmem with h2 | h2
      · rw [← h1] at h2
        exact (Prod.mk.inj h2).2
      · exact absurd (List.mem_map.mpr ⟨_, h2, rfl⟩) (by rw [← h1] at hnd1; exact hnd1.1)
    · rcases List.mem_cons.mp hmem with h2 | h2
      · exact absurd (List.mem_map.mpr ⟨_, h1, rfl⟩) (by rw [← h2] at hnd1; exact hnd1.1)
      · exact ih hnd1.2 h1 h2

/-- Counterexample to C27 as stated: with the property `a` and an `anyOf` of a
null branch and a branch with the property `b`, the flattening of `anyOf`
replaces the translated properties: the result has the key `b`, not `a`. -/
theorem convert_properties_overridden :
    convertJSONSchemaToOpenAPISchema
        (.schema none none none (some [("a", schemaOfType (.single "string"))]) none none
          (some [schemaOfType (.single "null"),
            .schema none none none (some [("b", schemaOfType (.single "number"))]) none none
              none none none none none none []])
          none none none none none []) =
      .object [("properties", .object [("b", .object [("type", .string "number")])]),
        ("nullable", .bool true)] ∧
    JSObject.keys [("b", JSValue.object [("type", JSValue.string "number")])] ≠ ["a"] :=
  ⟨rfl, by decide⟩

/-- The `reduce` at a property named `__proto__`: the assignment creates no own
key, so the result's `properties` holds the other property only. -/
theorem convert_properties_proto_key :
    convertJSONSchemaToOpenAPISchema
        (.schema none none none
          (some [("__proto__", schemaOfType (.single "string")),
            ("a", schemaOfType (.single "number"))])
          none none none none none none none none []) =
      .object [("properties", .object [("a", .object [("type", .string "number")])])] :=
  rfl

/-- Claim C27, amended: for a translated schema object with declared
properties (distinct keys, as in every object) none of which is named
`__proto__`, unless the flattening of `anyOf` merges a branch whose translation
has `properties` of its own, the result's `properties` has the same keys as the
input's, and the value at each key is the translation of the input sub-schema
at that key. -/
theorem convert_properties (type : Option SchemaType) (description : Option String)
    (required : Option (List String)) (ps : List (String × JSONSchema7Definition))
    (items : Option (OneOrMany JSONSchema7Definition))
    (allOf anyOf oneOf : Option (List JSONSchema7Definition))
    (format : Option String) (constValue : Option JSValue) (minLength : Option Int)
    (enumValues : Option (List JSValue)) (others : JSObject)
    (hkeys : (ps.map Prod.fst).Nodup)
    (hproto : "__proto__" ∉ ps.map Prod.fst)
    (hne : isEmptyObjectSchema (.schema type description required (some ps) items allOf anyOf
      oneOf format constValue minLength enumValues others) = false)
    (hbranch : ∀ xs b c, anyOf = some xs → xs.any isNullTypeSchema = true →
      xs.filter (fun s => !isNullTypeSchema s) = [b] →
      convertJSONSchemaToOpenAPISchema b = .object c → "properties" ∉ JSObject.keys c) :
    ∃ obj props,
      convertJSONSchemaToOpenAPISchema (.schema type description required (some ps) items
        allOf anyOf oneOf format constValue minLength enumValues others) = .object obj ∧
      JSObject.get? obj "properties" = some (.object props) ∧
      props = ps.map (fun kv => (kv.1, convertJSONSchemaToOpenAPISchema kv.2)) ∧
      JSObject.keys props = ps.map Prod.fst ∧
      ∀ k s, (k, s) ∈ ps →
        JSObject.get? props k = some (convertJSONSchemaToOpenAPISchema s) := by
  have hconv := convert_schema type description required (some ps) items allOf anyOf oneOf
    format constValue minLength enumValues others
  rw [hne] at hconv
  simp only [Bool.false_eq_true, if_false, Option.map_some'] at hconv
  have hk : JSObject.keys (ps.map (fun kv => (kv.1, convertJSONSchemaToOpenAPISchema kv.2))) =
      ps.map Prod.fst := by
    simp [JSObject.keys, List.map_map, Function.comp_def]
  refine ⟨_, ps.map (fun kv => (kv.1, convertJSONSchemaToOpenAPISchema kv.2)), hconv, ?_, rfl,
    hk, ?_⟩
  · rw [get?_buildResult_without_anyOf _ _ _ _ _ _ _ _ _ _ anyOf _ _ _ "properties" (by decide)
      (by decide) (not_merged_of_branch anyOf "properties" hbranch)]
    simp only [buildResult]
    rw [get?_of_step _ _ "minLength" "properties" (withMinLength_shape _ _) (by decide),
      get?_of_step _ _ "oneOf" "properties" (withOneOf_shape _ _) (by decide)]
    have hany : ∀ r : JSObject, withAnyOf r none [] [] = r := fun r => rfl
    rw [hany, get?_of_step _ _ "allOf" "properties" (withAllOf_shape _ _) (by decide),
      get?_of_step _ _ "items" "properties" (withItems_shape _ _) (by decide)]
    simp only [withProperties]
    rw [JSObject.get?_set_self,
      foldl_assignEntry_eq_foldl_set _ (by rw [hk]; exact hproto) [],
      foldl_set_eq_append _ [] (by rw [List.nil_append, hk]; exact hkeys)]
    rfl
  · intro k s hmem
    apply JSObject.get?_of_mem_nodup _ _ _ (by rw [hk]; exact hkeys)
    exact List.mem_map.mpr ⟨(k, s), hmem, rfl⟩

/-- Witness for C27: a schema that consists of two properties only, one of
them an empty-object schema. -/
theorem convert_properties_witness :
    (["name", "meta"] : List String).Nodup ∧
    "__proto__" ∉ (["name", "meta"] : List String) ∧
    convertJSONSchemaToOpenAPISchema
        (.schema none none none
          (some [("name", schemaOfType (.single "string")),
            ("meta", schemaOfType (.single "object"))])
          none none none none none none none none []) =
      .object [("properties", .object [("name", .object [("type", .string "string")]),
        ("meta", .undefined)])] := by
  refine ⟨by decide, by decide, ?_⟩
  obtain ⟨obj, props, h1, _, _, _, _⟩ := convert_properties none none none
    [("name", schemaOfType (.single "string")), ("meta", schemaOfType (.single "object"))]
    none none none none none none none none [] (by decide) (by decide) rfl
    (by intro xs b c h; cases h)
  rfl

/-- Claim C29: for a translated schema object whose `anyOf` has a null-typed
branch and two or more other branches, the result's `anyOf` is the list of the
translations of the other branches, in order, and `nullable` is `true`; when
`anyOf` has no null-typed branch, the result's `anyOf` is the element-wise
translation of all branches and `nullable` reads as for the same schema
without `anyOf`. -/
theorem convert_anyOf_kept (type : Option SchemaType) (description : Option String)
    (required : Option (List String))
    (properties : Option (List (String × JSONSchema7Definition)))
    (items : Option (OneOrMany JSONSchema7Definition))
    (allOf oneOf : Option (List JSONSchema7Definition))
    (format : Option String) (constValue : Option JSValue) (minLength : Option Int)
    (enumValues : Option (List JSValue)) (others : JSObject)
    (xs : List JSONSchema7Definition)
    (hne : isEmptyObjectSchema (.schema type description required properties items allOf
      (some xs) oneOf format constValue minLength enumValues others) = false) :
    ∃ obj obj0,
      convertJSONSchemaToOpenAPISchema (.schema type description required properties items
        allOf (some xs) oneOf format constValue minLength enumValues others) = .object obj ∧
      convertJSONSchemaToOpenAPISchema (.schema type description required properties items
        allOf none oneOf format constValue minLength enumValues others) = .object obj0 ∧
      (xs.any isNullTypeSchema = true → 2 ≤ (xs.filter (fun s => !isNullTypeSchema s)).length →
        JSObject.get? obj "anyOf" =
            some (.array ((xs.filter (fun s => !isNullTypeSchema s)).map
              convertJSONSchemaToOpenAPISchema)) ∧
          JSObject.get? obj "nullable" = some (.bool true)) ∧
      (xs.any isNullTypeSchema = false →
        JSObject.get? obj "anyOf" = some (.array (xs.map convertJSONSchemaToOpenAPISchema)) ∧
          ((xs.map convertJSONSchemaToOpenAPISchema).length = xs.length) ∧
          JSObject.get? obj "nullable" = JSObject.get? obj0 "nullable") := by
  have hconv := convert_schema type description required properties items allOf (some xs) oneOf
    format constValue minLength enumValues others
  rw [hne] at hconv
  simp only [Bool.false_eq_true, if_false, Option.getD_some] at hconv
  have hconv0 := convert_schema type description required properties items allOf none oneOf
    format constValue minLength enumValues others
  have hne0 : isEmptyObjectSchema (.schema type description required properties items allOf
      none oneOf format constValue minLength enumValues others) = false := hne
  rw [hne0] at hconv0
  simp only [Bool.false_eq_true, if_false, Option.getD_none, List.filter_nil,
    List.map_nil] at hconv0
  refine ⟨_, _, hconv, hconv0, ?_, ?_⟩
  · intro hany hlen
    have hl : ¬ (xs.filter (fun s => !isNullTypeSchema s)).length = 1 := by omega
    have hw : ∀ (r : JSObject) (nn all : List JSValue), withAnyOf r (some xs) nn all =
        JSObject.set (JSObject.set r "anyOf" (.array nn)) "nullable" (.bool true) := by
      intro r nn all
      simp only [withAnyOf, hany, hl, if_true, if_false]
    simp only [buildResult, hw]
    constructor
    · rw [get?_of_step _ _ "minLength" "anyOf" (withMinLength_shape _ _) (by decide),
        get?_of_step _ _ "oneOf" "anyOf" (withOneOf_shape _ _) (by decide),
        JSObject.get?_set_of_ne _ "nullable" "anyOf" _ (by decide), JSObject.get?_set_self]
    · rw [get?_of_step _ _ "minLength" "nullable" (withMinLength_shape _ _) (by decide),
        get?_of_step _ _ "oneOf" "nullable" (withOneOf_shape _ _) (by decide),
        JSObject.get?_set_self]
  · intro hany
    have hw : ∀ (r : JSObject) (nn all : List JSValue), withAnyOf r (some xs) nn all =
        JSObject.set r "anyOf" (.array all) := by
      intro r nn all
      simp only [withAnyOf, hany]
      rfl
    have hw0 : ∀ r : JSObject, withAnyOf r none [] [] = r := fun r => rfl
    simp only [buildResult, hw, hw0]
    refine ⟨?_, by simp, ?_⟩
    · rw [get?_of_step _ _ "minLength" "anyOf" (withMinLength_shape _ _) (by decide),
        get?_of_step _ _ "oneOf" "anyOf" (withOneOf_shape _ _) (by decide),
        JSObject.get?_set_self]
    · rw [get?_of_step _ _ "minLength" "nullable" (withMinLength_shape _ _) (by decide),
        get?_of_step _ _ "oneOf" "nullable" (withOneOf_shape _ _) (by decide),
        JSObject.get?_set_of_ne _ "anyOf" "nullable" _ (by decide),
        get?_of_step _ _ "minLength" "nullable" (withMinLength_shape _ _) (by decide),
        get?_of_step _ _ "oneOf" "nullable" (withOneOf_shape _ _) (by decide)]

/-- Witness for C29: `anyOf` of a null branch, a string branch and a number
branch, and `anyOf` of a string branch and a number branch. -/
theorem convert_anyOf_kept_witness :
    (∃ obj,
      convertJSONSchemaToOpenAPISchema
        (schemaOfAnyOf [schemaOfType (.single "string"), schemaOfType (.single "null"),
          schemaOfType (.single "number")]) = .object obj ∧
      JSObject.get? obj "anyOf" =
        some (.array [.object [("type", .string "string")],
          .object [("type", .string "number")]]) ∧
      JSObject.get? obj "nullable" = some (.bool true)) ∧
    ∃ obj,
      convertJSONSchemaToOpenAPISchema
        (schemaOfAnyOf [schemaOfType (.single "string"), schemaOfType (.single "number")]) =
        .object obj ∧
      JSObject.get? obj "anyOf" =
        some (.array [.object [("type", .string "string")],
          .object [("type", .string "number")]]) ∧
      JSObject.get? obj "nullable" = none := by
  constructor
  · obtain ⟨obj, obj0, h1, _, h3, _⟩ := convert_anyOf_kept none none none none none none none
      none none none none []
      [schemaOfType (.single "string"), schemaOfType (.single "null"),
        schemaOfType (.single "number")] rfl
    obtain ⟨h5, h6⟩ := h3 rfl (by decide)
    exact ⟨obj, h1, h5, h6⟩
  · obtain ⟨obj, obj0, h1, h2, _, h4⟩ := convert_anyOf_kept none none none none none none none
      none none none none []
      [schemaOfType (.single "string"), schemaOfType (.single "number")] rfl
    obtain ⟨h5, _, h7⟩ := h4 rfl
    refine ⟨obj, h1, h5, ?_⟩
    rw [h7]
    have h0 : convertJSONSchemaToOpenAPISchema
        (.schema none none none none none none none none none none none none []) =
        .object [] := rfl
    rw [h0] at h2
    injection h2 with h2
    rw [← h2]
    rfl

/-- Counterexample to C30 as stated.  First input: with `items` of type string
and an `anyOf` of a null branch and a branch with `items` of type number, the
flattening of `anyOf` replaces the translated items.  Second input: with
`items: false` the result has no `items` key at all. -/
theorem convert_items_exceptions :
    convertJSONSchemaToOpenAPISchema
        (.schema (some (.single "array")) none none none
          (some (.one (schemaOfType (.single "string")))) none
          (some [schemaOfType (.single "null"),
            .schema none none none none (some (.one (schemaOfType (.single "number")))) none
              none none none none none none []])
          none none none none none []) =
      .object [("type", .string "array"), ("items", .object [("type", .string "number")]),
        ("nullable", .bool true)] ∧
    convertJSONSchemaToOpenAPISchema (schemaOfType (.single "string")) =
      .object [("type", .string "string")] ∧
    convertJSONSchemaToOpenAPISchema
        (.schema (some (.single "array")) none none none (some (.one (.boolean false))) none
          none none none none none none []) =
      .object [("type", .string "array")] ∧
    "items" ∉ JSObject.keys [("type", JSValue.string "array")] :=
  ⟨rfl, rfl, rfl, by decide⟩

/-- Claim C30, amended: for a translated schema object with an `items` keyword
other than the boolean schema `false`, unless the flattening of `anyOf` merges
a branch whose translation has `items` of its own: for tuple-form items the
result's `items` is the list of the translations of the elements, of the same
length and in order; otherwise it is the translation of the items sub-schema,
which for the boolean schema `true` is the placeholder
`type: "boolean", properties: {}`. -/
theorem convert_items (type : Option SchemaType) (description : Option String)
    (required : Option (List String))
    (properties : Option (List (String × JSONSchema7Definition)))
    (items : OneOrMany JSONSchema7Definition)
    (allOf anyOf oneOf : Option (List JSONSchema7Definition))
    (format : Option String) (constValue : Option JSValue) (minLength : Option Int)
    (enumValues : Option (List JSValue)) (others : JSObject)
    (hne : isEmptyObjectSchema (.schema type description required properties (some items)
      allOf anyOf oneOf format constValue minLength enumValues others) = false)
    (hbranch : ∀ xs b c, anyOf = some xs → xs.any isNullTypeSchema = true →
      xs.filter (fun s => !isNullTypeSchema s) = [b] →
      convertJSONSchemaToOpenAPISchema b = .object c → "items" ∉ JSObject.keys c) :
    ∃ obj,
      convertJSONSchemaToOpenAPISchema (.schema type description required properties
        (some items) allOf anyOf oneOf format constValue minLength enumValues others) =
        .object obj ∧
      (∀ xs, items = .many xs →
        JSObject.get? obj "items" =
            some (.array (xs.map convertJSONSchemaToOpenAPISchema)) ∧
          (xs.map convertJSONSchemaToOpenAPISchema).length = xs.length) ∧
      (∀ s, items = .one s → s ≠ .boolean false →
        JSObject.get? obj "items" = some (convertJSONSchemaToOpenAPISchema s)) ∧
      (items = .one (.boolean true) →
        JSObject.get? obj "items" =
          some (.object [("type", .string "boolean"), ("properties", .object [])])) := by
  have hconv := convert_schema type description required properties (some items) allOf anyOf
    oneOf format constValue minLength enumValues others
  rw [hne] at hconv
  simp only [Bool.false_eq_true, if_false] at hconv
  have hget : ∀ v, convertItems (some items) = some v →
      JSObject.get? (buildResult type description required format constValue minLength
        enumValues
        (properties.map
          (fun ps => ps.map (fun kv => (kv.1, convertJSONSchemaToOpenAPISchema kv.2))))
        (convertItems (some items))
        (allOf.map (fun xs => xs.map convertJSONSchemaToOpenAPISchema))
        anyOf
        (((anyOf.getD []).filter (fun s => !isNullTypeSchema s)).map
          convertJSONSchemaToOpenAPISchema)
        ((anyOf.getD []).map convertJSONSchemaToOpenAPISchema)
        (oneOf.map (fun xs => xs.map convertJSONSchemaToOpenAPISchema))) "items" = some v := by
    intro v hv
    rw [get?_buildResult_without_anyOf _ _ _ _ _ _ _ _ _ _ anyOf _ _ _ "items" (by decide)
      (by decide) (not_merged_of_branch anyOf "items" hbranch)]
    simp only [buildResult]
    rw [get?_of_step _ _ "minLength" "items" (withMinLength_shape _ _) (by decide),
      get?_of_step _ _ "oneOf" "items" (withOneOf_shape _ _) (by decide)]
    have hany : ∀ r : JSObject, withAnyOf r none [] [] = r := fun r => rfl
    rw [hany, get?_of_step _ _ "allOf" "items" (withAllOf_shape _ _) (by decide), hv]
    exact JSObject.get?_set_self _ _ _
  refine ⟨_, hconv, ?_, ?_, ?_⟩
  · intro xs hxs
    subst hxs
    exact ⟨hget _ (by simp only [convertItems, convertSchemas_eq_map]), by simp⟩
  · intro s hs hsf
    subst hs
    apply hget
    cases s with
    | schema => rfl
    | boolean b =>
      cases b with
      | true => rfl
      | false => exact absurd rfl hsf
  · intro hs
    subst hs
    exact hget _ rfl

/-- Witness for C30: tuple-form items of a string schema and the boolean
schema `true`. -/
theorem convert_items_witness :
    ∃ obj,
      convertJSONSchemaToOpenAPISchema
        (.schema (some (.single "array")) none none none
          (some (.many [schemaOfType (.single "string"), .boolean true])) none none none none
          none none none []) = .object obj ∧
      JSObject.get? obj "items" =
        some (.array [.object [("type", .string "string")],
          .object [("type", .string "boolean"), ("properties", .object [])]]) := by
  obtain ⟨obj, h1, h2, _⟩ := convert_items (some (.single "array")) none none none
    (.many [schemaOfType (.single "string"), .boolean true]) none none none none none none none
    [] rfl (by intro xs b c h; cases h)
  exact ⟨obj, h1, (h2 _ rfl).1⟩

/-! ## Tool translator: the grounding tool -/

/-- The test `s.includes(sub)` holds exactly when `sub` is a contiguous part of
`s`. -/
theorem jsIncludes_iff_sublist_run (s sub : String) :
    jsIncludes s sub = true ↔ sub.data <:+: s.data := by
  simp only [jsIncludes, List.any_eq_true, List.mem_tails]
  constructor
  · rintro ⟨t, ht, hp⟩
    have hp1 : sub.data <+: t := List.isPrefixOf_iff_prefix.mp hp
    exact List.infix_iff_prefix_suffix.mpr ⟨t, hp1, ht⟩
  · intro h
    obtain ⟨t, hp, ht⟩ := List.infix_iff_prefix_suffix.mp h
    exact ⟨t, ht, List.isPrefixOf_iff_prefix.mpr hp⟩

/-- Claim C28: with search grounding enabled, `prepareTools` returns the tool
`googleSearch` for a model id that contains `gemini-2`; for every other model
id it returns the tool `googleSearchRetrieval`, which carries the supplied
dynamic retrieval config, unchanged, exactly when a config was supplied and
the model id contains `gemini-1.5-flash` and does not contain `-8b`, and is
empty otherwise. -/
theorem prepareTools_grounding_tool (mode : RegularMode)
    (dynamicRetrievalConfig : Option DynamicRetrievalConfig) (modelId : String) :
    ("gemini-2".data <:+: modelId.data →
      prepareTools mode true dynamicRetrievalConfig modelId =
        .ok ⟨some .googleSearch, none, []⟩) ∧
    (¬ "gemini-2".data <:+: modelId.data →
      ("gemini-1.5-flash".data <:+: modelId.data → ¬ "-8b".data <:+: modelId.data →
        prepareTools mode true dynamicRetrievalConfig modelId =
          .ok ⟨some (.googleSearchRetrieval dynamicRetrievalConfig), none, []⟩) ∧
      ((¬ "gemini-1.5-flash".data <:+: modelId.data ∨ "-8b".data <:+: modelId.data) →
        prepareTools mode true dynamicRetrievalConfig modelId =
          .ok ⟨some (.googleSearchRetrieval none), none, []⟩)) := by
  have h2 := jsIncludes_iff_sublist_run modelId "gemini-2"
  have hf := jsIncludes_iff_sublist_run modelId "gemini-1.5-flash"
  have h8 := jsIncludes_iff_sublist_run modelId "-8b"
  refine ⟨fun h => ?_, fun h => ⟨fun hflash hnot8 => ?_, fun hor => ?_⟩⟩
  · simp only [prepareTools, h2.mpr h, if_true]
  · have e2 : jsIncludes modelId "gemini-2" = false := by
      cases hj : jsIncludes modelId "gemini-2" with
      | false => rfl
      | true => exact absurd (h2.mp hj) h
    have e8 : jsIncludes modelId "-8b" = false := by
      cases hj : jsIncludes modelId "-8b" with
      | false => rfl
      | true => exact absurd (h8.mp hj) hnot8
    simp only [prepareTools, e2, hf.mpr hflash, e8, if_true]
    cases dynamicRetrievalConfig <;> rfl
  · have e2 : jsIncludes modelId "gemini-2" = false := by
      cases hj : jsIncludes modelId "gemini-2" with
      | false => rfl
      | true => exact absurd (h2.mp hj) h
    have es : (jsIncludes modelId "gemini-1.5-flash" && !jsIncludes modelId "-8b") = false := by
      rcases hor with hnf | h8b
      · have : jsIncludes modelId "gemini-1.5-flash" = false := by
          cases hj : jsIncludes modelId "gemini-1.5-flash" with
          | false => rfl
          | true => exact absurd (hf.mp hj) hnf
        rw [this]; rfl
      · rw [h8.mpr h8b]; simp
    simp only [prepareTools, e2, es, if_true]
    rfl

/-- Witness for C28: a Gemini 2 model, a Gemini 1.5 Flash model with a config,
and the `-8b` variant with the same config. -/
theorem prepareTools_grounding_tool_witness :
    prepareTools ⟨none, none⟩ true (some ⟨some "MODE_DYNAMIC", none⟩) "gemini-2.0-flash" =
      .ok ⟨some .googleSearch, none, []⟩ ∧
    prepareTools ⟨none, none⟩ true (some ⟨some "MODE_DYNAMIC", none⟩) "gemini-1.5-flash" =
      .ok ⟨some (.googleSearchRetrieval (some ⟨some "MODE_DYNAMIC", none⟩)), none, []⟩ ∧
    prepareTools ⟨none, none⟩ true (some ⟨some "MODE_DYNAMIC", none⟩) "gemini-1.5-flash-8b" =
      .ok ⟨some (.googleSearchRetrieval none), none, []⟩ :=
  ⟨(prepareTools_grounding_tool ⟨none, none⟩ (some ⟨some "MODE_DYNAMIC", none⟩)
      "gemini-2.0-flash").1 ((jsIncludes_iff_sublist_run _ _).mp (by decide)),
    ((prepareTools_grounding_tool ⟨none, none⟩ (some ⟨some "MODE_DYNAMIC", none⟩)
      "gemini-1.5-flash").2
        (fun h => absurd ((jsIncludes_iff_sublist_run "gemini-1.5-flash" "gemini-2").mpr h)
          (by decide))).1
      ((jsIncludes_iff_sublist_run _ _).mp (by decide))
      (fun h => absurd ((jsIncludes_iff_sublist_run "gemini-1.5-flash" "-8b").mpr h) (by decide)),
    ((prepareTools_grounding_tool ⟨none, none⟩ (some ⟨some "MODE_DYNAMIC", none⟩)
      "gemini-1.5-flash-8b").2
        (fun h => absurd ((jsIncludes_iff_sublist_run "gemini-1.5-flash-8b" "gemini-2").mpr h)
          (by decide))).2
      (Or.inr ((jsIncludes_iff_sublist_run _ _).mp (by decide)))⟩

/-! ## Schema translator: the result stays in the vendor dialect -/

/-- The entries added by the block `withAnyOf`, with their values. -/
theorem mem_withAnyOf_entries (r : JSObject) (anyOf : Option (List JSONSchema7Definition))
    (nn all : List JSValue) (p : String × JSValue) (hp : p ∈ withAnyOf r anyOf nn all) :
    p ∈ r ∨ p = ("anyOf", .array nn) ∨ p = ("anyOf", .array all) ∨
      p = ("nullable", .bool true) ∨ ∃ c, firstValue nn = .object c ∧ p ∈ c := by
  cases anyOf with
  | none => exact Or.inl hp
  | some xs =>
    by_cases h1 : xs.any isNullTypeSchema = true
    · by_cases h2 : (xs.filter (fun s => !isNullTypeSchema s)).length = 1
      · cases h3 : firstValue nn with
        | object c =>
          simp only [withAnyOf, h1, h2, h3, if_true] at hp
          rcases JSObject.mem_assign c _ p hp with h | h
          · rcases JSObject.mem_set r "nullable" _ p h with h4 | h4
            · exact Or.inl h4
            · exact Or.inr (Or.inr (Or.inr (Or.inl h4)))
          · exact Or.inr (Or.inr (Or.inr (Or.inr ⟨c, rfl, h⟩)))
        | undefined => simp only [withAnyOf, h1, h2, h3, if_true] at hp; exact Or.inl hp
        | null => simp only [withAnyOf, h1, h2, h3, if_true] at hp; exact Or.inl hp
        | bool b => simp only [withAnyOf, h1, h2, h3, if_true] at hp; exact Or.inl hp
        | number n => simp only [withAnyOf, h1, h2, h3, if_true] at hp; exact Or.inl hp
        | string s => simp only [withAnyOf, h1, h2, h3, if_true] at hp; exact Or.inl hp
        | array ys => simp only [withAnyOf, h1, h2, h3, if_true] at hp; exact Or.inl hp
      · simp only [withAnyOf, h1, h2, if_true, if_false] at hp
        rcases JSObject.mem_set _ "nullable" _ p hp with h | h
        · rcases JSObject.mem_set r "anyOf" _ p h with h4 | h4
          · exact Or.inl h4
          · exact Or.inr (Or.inl h4)
        · exact Or.inr (Or.inr (Or.inr (Or.inl h)))
    · have h1f : xs.any isNullTypeSchema = false := by simpa using h1
      have hw : withAnyOf r (some xs) nn all = JSObject.set r "anyOf" (.array all) := by
        simp only [withAnyOf, h1f]
        rfl
      rw [hw] at hp
      rcases JSObject.mem_set r "anyOf" _ p hp with h | h
      · exact Or.inl h
      · exact Or.inr (Or.inr (Or.inl h))

/-- Every entry of the result object, with its value when the value is a
sub-schema position: a keyword without sub-schemas, or `properties`, `items`,
`allOf`, `anyOf`, `oneOf` with the translated values they were given, or an
entry of the merged `anyOf` branch. -/
theorem mem_buildResult_entries (type : Option SchemaType) (description : Option String)
    (required : Option (List String)) (format : Option String) (constValue : Option JSValue)
    (minLength : Option Int) (enumValues : Option (List JSValue))
    (properties : Option (List (String × JSValue))) (items : Option JSValue)
    (allOf : Option (List JSValue)) (anyOf : Option (List JSONSchema7Definition))
    (nn all : List JSValue) (oneOf : Option (List JSValue)) (p : String × JSValue)
    (hp : p ∈ buildResult type description required format constValue minLength enumValues
      properties items allOf anyOf nn all oneOf) :
    p.1 ∈ ["description", "required", "format", "enum", "type", "nullable", "minLength"] ∨
    (∃ ps, properties = some ps ∧
      p = ("properties", .object (ps.foldl (fun acc kv => assignEntry acc kv.1 kv.2) []))) ∨
    (∃ v, items = some v ∧ p = ("items", v)) ∨
    (∃ xs, allOf = some xs ∧ p = ("allOf", .array xs)) ∨
    p = ("anyOf", .array nn) ∨ p = ("anyOf", .array all) ∨
    (∃ xs, oneOf = some xs ∧ p = ("oneOf", .array xs)) ∨
    ∃ c, firstValue nn = .object c ∧ p ∈ c := by
  simp only [buildResult] at hp
  rcases mem_of_step _ _ "minLength" p (withMinLength_shape _ _) hp with hp | h
  swap
  · exact Or.inl (by rw [h]; decide)
  have hone : p ∈ withAnyOf (withAllOf (withItems (withProperties (withEnum (withType
      (withConst (withFormat (withRequired (withDescription [] description) required) format)
        constValue) type) enumValues) properties) items) allOf) anyOf nn all ∨
      ∃ xs, oneOf = some xs ∧ p = ("oneOf", .array xs) := by
    cases oneOf with
    | none => exact Or.inl hp
    | some xs =>
      rcases JSObject.mem_set _ "oneOf" _ p hp with h | h
      · exact Or.inl h
      · exact Or.inr ⟨xs, rfl, h⟩
  rcases hone with hp | h
  swap
  · exact Or.inr (Or.inr (Or.inr (Or.inr (Or.inr (Or.inr (Or.inl h))))))
  rcases mem_withAnyOf_entries _ _ _ _ p hp with hp | h | h | h | h
  rotate_left
  · exact Or.inr (Or.inr (Or.inr (Or.inr (Or.inl h))))
  · exact Or.inr (Or.inr (Or.inr (Or.inr (Or.inr (Or.inl h)))))
  · exact Or.inl (by rw [h]; decide)
  · exact Or.inr (Or.inr (Or.inr (Or.inr (Or.inr (Or.inr (Or.inr h))))))
  have hall : p ∈ withItems (withProperties (withEnum (withType
      (withConst (withFormat (withRequired (withDescription [] description) required) format)
        constValue) type) enumValues) properties) items ∨
      ∃ xs, allOf = some xs ∧ p = ("allOf", .array xs) := by
    cases allOf with
    | none => exact Or.inl hp
    | some xs =>
      rcases JSObject.mem_set _ "allOf" _ p hp with h | h
      · exact Or.inl h
      · exact Or.inr ⟨xs, rfl, h⟩
  rcases hall with hp | h
  swap
  · exact Or.inr (Or.inr (Or.inr (Or.inl h)))
  have hitems : p ∈ withProperties (withEnum (withType
      (withConst (withFormat (withRequired (withDescription [] description) required) format)
        constValue) type) enumValues) properties ∨
      ∃ v, items = some v ∧ p = ("items", v) := by
    cases items with
    | none => exact Or.inl hp
    | some v =>
      rcases JSObject.mem_set _ "items" _ p hp with h | h
      · exact Or.inl h
      · exact Or.inr ⟨v, rfl, h⟩
  rcases hitems with hp | h
  swap
  · exact Or.inr (Or.inr (Or.inl h))
  have hprops : p ∈ withEnum (withType
      (withConst (withFormat (withRequired (withDescription [] description) required) format)
        constValue) type) enumValues ∨
      ∃ ps, properties = some ps ∧
        p = ("properties", .object (ps.foldl (fun acc kv => assignEntry acc kv.1 kv.2) [])) := by
    cases properties with
    | none => exact Or.inl hp
    | some ps =>
      rcases JSObject.mem_set _ "properties" _ p hp with h | h
      · exact Or.inl h
      · exact Or.inr ⟨ps, rfl, h⟩
  rcases hprops with hp | h
  swap
  · exact Or.inr (Or.inl h)
  rcases mem_of_step _ _ "enum" p (withEnum_shape _ _) hp with hp | h
  swap
  · exact Or.inl (by rw [h]; decide)
  rcases mem_withType _ _ p hp with hp | h | h
  rotate_left
  · exact Or.inl (by rw [h]; decide)
  · exact Or.inl (by rw [h]; decide)
  rcases mem_of_step _ _ "enum" p (withConst_shape _ _) hp with hp | h
  swap
  · exact Or.inl (by rw [h]; decide)
  rcases mem_of_step _ _ "format" p (withFormat_shape _ _) hp with hp | h
  swap
  · exact Or.inl (by rw [h]; decide)
  rcases mem_of_step _ _ "required" p (withRequired_shape _ _) hp with hp | h
  swap
  · exact Or.inl (by rw [h]; decide)
  rcases mem_of_step _ _ "description" p (withDescription_shape _ _) hp with hp | h
  swap
  · exact Or.inl (by rw [h]; decide)
  simp at hp

/-- The translator never returns a list. -/
theorem convert_ne_array (s : JSONSchema7Definition) (xs : List JSValue) :
    convertJSONSchemaToOpenAPISchema s ≠ .array xs := by
  cases s with
  | boolean b => rw [convert_boolean]; intro h; cases h
  | schema type description required properties items allOf anyOf oneOf format constValue
      minLength enumValues others =>
    rw [convert_schema]
    split
    · intro h; cases h
    · intro h; cases h

/-- The entries of an object built by assigning a list of pairs in order are
among those pairs. -/
theorem mem_of_mem_foldl_set (l : List (String × JSValue)) (p : String × JSValue)
    (hp : p ∈ l.foldl (fun acc kv => assignEntry acc kv.1 kv.2) []) : p ∈ l := by
  have hgen : ∀ (l : List (String × JSValue)) (acc : JSObject),
      p ∈ l.foldl (fun acc kv => assignEntry acc kv.1 kv.2) acc → p ∈ acc ∨ p ∈ l := by
    intro l
    induction l with
    | nil => intro acc h; exact Or.inl h
    | cons kv rest ih =>
      intro acc h
      rcases ih _ h with h1 | h1
      · by_cases hk : kv.1 = "__proto__"
        · simp only [assignEntry, hk, if_true] at h1
          exact Or.inl h1
        · simp only [assignEntry, hk, if_false] at h1
          rcases JSObject.mem_set acc kv.1 kv.2 p h1 with h2 | h2
          · exact Or.inl h2
          · exact Or.inr (by rw [h2]; exact List.mem_cons_self _ _)
      · exact Or.inr (List.mem_cons_of_mem _ h1)
  rcases hgen l [] hp with h | h
  · cases h
  · exact h

/-- The first element of a list, when it is an object, is an element of the list. -/
theorem firstValue_mem (l : List JSValue) (c : JSObject) (h : firstValue l = .object c) :
    JSValue.object c ∈ l := by
  cases l with
  | nil => cases h
  | cons v rest =>
    have hv : v = .object c := h
    rw [hv]
    exact List.mem_cons_self _ _

/-- Every translation is in the vendor dialect, at every depth. -/
theorem vendorSchema_convert (s : JSONSchema7Definition) :
    VendorSchema (convertJSONSchemaToOpenAPISchema s) := by
  induction s using schema_induction with
  | hbool b =>
    rw [convert_boolean]
    refine VendorSchema.object _ ?_ ?_ ?_ ?_ ?_
    · intro kv hkv
      simp only [List.mem_cons, List.mem_singleton, List.not_mem_nil, or_false] at hkv
      rcases hkv with h | h <;> (rw [h]; decide)
    · intro ps hps kv hkv
      simp only [List.mem_cons, List.mem_singleton, List.not_mem_nil, or_false, Prod.mk.injEq,
        JSValue.object.injEq] at hps
      rcases hps with h | h
      · exact absurd h.1 (by decide)
      · rw [h.2] at hkv; cases hkv
    · intro v hv
      simp only [List.mem_cons, List.mem_singleton, List.not_mem_nil, or_false, Prod.mk.injEq]
        at hv
      rcases hv with h | h <;> exact absurd h.1 (by decide)
    · intro xs hxs
      simp only [List.mem_cons, List.mem_singleton, List.not_mem_nil, or_false, Prod.mk.injEq]
        at hxs
      rcases hxs with h | h <;> exact absurd h.1 (by decide)
    · intro k xs _ hxs
      simp only [List.mem_cons, List.mem_singleton, List.not_mem_nil, or_false, Prod.mk.injEq]
        at hxs
      rcases hxs with h | h
      · cases h.2
      · cases h.2
  | hschema type description required properties items allOf anyOf oneOf format constValue
      minLength enumValues others ihp ihi ihis ihall ihany ihone =>
    rw [convert_schema]
    split
    · exact VendorSchema.undefined
    · have hnn : ∀ x ∈ ((anyOf.getD []).filter (fun s => !isNullTypeSchema s)).map
          convertJSONSchemaToOpenAPISchema, VendorSchema x := by
        intro x hx
        obtain ⟨b, hb, rfl⟩ := List.mem_map.mp hx
        cases anyOf with
        | none => cases hb
        | some ys => exact ihany ys rfl b (List.mem_of_mem_filter hb)
      have hal : ∀ x ∈ (anyOf.getD []).map convertJSONSchemaToOpenAPISchema,
          VendorSchema x := by
        intro x hx
        obtain ⟨b, hb, rfl⟩ := List.mem_map.mp hx
        cases anyOf with
        | none => cases hb
        | some ys => exact ihany ys rfl b hb
      have hmerged : ∀ c, firstValue (((anyOf.getD []).filter
          (fun s => !isNullTypeSchema s)).map convertJSONSchemaToOpenAPISchema) = .object c →
          VendorSchema (.object c) := fun c hc => hnn _ (firstValue_mem _ c hc)
      refine VendorSchema.object _ ?_ ?_ ?_ ?_ ?_
      · intro kv hkv
        rcases mem_buildResult_entries _ _ _ _ _ _ _ _ _ _ _ _ _ _ kv hkv with
          h | ⟨_, _, h⟩ | ⟨_, _, h⟩ | ⟨_, _, h⟩ | h | h | ⟨_, _, h⟩ | ⟨c, hc, h⟩
        · revert h
          generalize kv.1 = k
          intro h
          simp only [List.mem_cons, List.mem_singleton, List.not_mem_nil, or_false] at h
          rcases h with h | h | h | h | h | h | h <;> (rw [h]; decide)
        · rw [h]; simp [vendorKeywords]
        · rw [h]; simp [vendorKeywords]
        · rw [h]; simp [vendorKeywords]
        · rw [h]; simp [vendorKeywords]
        · rw [h]; simp [vendorKeywords]
        · rw [h]; simp [vendorKeywords]
        · cases hmerged c hc with
          | object _ hk _ _ _ _ => exact hk kv h
      · intro ps hps kv hkv
        rcases mem_buildResult_entries _ _ _ _ _ _ _ _ _ _ _ _ _ _ _ hps with
          h | ⟨ps0, hps0, h⟩ | ⟨_, _, h⟩ | ⟨_, _, h⟩ | h | h | ⟨_, _, h⟩ | ⟨c, hc, h⟩
        · simp at h
        · cases properties with
          | none => cases hps0
          | some qs =>
            simp only [Option.map_some', Option.some.injEq] at hps0
            simp only [Prod.mk.injEq, JSValue.object.injEq, true_and] at h
            rw [h, ← hps0] at hkv
            have hmem := mem_of_mem_foldl_set _ kv hkv
            obtain ⟨q, hq, rfl⟩ := List.mem_map.mp hmem
            exact ihp qs rfl q hq
        · simp at h
        · simp at h
        · simp at h
        · simp at h
        · simp at h
        · cases hmerged c hc with
          | object _ _ hp _ _ _ => exact hp ps h kv hkv
      · intro v hv hnarr
        rcases mem_buildResult_entries _ _ _ _ _ _ _ _ _ _ _ _ _ _ _ hv with
          h | ⟨_, _, h⟩ | ⟨v0, hv0, h⟩ | ⟨_, _, h⟩ | h | h | ⟨_, _, h⟩ | ⟨c, hc, h⟩
        · simp at h
        · simp at h
        · simp only [Prod.mk.injEq, true_and] at h
          subst h
          cases items with
          | none => cases hv0
          | some it =>
            cases it with
            | many xs =>
              have hx : v = .array (convertSchemas xs) := by
                have h1 : convertItems (some (.many xs)) = some (.array (convertSchemas xs)) :=
                  rfl
                rw [h1] at hv0
                exact (Option.some.inj hv0).symm
              exact absurd hx (hnarr _)
            | one s =>
              have hx : v = convertJSONSchemaToOpenAPISchema s := by
                cases s with
                | schema =>
                  exact (Option.some.inj hv0).symm
                | boolean b =>
                  cases b with
                  | false => cases hv0
                  | true => exact (Option.some.inj hv0).symm
              rw [hx]
              exact ihi s rfl
        · simp at h
        · simp at h
        · simp at h
        · simp at h
        · cases hmerged c hc with
          | object _ _ _ hi _ _ => exact hi v h hnarr
      · intro xs hxs x hx
        rcases mem_buildResult_entries _ _ _ _ _ _ _ _ _ _ _ _ _ _ _ hxs with
          h | ⟨_, _, h⟩ | ⟨v0, hv0, h⟩ | ⟨_, _, h⟩ | h | h | ⟨_, _, h⟩ | ⟨c, hc, h⟩
        · simp at h
        · simp at h
        · simp only [Prod.mk.injEq, true_and] at h
          subst h
          cases items with
          | none => cases hv0
          | some it =>
            cases it with
            | many ys =>
              have h1 : convertItems (some (.many ys)) = some (.array (convertSchemas ys)) :=
                rfl
              rw [h1, convertSchemas_eq_map] at hv0
              have h2 : ys.map convertJSONSchemaToOpenAPISchema = xs := by
                have h3 := Option.some.inj hv0
                exact JSValue.array.inj h3
              rw [← h2] at hx
              obtain ⟨y, hy, rfl⟩ := List.mem_map.mp hx
              exact ihis ys rfl y hy
            | one s =>
              have hx1 : JSValue.array xs = convertJSONSchemaToOpenAPISchema s := by
                cases s with
                | schema =>
                  exact (Option.some.inj hv0).symm
                | boolean b =>
                  cases b with
                  | false => cases hv0
                  | true => exact (Option.some.inj hv0).symm
              exact absurd hx1.symm (convert_ne_array s xs)
        · simp at h
        · simp at h
        · simp at h
        · simp at h
        · cases hmerged c hc with
          | object _ _ _ _ his _ => exact his xs h x hx
      · intro k xs hk hxs x hx
        rcases mem_buildResult_entries _ _ _ _ _ _ _ _ _ _ _ _ _ _ _ hxs with
          h | ⟨_, _, h⟩ | ⟨_, _, h⟩ | ⟨ys, hys, h⟩ | h | h | ⟨ys, hys, h⟩ | ⟨c, hc, h⟩
        · have h1 : k ∈ ["description", "required", "format", "enum", "type", "nullable",
              "minLength"] := h
          simp only [List.mem_cons, List.mem_singleton, List.not_mem_nil, or_false] at h1 hk
          rcases hk with hk | hk | hk <;> (subst hk; simp at h1)
        · have h1 := congrArg Prod.fst h
          simp only at h1
          subst h1
          exact absurd hk (by decide)
        · have h1 := congrArg Prod.fst h
          simp only at h1
          subst h1
          exact absurd hk (by decide)
        · simp only [Prod.mk.injEq, JSValue.array.injEq] at h
          cases allOf with
          | none => cases hys
          | some zs =>
            simp only [Option.map_some', Option.some.injEq] at hys
            rw [h.2, ← hys] at hx
            obtain ⟨y, hy, rfl⟩ := List.mem_map.mp hx
            exact ihall zs rfl y hy
        · simp only [Prod.mk.injEq, JSValue.array.injEq] at h
          rw [h.2] at hx
          exact hnn x hx
        · simp only [Prod.mk.injEq, JSValue.array.injEq] at h
          rw [h.2] at hx
          exact hal x hx
        · simp only [Prod.mk.injEq, JSValue.array.injEq] at h
          cases oneOf with
          | none => cases hys
          | some zs =>
            simp only [Option.map_some', Option.some.injEq] at hys
            rw [h.2, ← hys] at hx
            obtain ⟨y, hy, rfl⟩ := List.mem_map.mp hx
            exact ihone zs rfl y hy
        · cases hmerged c hc with
          | object _ _ _ _ _ hl => exact hl k xs hk h x hx

/-- The predicate `VendorSchema` looks below the top level: a foreign keyword
inside a `properties` value is rejected. -/
theorem vendorSchema_rejects_nested_keyword :
    ¬ VendorSchema (.object [("properties", .object [("a", .object [("const", .number 1)])])]) := by
  intro h
  cases h with
  | object _ _ hp _ _ _ =>
    have h1 := hp [("a", .object [("const", .number 1)])] (List.mem_cons_self _ _)
      ("a", .object [("const", .number 1)]) (List.mem_cons_self _ _)
    cases h1 with
    | object _ hk _ _ _ _ =>
      have h2 := hk ("const", .number 1) (List.mem_cons_self _ _)
      simp [vendorKeywords] at h2

/-- Claim C26: whenever the translator returns a schema, every key of the
result, at every nesting depth (the values of `properties`, `items` in either
form, the elements of `allOf`, `anyOf` and `oneOf`), is one of the twelve vendor
keywords; any other keyword is absent from the result. -/
theorem convert_confined_to_vendor_subset (s : JSONSchema7Definition) :
    VendorSchema (convertJSONSchemaToOpenAPISchema s) ∧
    ∀ obj, convertJSONSchemaToOpenAPISchema s = .object obj →
      ∀ k, k ∉ vendorKeywords → k ∉ JSObject.keys obj := by
  refine ⟨vendorSchema_convert s, ?_⟩
  intro obj hobj k hk hmem
  have h := vendorSchema_convert s
  rw [hobj] at h
  cases h with
  | object _ hkeys _ _ _ _ =>
    obtain ⟨kv, hkv, rfl⟩ := List.mem_map.mp hmem
    exact hk (hkeys kv hkv)

/-! ## Message translator: user and tool messages, and success -/

/-- What one message adds to the contents, when its translation succeeds. -/
theorem convertMessage_contents (f : List Nat → String) (st st1 : ConvertState) (m : Message)
    (h : convertMessage f st m = .ok st1) :
    st1.contents = st.contents ++ (m.vendorContent? f).toList := by
  cases m with
  | system c =>
    simp only [convertMessage] at h
    split at h
    · cases h
    · injection h with h
      rw [← h]
      simp [Message.vendorContent?]
  | user content =>
    simp only [convertMessage] at h
    injection h with h
    rw [← h]
    simp [Message.vendorContent?]
  | tool content =>
    simp only [convertMessage] at h
    injection h with h
    rw [← h]
    simp [Message.vendorContent?]
  | assistant content =>
    have h1 := (convertMessage_model_parts f st st1 (.assistant content) h).1
    simp only [convertMessage] at h
    cases hp : mapAssistantParts content with
    | error e => rw [hp] at h; cases h
    | ok parts =>
      rw [hp] at h
      injection h with h
      rw [← h] at h1 ⊢
      simp only [List.filter_append, List.map_append, Message.assistantContent?,
        Option.toList_some, List.map_cons, List.map_nil, List.append_cancel_left_eq] at h1
      have h2 : parts.filterMap id = content.filterMap AssistantPart.vendorPart? := by
        simpa using h1
      simp [Message.vendorContent?, h2]

/-- The loop adds, in order, the vendor content of every message. -/
theorem convertLoop_contents (f : List Nat → String) (ms : List Message) :
    ∀ st st1 : ConvertState, convertLoop f st ms = .ok st1 →
      st1.contents = st.contents ++ ms.filterMap (Message.vendorContent? f) := by
  induction ms with
  | nil =>
    intro st st1 h
    simp only [convertLoop, Except.ok.injEq] at h
    rw [← h]
    simp
  | cons m rest ih =>
    intro st st1 h
    simp only [convertLoop] at h
    cases hm : convertMessage f st m with
    | error e => rw [hm] at h; cases h
    | ok st2 =>
      rw [hm] at h
      rw [ih st2 st1 h, convertMessage_contents f st st2 m hm, List.append_assoc]
      congr 1
      cases hv : m.vendorContent? f with
      | none => simp [List.filterMap_cons, hv]
      | some c => simp [List.filterMap_cons, hv]

/-- The contents of a successful translation are the vendor contents of the
messages, in order. -/
theorem convertToGoogleGenerativeAIMessages_contents (f : List Nat → String)
    (prompt : List Message) (r : GooglePrompt)
    (h : convertToGoogleGenerativeAIMessages f prompt = .ok r) :
    r.contents = prompt.filterMap (Message.vendorContent? f) := by
  simp only [convertToGoogleGenerativeAIMessages] at h
  cases hl : convertLoop f ⟨[], [], true⟩ prompt with
  | error e => rw [hl] at h; cases h
  | ok st =>
    rw [hl] at h
    injection h with h
    have hc := convertLoop_contents f prompt _ st hl
    simp only [List.nil_append] at hc
    rw [← h]
    exact hc

/-- The messages that have a vendor content are those that are not system
messages. -/
theorem length_filterMap_vendorContent (f : List Nat → String) (ms : List Message) :
    (ms.filterMap (Message.vendorContent? f)).length =
      (ms.filter (fun m => !m.isSystem)).length := by
  induction ms with
  | nil => rfl
  | cons m rest ih =>
    cases m <;>
      simp [List.filterMap_cons, Message.vendorContent?, Message.isSystem, ih]

/-- The content of the message that stands after `before` in the prompt is the
entry of `contents` at the number of messages of `before` that are not system
messages. -/
theorem contents_at_message (f : List Nat → String) (before after : List Message)
    (m : Message) (c : GoogleContent) (hm : m.vendorContent? f = some c) (r : GooglePrompt)
    (h : convertToGoogleGenerativeAIMessages f (before ++ m :: after) = .ok r) :
    r.contents[(before.filter (fun m => !m.isSystem)).length]? = some c := by
  rw [convertToGoogleGenerativeAIMessages_contents f _ r h, List.filterMap_append,
    List.filterMap_cons, hm, ← length_filterMap_vendorContent f before,
    List.getElem?_append_right (Nat.le_refl _), Nat.sub_self]
  simp

/-- Claim C31: a user message is translated without failure of its own, and
when the whole translation succeeds its content has the role `user` and exactly
one part per input part, in order: a text part gives a text part; an image part
gives a file-data part with the URL when the image is a URL reference and an
inline-data part with the base64 encoding of the bytes otherwise, in both cases
with the mime type of the part or `image/jpeg` when none is set; a file part
gives a file-data part when its data is a URL and an inline-data part with the
data unchanged otherwise, with the mime type of the part as it is. -/
theorem convertToGoogleGenerativeAIMessages_user_parts
    (convertUint8ArrayToBase64 : List Nat → String) (before after : List Message)
    (content : List UserPart) (r : GooglePrompt)
    (h : convertToGoogleGenerativeAIMessages convertUint8ArrayToBase64
      (before ++ .user content :: after) = .ok r) :
    (∀ st, ∃ st1, convertMessage convertUint8ArrayToBase64 st (.user content) = .ok st1) ∧
    ∃ parts : List GooglePart,
      r.contents[(before.filter (fun m => !m.isSystem)).length]? = some ⟨"user", parts⟩ ∧
      parts.length = content.length ∧
      ∀ (i : Nat) (p : UserPart), content[i]? = some p →
        (∀ t, p = .text t → parts[i]? = some (.text t)) ∧
        (∀ href mimeType, p = .image (.url href) mimeType →
          parts[i]? = some (.fileData (mimeType.getD "image/jpeg") href)) ∧
        (∀ bytes mimeType, p = .image (.bytes bytes) mimeType →
          parts[i]? =
            some (.inlineData (mimeType.getD "image/jpeg") (convertUint8ArrayToBase64 bytes))) ∧
        (∀ href mimeType, p = .file (.url href) mimeType →
          parts[i]? = some (.fileData mimeType href)) ∧
        (∀ d mimeType, p = .file (.base64 d) mimeType →
          parts[i]? = some (.inlineData mimeType d)) := by
  refine ⟨fun st => ⟨_, rfl⟩, content.map (convertUserPart convertUint8ArrayToBase64),
    contents_at_message convertUint8ArrayToBase64 before after (.user content) _ rfl r h,
    List.length_map _ _, ?_⟩
  intro i p hp
  have hi : (content.map (convertUserPart convertUint8ArrayToBase64))[i]? =
      some (convertUserPart convertUint8ArrayToBase64 p) := by
    rw [List.getElem?_map, hp]
    rfl
  refine ⟨?_, ?_, ?_, ?_, ?_⟩
  · intro t ht; rw [hi, ht]; rfl
  · intro href mimeType ht; rw [hi, ht]; rfl
  · intro bytes mimeType ht; rw [hi, ht]; rfl
  · intro href mimeType ht; rw [hi, ht]; rfl
  · intro d mimeType ht; rw [hi, ht]; rfl

/-- Witness for C31: a system message followed by a user message with a text
part, an image URL without mime type and an inline file. -/
theorem convertToGoogleGenerativeAIMessages_user_parts_witness :
    convertToGoogleGenerativeAIMessages (fun _ => "QUJD")
        ([Message.system "s"] ++
          Message.user [.text "hi", .image (.url "https://e.org/a") none,
            .file (.base64 "JVBERg==") "application/pdf"] :: []) =
      .ok ⟨some ⟨[.text "s"]⟩,
        [⟨"user", [.text "hi", .fileData "image/jpeg" "https://e.org/a",
          .inlineData "application/pdf" "JVBERg=="]⟩]⟩ ∧
    ∃ parts : List GooglePart,
      ([⟨"user", [.text "hi", .fileData "image/jpeg" "https://e.org/a",
          .inlineData "application/pdf" "JVBERg=="]⟩] : List GoogleContent)[0]? =
        some ⟨"user", parts⟩ ∧
      parts.length = 3 :=
  ⟨rfl,
    let ⟨parts, h1, h2, _⟩ := (convertToGoogleGenerativeAIMessages_user_parts (fun _ => "QUJD")
      [Message.system "s"] []
      [.text "hi", .image (.url "https://e.org/a") none,
        .file (.base64 "JVBERg==") "application/pdf"]
      ⟨some ⟨[.text "s"]⟩,
        [⟨"user", [.text "hi", .fileData "image/jpeg" "https://e.org/a",
          .inlineData "application/pdf" "JVBERg=="]⟩]⟩ rfl).2
    ⟨parts, h1, h2⟩⟩

/-- Claim C32: a tool message is translated without failure of its own, and
when the whole translation succeeds its content has the role `user` and exactly
one function-response part per tool-result part, in order, the i-th with the
tool name of the i-th part as `name`, and as `response` that name again with
the result of the part, unchanged, as `content`. -/
theorem convertToGoogleGenerativeAIMessages_tool_parts
    (convertUint8ArrayToBase64 : List Nat → String) (before after : List Message)
    (content : List ToolResultPart) (r : GooglePrompt)
    (h : convertToGoogleGenerativeAIMessages convertUint8ArrayToBase64
      (before ++ .tool content :: after) = .ok r) :
    (∀ st, ∃ st1, convertMessage convertUint8ArrayToBase64 st (.tool content) = .ok st1) ∧
    ∃ parts : List GooglePart,
      r.contents[(before.filter (fun m => !m.isSystem)).length]? = some ⟨"user", parts⟩ ∧
      parts.length = content.length ∧
      ∀ (i : Nat) (p : ToolResultPart), content[i]? = some p →
        parts[i]? = some (.functionResponse p.toolName ⟨p.toolName, p.result⟩) := by
  refine ⟨fun st => ⟨_, rfl⟩, content.map convertToolResultPart,
    contents_at_message convertUint8ArrayToBase64 before after (.tool content) _ rfl r h,
    List.length_map _ _, ?_⟩
  intro i p hp
  rw [List.getElem?_map, hp]
  rfl

/-- Witness for C32: a user message followed by a tool message with two
results. -/
theorem convertToGoogleGenerativeAIMessages_tool_parts_witness :
    convertToGoogleGenerativeAIMessages (fun _ => "")
        ([Message.user [.text "hi"]] ++
          Message.tool [⟨"c1", "f", .number 1⟩, ⟨"c2", "g", .null⟩] :: []) =
      .ok ⟨none,
        [⟨"user", [.text "hi"]⟩,
          ⟨"user", [.functionResponse "f" ⟨"f", .number 1⟩,
            .functionResponse "g" ⟨"g", .null⟩]⟩]⟩ ∧
    ∃ parts : List GooglePart,
      ([⟨"user", [.text "hi"]⟩,
          ⟨"user", [.functionResponse "f" ⟨"f", .number 1⟩,
            .functionResponse "g" ⟨"g", .null⟩]⟩] : List GoogleContent)[1]? =
        some ⟨"user", parts⟩ ∧
      parts.length = 2 :=
  ⟨rfl,
    let ⟨parts, h1, h2, _⟩ := (convertToGoogleGenerativeAIMessages_tool_parts (fun _ => "")
      [Message.user [.text "hi"]] [] [⟨"c1", "f", .number 1⟩, ⟨"c2", "g", .null⟩]
      ⟨none,
        [⟨"user", [.text "hi"]⟩,
          ⟨"user", [.functionResponse "f" ⟨"f", .number 1⟩,
            .functionResponse "g" ⟨"g", .null⟩]⟩]⟩ rfl).2
    ⟨parts, h1, h2⟩⟩

/-- The loop succeeds from any state when every assistant part is accepted and
the system messages respect the latch: with the latch set they form a leading
block, with the latch cleared there is none. -/
theorem convertLoop_ok_of_ordered (f : List Nat → String) (ms : List Message) :
    ∀ st : ConvertState,
      (∀ m ∈ ms, m.partsSupported = true) →
      (st.systemMessagesAllowed = true →
        ∀ before m after, ms = before ++ m :: after → m.isSystem = true →
          ∀ x ∈ before, x.isSystem = true) →
      (st.systemMessagesAllowed = false → ∀ m ∈ ms, m.isSystem = false) →
      ∃ st1, convertLoop f st ms = .ok st1 := by
  induction ms with
  | nil => intro st _ _ _; exact ⟨st, rfl⟩
  | cons m rest ih =>
    intro st hsup hord hnone
    have hcons : ∀ st2, convertMessage f st m = .ok st2 →
        convertLoop f st (m :: rest) = convertLoop f st2 rest := by
      intro st2 h2
      simp only [convertLoop, h2]
    cases hsys : m.isSystem with
    | true =>
      have hallowed : st.systemMessagesAllowed = true := by
        cases ha : st.systemMessagesAllowed with
        | true => rfl
        | false =>
          have := hnone ha m (List.mem_cons_self _ _)
          rw [hsys] at this
          cases this
      cases m with
      | system c =>
        have hm : convertMessage f st (.system c) =
            .ok { st with systemInstructionParts := st.systemInstructionParts ++ [.text c] } := by
          simp only [convertMessage, hallowed]
          rfl
        rw [hcons _ hm]
        apply ih
        · exact fun x hx => hsup x (List.mem_cons_of_mem _ hx)
        · intro _ before x after hrest hx y hy
          exact hord hallowed (Message.system c :: before) x after (by rw [hrest]; rfl) hx y
            (List.mem_cons_of_mem _ hy)
        · intro ha
          have ha1 : st.systemMessagesAllowed = false := ha
          rw [hallowed] at ha1
          cases ha1
      | user content => cases hsys
      | assistant content => cases hsys
      | tool content => cases hsys
    | false =>
      obtain ⟨c, hc⟩ := convertMessage_ok_of_supported f m hsys (hsup m (List.mem_cons_self _ _))
      rw [hcons _ (hc st)]
      apply ih
      · exact fun x hx => hsup x (List.mem_cons_of_mem _ hx)
      · intro ha
        cases ha
      · intro _ x hx
        cases ha : st.systemMessagesAllowed with
        | false => exact hnone ha x (List.mem_cons_of_mem _ hx)
        | true =>
          cases hxs : x.isSystem with
          | false => rfl
          | true =>
            obtain ⟨before, after, hrest⟩ := List.append_of_mem hx
            have hm := hord ha (m :: before) x after (by rw [hrest]; rfl) hxs m
              (List.mem_cons_self _ _)
            rw [hsys] at hm
            cases hm

/-- Claim C33: for every prompt in which every system message is preceded by
system messages only, and in which every file part of an assistant message has
the mime type `image/png` and inline data, the translator returns a result:
it fails for no other reason than the two listed. -/
theorem convertToGoogleGenerativeAIMessages_succeeds
    (convertUint8ArrayToBase64 : List Nat → String) (prompt : List Message)
    (horder : ∀ before m after, prompt = before ++ m :: after → m.isSystem = true →
      ∀ x ∈ before, x.isSystem = true)
    (hfiles : ∀ content, Message.assistant content ∈ prompt →
      ∀ data mimeType, AssistantPart.file data mimeType ∈ content →
        mimeType = "image/png" ∧ ∃ d, data = .base64 d) :
    ∃ r, convertToGoogleGenerativeAIMessages convertUint8ArrayToBase64 prompt = .ok r := by
  have hsup : ∀ m ∈ prompt, m.partsSupported = true := by
    intro m hm
    cases m with
    | system c => rfl
    | user content => rfl
    | tool content => rfl
    | assistant content =>
      simp only [Message.partsSupported, List.all_eq_true]
      intro p hp
      cases p with
      | text t => rfl
      | toolCall i n a => rfl
      | file data mimeType =>
        obtain ⟨h1, d, h2⟩ := hfiles content hm data mimeType hp
        rw [h1, h2]
        rfl
  obtain ⟨st, hst⟩ := convertLoop_ok_of_ordered convertUint8ArrayToBase64 prompt
    ⟨[], [], true⟩ hsup (fun _ => horder) (fun h => by cases h)
  refine ⟨⟨if st.systemInstructionParts.length > 0 then some ⟨st.systemInstructionParts⟩
    else none, st.contents⟩, ?_⟩
  simp only [convertToGoogleGenerativeAIMessages, hst]

/-- Witness for C33: two system messages, a user message, an assistant message
with an inline PNG, and a tool message. -/
theorem convertToGoogleGenerativeAIMessages_succeeds_witness :
    ∃ r, convertToGoogleGenerativeAIMessages (fun _ => "")
      [.system "a", .system "b", .user [.text "hi"],
        .assistant [.text "", .file (.base64 "iVBORw==") "image/png"], .tool []] = .ok r :=
  convertToGoogleGenerativeAIMessages_succeeds (fun _ => "")
    [.system "a", .system "b", .user [.text "hi"],
      .assistant [.text "", .file (.base64 "iVBORw==") "image/png"], .tool []]
    (by
      intro before m after h hm x hx
      cases m with
      | user content => cases hm
      | assistant content => cases hm
      | tool content => cases hm
      | system c =>
        match before, h with
        | [], _ => cases hx
        | [b0], h =>
          simp only [List.cons_append, List.nil_append, List.cons.injEq] at h
          simp only [List.mem_singleton] at hx
          rw [hx, ← h.1]; rfl
        | [b0, b1], h =>
          simp only [List.cons_append, List.nil_append, List.cons.injEq] at h
          exact absurd h.2.2.1 (by intro h1; cases h1)
        | [b0, b1, b2], h =>
          simp only [List.cons_append, List.nil_append, List.cons.injEq] at h
          exact absurd h.2.2.2.1 (by intro h1; cases h1)
        | [b0, b1, b2, b3], h =>
          simp only [List.cons_append, List.nil_append, List.cons.injEq] at h
          exact absurd h.2.2.2.2.1 (by intro h1; cases h1)
        | b0 :: b1 :: b2 :: b3 :: b4 :: more, h =>
          have hl := congrArg List.length h
          simp at hl)
    (by
      intro content hmem data mimeType hp
      simp only [List.mem_cons, List.mem_singleton, List.not_mem_nil, or_false,
        Message.assistant.injEq] at hmem
      rcases hmem with h | h | h | h | h
      · cases h
      · cases h
      · cases h
      · rw [h] at hp
        simp only [List.mem_cons, List.mem_singleton, List.not_mem_nil, or_false,
          AssistantPart.file.injEq] at hp
        rcases hp with h1 | h1
        · cases h1
        · exact ⟨h1.2, _, h1.1⟩
      · cases h)

/-! ## Tool translator: the partition of the tools -/

/-- The declarations are as many as the function tools and the warnings as many
as the provider-defined tools. -/
theorem length_partition_tools (ts : List Tool) :
    (ts.filterMap Tool.declaration?).length =
        (ts.filter (fun t => !t.isProviderDefined)).length ∧
    (ts.filterMap Tool.warning?).length = (ts.filter Tool.isProviderDefined).length ∧
    (ts.filterMap Tool.declaration?).length + (ts.filterMap Tool.warning?).length =
      ts.length := by
  induction ts with
  | nil => exact ⟨rfl, rfl, rfl⟩
  | cons t rest ih =>
    obtain ⟨h1, h2, h3⟩ := ih
    cases t with
    | function n d p =>
      have e : Tool.isProviderDefined (.function n d p) = false := rfl
      have ed : Tool.declaration? (.function n d p) =
          some ⟨n, d.getD "", convertJSONSchemaToOpenAPISchema p⟩ := rfl
      have ew : Tool.warning? (.function n d p) = none := rfl
      rw [List.filterMap_cons, List.filterMap_cons, List.filter_cons, List.filter_cons]
      simp only [e, ed, ew, Bool.not_false, if_true, Bool.false_eq_true, if_false,
        List.length_cons]
      exact ⟨by rw [h1], h2, by omega⟩
    | providerDefined id name args =>
      have e : Tool.isProviderDefined (.providerDefined id name args) = true := rfl
      have ed : Tool.declaration? (.providerDefined id name args) = none := rfl
      have ew : Tool.warning? (.providerDefined id name args) =
          some (.unsupportedTool (.providerDefined id name args)) := rfl
      rw [List.filterMap_cons, List.filterMap_cons, List.filter_cons, List.filter_cons]
      simp only [e, ed, ew, Bool.not_true, if_true, Bool.false_eq_true, if_false,
        List.length_cons]
      exact ⟨h1, by rw [h2], by omega⟩

/-- Claim C34: with search grounding disabled and a non-empty tool list,
`prepareTools` returns a result for an absent tool choice and for each of the
four tool choices of the interface (it fails only for a tool-choice tag that is
none of them), and in the result the function declarations are, in input
order, one per function tool, with its name, its description or the empty
string when it has none, and the translation of its parameters; the warnings
are, in input order, one unsupported-tool warning per provider-defined tool;
and the two counts add up to the number of tools. -/
theorem prepareTools_partition (ts : List Tool) (hts : ts ≠ []) (choice : Option ToolChoice)
    (dynamicRetrievalConfig : Option DynamicRetrievalConfig) (modelId : String) :
    ((∃ type, choice = some (.other type)) ∧
      ∃ e, prepareTools ⟨some ts, choice⟩ false dynamicRetrievalConfig modelId = .error e) ∨
    ((∀ type, choice ≠ some (.other type)) ∧
      ∃ declarations toolConfig warnings,
        prepareTools ⟨some ts, choice⟩ false dynamicRetrievalConfig modelId =
          .ok ⟨some (.functionDeclarations declarations), toolConfig, warnings⟩ ∧
        declarations = ts.filterMap (fun t =>
          match t with
          | .function name description parameters =>
            some ⟨name, description.getD "", convertJSONSchemaToOpenAPISchema parameters⟩
          | .providerDefined _ _ _ => none) ∧
        warnings = ts.filterMap (fun t =>
          match t with
          | .function _ _ _ => none
          | .providerDefined id name args =>
            some (.unsupportedTool (.providerDefined id name args))) ∧
        declarations.length = (ts.filter (fun t => !t.isProviderDefined)).length ∧
        warnings.length = (ts.filter Tool.isProviderDefined).length ∧
        declarations.length + warnings.length = ts.length) := by
  have hloop := prepareToolsLoop_eq ts [] []
  simp only [List.nil_append] at hloop
  have hd : (fun t : Tool =>
      match t with
      | .function name description parameters =>
        some (⟨name, description.getD "", convertJSONSchemaToOpenAPISchema parameters⟩ :
          FunctionDeclaration)
      | .providerDefined _ _ _ => none) = Tool.declaration? := by
    funext t; cases t <;> rfl
  have hw : (fun t : Tool =>
      match t with
      | .function _ _ _ => none
      | .providerDefined id name args =>
        some (CallWarning.unsupportedTool (.providerDefined id name args))) = Tool.warning? := by
    funext t; cases t <;> rfl
  have hof := prepareTools_of_tools ts hts choice dynamicRetrievalConfig modelId
  obtain ⟨h1, h2, h3⟩ := length_partition_tools ts
  rw [hloop] at hof
  rw [hd, hw]
  cases choice with
  | none =>
    exact Or.inr ⟨(fun type h => by cases h), _, _, _, hof, rfl, rfl, h1, h2, h3⟩
  | some c =>
    cases c with
    | auto => exact Or.inr ⟨(fun type h => by cases h), _, _, _, hof, rfl, rfl, h1, h2, h3⟩
    | none => exact Or.inr ⟨(fun type h => by cases h), _, _, _, hof, rfl, rfl, h1, h2, h3⟩
    | required => exact Or.inr ⟨(fun type h => by cases h), _, _, _, hof, rfl, rfl, h1, h2, h3⟩
    | tool toolName =>
      exact Or.inr ⟨(fun type h => by cases h), _, _, _, hof, rfl, rfl, h1, h2, h3⟩
    | other type => exact Or.inl ⟨⟨type, rfl⟩, _, hof⟩

/-- Witness for C34: a provider-defined tool between two function tools, with
the tool choice `required`. -/
theorem prepareTools_partition_witness :
    [Tool.function "f" (some "d") (.boolean true),
      Tool.providerDefined "google.search" "search" .null,
      Tool.function "g" none (.boolean true)] ≠ [] ∧
    prepareTools ⟨some [Tool.function "f" (some "d") (.boolean true),
        Tool.providerDefined "google.search" "search" .null,
        Tool.function "g" none (.boolean true)], some .required⟩ false none "gemini-1.5-pro" =
      .ok ⟨some (.functionDeclarations
          [⟨"f", "d", .object [("type", .string "boolean"), ("properties", .object [])]⟩,
            ⟨"g", "", .object [("type", .string "boolean"), ("properties", .object [])]⟩]),
        some ⟨⟨"ANY", none⟩⟩,
        [.unsupportedTool (Tool.providerDefined "google.search" "search" .null)]⟩ ∧
    (((∃ type, some ToolChoice.required = some (.other type)) ∧
      ∃ e, prepareTools ⟨some [Tool.function "f" (some "d") (.boolean true),
        Tool.providerDefined "google.search" "search" .null,
        Tool.function "g" none (.boolean true)], some .required⟩ false none "gemini-1.5-pro" =
          .error e) ∨
      ∃ declarations toolConfig warnings,
        prepareTools ⟨some [Tool.function "f" (some "d") (.boolean true),
          Tool.providerDefined "google.search" "search" .null,
          Tool.function "g" none (.boolean true)], some .required⟩ false none "gemini-1.5-pro" =
          .ok ⟨some (.functionDeclarations declarations), toolConfig, warnings⟩ ∧
        declarations.length + warnings.length = 3) := by
  refine ⟨by simp, rfl, ?_⟩
  rcases prepareTools_partition [Tool.function "f" (some "d") (.boolean true),
      Tool.providerDefined "google.search" "search" .null,
      Tool.function "g" none (.boolean true)] (by simp) (some .required) none
      "gemini-1.5-pro" with h | ⟨_, d, c, w, h1, _, _, _, _, h6⟩
  · exact Or.inl h
  · exact Or.inr ⟨d, c, w, h1, h6⟩

/-- Claim C35: with search grounding disabled and the tool list absent or
empty, `prepareTools` returns no tools, no tool config and no warnings for
every tool choice, absent or present, `required` and `tool` included, and also
for a tool-choice tag that is not recognised, for which no error is raised. -/
theorem prepareTools_without_tools (choice : Option ToolChoice)
    (dynamicRetrievalConfig : Option DynamicRetrievalConfig) (modelId : String) :
    prepareTools ⟨none, choice⟩ false dynamicRetrievalConfig modelId = .ok ⟨none, none, []⟩ ∧
    prepareTools ⟨some [], choice⟩ false dynamicRetrievalConfig modelId =
      .ok ⟨none, none, []⟩ ∧
    (∀ toolName,
      prepareTools ⟨some [], some (.tool toolName)⟩ false dynamicRetrievalConfig modelId =
        .ok ⟨none, none, []⟩) ∧
    prepareTools ⟨none, some .required⟩ false dynamicRetrievalConfig modelId =
      .ok ⟨none, none, []⟩ ∧
    (∀ type,
      prepareTools ⟨none, some (.other type)⟩ false dynamicRetrievalConfig modelId =
          .ok ⟨none, none, []⟩ ∧
        prepareTools ⟨some [], some (.other type)⟩ false dynamicRetrievalConfig modelId =
          .ok ⟨none, none, []⟩) :=
  ⟨rfl, rfl, fun _ => rfl, rfl, fun _ => ⟨rfl, rfl⟩⟩

/-! ## Streaming: text deltas and the tool-call latch -/

/-- The events of the loop over the tool calls hold no `text-delta` event. -/
theorem toolCallEvents_no_textDelta (calls : List ToolCall) :
    (toolCallEvents calls).filter StreamPart.isTextDelta = [] := by
  induction calls with
  | nil => rfl
  | cons tc rest ih =>
    simp only [toolCallEvents, List.filter, StreamPart.isTextDelta]
    exact ih

/-- The events of the loop over the inline-data parts hold no `text-delta`
event. -/
theorem fileEvents_no_textDelta (ps : List ResponsePart) :
    (ps.filterMap fileEvents).filter StreamPart.isTextDelta = [] := by
  rw [List.filter_eq_nil_iff]
  intro e he
  obtain ⟨p, _, hp⟩ := List.mem_filterMap.mp he
  cases p with
  | text t => simp [fileEvents] at hp
  | functionCall n a => simp [fileEvents] at hp
  | inlineData m d =>
    simp only [fileEvents, Option.some.injEq] at hp
    rw [← hp]
    simp [StreamPart.isTextDelta]

/-- The `text-delta` events of the content block: one with the text of
`getTextFromParts` when that is not `undefined`, none otherwise. -/
theorem contentEvents_textDelta (stringify : JSValue → String) (generateId : Nat → String)
    (st : StreamState) (parts : Option (List ResponsePart)) :
    (contentEvents stringify generateId st parts).2.filter StreamPart.isTextDelta =
      match getTextFromParts parts with
      | some deltaText => [.textDelta deltaText]
      | none => [] := by
  have htext : (match getTextFromParts parts with
      | some deltaText => [StreamPart.textDelta deltaText]
      | none => []).filter StreamPart.isTextDelta =
      match getTextFromParts parts with
      | some deltaText => [.textDelta deltaText]
      | none => [] := by
    cases getTextFromParts parts with
    | none => rfl
    | some t => rfl
  have hfile : (match getInlineDataParts parts with
      | some ps => ps.filterMap fileEvents
      | none => []).filter StreamPart.isTextDelta = [] := by
    cases getInlineDataParts parts with
    | none => rfl
    | some ps => exact fileEvents_no_textDelta ps
  simp only [contentEvents]
  cases (getToolCallsFromParts stringify generateId st.nextId parts).1 with
  | none =>
    simp only [List.filter_append, htext, hfile, List.append_nil]
  | some calls =>
    simp only [List.filter_append, htext, hfile, toolCallEvents_no_textDelta, List.append_nil]

/-- The text of `getTextFromParts` for the parts of a content that is present. -/
theorem getTextFromParts_partList (content : CandidateContent) :
    content ≠ .absent →
    getTextFromParts
        (match content with
          | .absent => none
          | .empty => none
          | .content _ parts => parts.value) =
      if content.partList.any ResponsePart.isText then
        some (String.join (content.partList.filterMap (fun p => match p with
          | .text t => some t
          | _ => none)))
      else none := by
  intro h
  cases content with
  | absent => exact absurd rfl h
  | empty => rfl
  | content role parts =>
    cases parts with
    | absent => rfl
    | null => rfl
    | present ps =>
      simp only [PartsField.value, CandidateContent.partList]
      have hget : getTextFromParts (some ps) =
          if (ps.filter ResponsePart.isText).length = 0 then none
          else some (String.join ((ps.filter ResponsePart.isText).map ResponsePart.textOf)) :=
        rfl
      rw [hget]
      by_cases hany : ps.any ResponsePart.isText = true
      · rw [if_pos hany]
        obtain ⟨p, hp1, hp2⟩ := List.any_eq_true.mp hany
        have hmem : p ∈ ps.filter ResponsePart.isText := List.mem_filter.mpr ⟨hp1, hp2⟩
        have hlen : ¬ (ps.filter ResponsePart.isText).length = 0 := by
          intro h0
          rw [List.length_eq_zero.mp h0] at hmem
          cases hmem
        rw [if_neg hlen, textOf_filter_eq_filterMap]
      · rw [if_neg hany]
        have hnil : ps.filter ResponsePart.isText = [] := by
          rw [List.filter_eq_nil_iff]
          intro p hp hpt
          exact hany (List.any_eq_true.mpr ⟨p, hp, hpt⟩)
        rw [hnil]
        rfl

/-- The source events hold no `text-delta` event. -/
theorem sourceEvents_no_textDelta (sources : List Source) :
    (sources.map StreamPart.source).filter StreamPart.isTextDelta = [] := by
  rw [List.filter_eq_nil_iff]
  intro e he
  obtain ⟨s, _, hs⟩ := List.mem_map.mp he
  rw [← hs]
  simp [StreamPart.isTextDelta]

/-- Counterexample to C36 as stated: a chunk whose only part is a text part
with the empty text makes the transform emit a `text-delta` event, although the
concatenation of the text parts is empty, and that event carries the empty
`textDelta`. -/
theorem transform_empty_text_delta :
    (transform (fun _ => "") (fun _ => "id") (StreamState.initial 0)
        (.success ⟨some [⟨.content "model" (.present [.text ""]), none, none, none⟩],
          none⟩)).2 = [.textDelta ""] ∧
    String.join ([ResponsePart.text ""].filterMap (fun p => match p with
      | .text t => some t
      | _ => none)) = "" :=
  ⟨rfl, rfl⟩

/-- Claim C36, amended: for a successfully parsed chunk whose first candidate
has content, the transform emits a `text-delta` event exactly when the parts of
that candidate hold at least one text part, and then exactly one, whose
`textDelta` is the concatenation, in part order, of the texts of the text
parts. -/
theorem transform_text_delta (stringify : JSValue → String) (generateId : Nat → String)
    (st : StreamState) (value : ChunkValue) (candidate : Candidate) (others : List Candidate)
    (hc : value.candidates = some (candidate :: others))
    (hcontent : candidate.content ≠ .absent) :
    (transform stringify generateId st (.success value)).2.filter StreamPart.isTextDelta =
        (if candidate.content.partList.any ResponsePart.isText then
          [.textDelta (String.join (candidate.content.partList.filterMap (fun p => match p with
            | .text t => some t
            | _ => none)))]
        else []) ∧
    ((∃ e ∈ (transform stringify generateId st (.success value)).2, e.isTextDelta = true) ↔
      ∃ p ∈ candidate.content.partList, p.isText = true) ∧
    ((transform stringify generateId st (.success value)).2.filter
      StreamPart.isTextDelta).length ≤ 1 := by
  have hmain : (transform stringify generateId st (.success value)).2.filter
      StreamPart.isTextDelta =
        (if candidate.content.partList.any ResponsePart.isText then
          [.textDelta (String.join (candidate.content.partList.filterMap (fun p => match p with
            | .text t => some t
            | _ => none)))]
        else []) := by
    have hst : ∀ st1 : StreamState,
        (match candidate.content with
          | .absent => (st1, [])
          | .empty => contentEvents stringify generateId st1 none
          | .content _ parts => contentEvents stringify generateId st1 parts.value).2.filter
            StreamPart.isTextDelta =
          match getTextFromParts
            (match candidate.content with
              | .absent => none
              | .empty => none
              | .content _ parts => parts.value) with
          | some deltaText => [.textDelta deltaText]
          | none => [] := by
      intro st1
      cases hcc : candidate.content with
      | absent => exact absurd hcc hcontent
      | empty => exact contentEvents_textDelta stringify generateId st1 none
      | content role parts => exact contentEvents_textDelta stringify generateId st1 parts.value
    have htext := getTextFromParts_partList candidate.content hcontent
    simp only [transform, hc]
    cases hfr : candidate.finishReason with
    | none =>
      simp only []
      rw [hst, htext]
      by_cases hany : candidate.content.partList.any ResponsePart.isText = true
      · rw [if_pos hany, if_pos hany]
      · rw [if_neg hany, if_neg hany]
    | some reason =>
      simp only [List.filter_append, sourceEvents_no_textDelta, List.append_nil]
      rw [hst, htext]
      by_cases hany : candidate.content.partList.any ResponsePart.isText = true
      · rw [if_pos hany, if_pos hany]
      · rw [if_neg hany, if_neg hany]
  refine ⟨hmain, ?_, ?_⟩
  · constructor
    · rintro ⟨e, he, het⟩
      have hmem : e ∈ (transform stringify generateId st (.success value)).2.filter
          StreamPart.isTextDelta := List.mem_filter.mpr ⟨he, het⟩
      rw [hmain] at hmem
      by_cases hany : candidate.content.partList.any ResponsePart.isText = true
      · exact List.any_eq_true.mp hany
      · rw [if_neg hany] at hmem
        cases hmem
    · rintro ⟨p, hp, hpt⟩
      have hany : candidate.content.partList.any ResponsePart.isText = true :=
        List.any_eq_true.mpr ⟨p, hp, hpt⟩
      rw [if_pos hany] at hmain
      have hmem : StreamPart.textDelta (String.join (candidate.content.partList.filterMap
          (fun p => match p with
            | .text t => some t
            | _ => none))) ∈ (transform stringify generateId st (.success value)).2.filter
          StreamPart.isTextDelta := by
        rw [hmain]
        exact List.mem_singleton.mpr rfl
      exact ⟨_, (List.mem_filter.mp hmem).1, rfl⟩
  · rw [hmain]
    split
    · exact Nat.le_refl 1
    · exact Nat.zero_le 1

/-- Witness for C36: a chunk with two text parts around a function call gives
one `text-delta` event with the joined text. -/
theorem transform_text_delta_witness :
    (⟨some [⟨.content "model" (.present [.text "Hel", .functionCall "f" .null, .text "lo"]),
        none, none, none⟩], none⟩ : ChunkValue).candidates =
      some ([⟨.content "model" (.present [.text "Hel", .functionCall "f" .null, .text "lo"]),
        none, none, none⟩] : List Candidate) ∧
    (transform (fun _ => "{}") (fun _ => "id") (StreamState.initial 0)
        (.success ⟨some [⟨.content "model"
          (.present [.text "Hel", .functionCall "f" .null, .text "lo"]),
            none, none, none⟩], none⟩)).2.filter StreamPart.isTextDelta =
      [.textDelta "Hello"] := by
  refine ⟨rfl, ?_⟩
  have h := (transform_text_delta (fun _ => "{}") (fun _ => "id") (StreamState.initial 0)
    ⟨some [⟨.content "model" (.present [.text "Hel", .functionCall "f" .null, .text "lo"]),
      none, none, none⟩], none⟩
    ⟨.content "model" (.present [.text "Hel", .functionCall "f" .null, .text "lo"]),
      none, none, none⟩ [] rfl (by intro h; cases h)).1
  rw [h]
  rfl

/-- The content block sets the tool-call flag when a function-call part is
among the parts and never clears it. -/
theorem contentEvents_hasToolCalls (stringify : JSValue → String) (generateId : Nat → String)
    (st : StreamState) (parts : Option (List ResponsePart)) :
    (contentEvents stringify generateId st parts).1.hasToolCalls =
      (st.hasToolCalls || (parts.getD []).any ResponsePart.isFunctionCall) := by
  have hany := hasToolCalls_iff_any stringify generateId st.nextId parts
  simp only [contentEvents]
  cases hcalls : (getToolCallsFromParts stringify generateId st.nextId parts).1 with
  | none =>
    rw [hcalls] at hany
    simp only [] at hany ⊢
    rw [← hany, Bool.or_false]
  | some calls =>
    rw [hcalls] at hany
    simp only [] at hany ⊢
    rw [← hany, Bool.or_comm]

/-- The new state of the transform: the tool-call flag is the old one or the
occurrence of a function-call part in the chunk, and the finish reason is the
mapped reason of the chunk, with the new flag, when the chunk carries one, and
the old finish reason otherwise. -/
theorem transform_flag_and_reason (stringify : JSValue → String) (generateId : Nat → String)
    (st : StreamState) (chunk : ParseResult) :
    (transform stringify generateId st chunk).1.hasToolCalls =
        (st.hasToolCalls || chunk.hasFunctionCall) ∧
    (transform stringify generateId st chunk).1.finishReason =
      match chunk.finishReason? with
      | some reason =>
        mapGoogleGenerativeAIFinishReason (some reason) (st.hasToolCalls || chunk.hasFunctionCall)
      | none => st.finishReason := by
  cases chunk with
  | failure err =>
    exact ⟨(Bool.or_false _).symm, rfl⟩
  | success value =>
    obtain ⟨candidates, usageMetadata⟩ := value
    have hu : ∀ st0 : StreamState,
        (match usageMetadata with
          | some u => { st0 with usage := usageOf (some u) }
          | none => st0).hasToolCalls = st0.hasToolCalls ∧
        (match usageMetadata with
          | some u => { st0 with usage := usageOf (some u) }
          | none => st0).finishReason = st0.finishReason := by
      intro st0
      cases usageMetadata <;> exact ⟨rfl, rfl⟩
    cases candidates with
    | none =>
      exact ⟨(hu st).1.trans (Bool.or_false _).symm, (hu st).2⟩
    | some cs =>
      cases cs with
      | nil => exact ⟨(hu st).1.trans (Bool.or_false _).symm, (hu st).2⟩
      | cons candidate rest =>
        obtain ⟨content, finishReason, safetyRatings, groundingMetadata⟩ := candidate
        have hblock : ∀ st0 : StreamState,
            (match content with
              | .absent => (st0, ([] : List StreamPart))
              | .empty => contentEvents stringify generateId st0 none
              | .content _ parts => contentEvents stringify generateId st0 parts.value).1.hasToolCalls =
              (st0.hasToolCalls || content.partList.any ResponsePart.isFunctionCall) ∧
            (match content with
              | .absent => (st0, ([] : List StreamPart))
              | .empty => contentEvents stringify generateId st0 none
              | .content _ parts => contentEvents stringify generateId st0 parts.value).1.finishReason =
              st0.finishReason := by
          intro st0
          cases content with
          | absent => exact ⟨(Bool.or_false _).symm, rfl⟩
          | empty =>
            exact ⟨contentEvents_hasToolCalls stringify generateId st0 none,
              (contentEvents_fields stringify generateId st0 none).1⟩
          | content role parts =>
            refine ⟨?_, (contentEvents_fields stringify generateId st0 parts.value).1⟩
            rw [contentEvents_hasToolCalls]
            cases parts <;> rfl
        have hflag : ParseResult.hasFunctionCall
            (.success ⟨some (⟨content, finishReason, safetyRatings, groundingMetadata⟩ :: rest),
              usageMetadata⟩) = content.partList.any ResponsePart.isFunctionCall := rfl
        have hreason : ParseResult.finishReason?
            (.success ⟨some (⟨content, finishReason, safetyRatings, groundingMetadata⟩ :: rest),
              usageMetadata⟩) = finishReason := rfl
        rw [hflag, hreason]
        cases finishReason with
        | none =>
          simp only [transform]
          exact ⟨(hblock _).1.trans (by rw [(hu st).1]), (hblock _).2.trans (hu st).2⟩
        | some reason =>
          simp only [transform]
          refine ⟨(hblock _).1.trans (by rw [(hu st).1]), ?_⟩
          rw [(hblock _).1, (hu st).1]

/-- Over a sequence of chunks the tool-call flag is the old one or the
occurrence of a function-call part in some chunk. -/
theorem transformAll_hasToolCalls (stringify : JSValue → String) (generateId : Nat → String)
    (chunks : List ParseResult) :
    ∀ st : StreamState,
      (transformAll stringify generateId st chunks).1.hasToolCalls =
        (st.hasToolCalls || chunks.any ParseResult.hasFunctionCall) := by
  induction chunks with
  | nil => intro st; exact (Bool.or_false _).symm
  | cons chunk rest ih =>
    intro st
    have hcons : (transformAll stringify generateId st (chunk :: rest)).1 =
        (transformAll stringify generateId (transform stringify generateId st chunk).1 rest).1 :=
      rfl
    rw [hcons, ih, (transform_flag_and_reason stringify generateId st chunk).1, List.any_cons,
      Bool.or_assoc]

/-- Chunks that carry no finish reason leave the recorded finish reason as it
is. -/
theorem transformAll_finishReason_kept (stringify : JSValue → String)
    (generateId : Nat → String) (chunks : List ParseResult)
    (h : ∀ c ∈ chunks, c.finishReason? = none) :
    ∀ st : StreamState,
      (transformAll stringify generateId st chunks).1.finishReason = st.finishReason := by
  induction chunks with
  | nil => intro st; rfl
  | cons chunk rest ih =>
    intro st
    have hcons : (transformAll stringify generateId st (chunk :: rest)).1 =
        (transformAll stringify generateId (transform stringify generateId st chunk).1 rest).1 :=
      rfl
    rw [hcons, ih (fun c hc => h c (List.mem_cons_of_mem _ hc)),
      (transform_flag_and_reason stringify generateId st chunk).2,
      h chunk (List.mem_cons_self _ _)]

/-- Claim C37: the tool-call flag of the stream is never cleared, and the
finish event reports the reason of the last chunk that carries one, mapped with
the flag accumulated up to and including that chunk: when that reason is `STOP`
the finish event reports `tool-calls` if a function-call part occurred in that
chunk or in an earlier one, and `stop` otherwise; the chunks before it, with or
without a finish reason of their own, matter only through their function-call
parts. -/
theorem doStreamEvents_finish_reason_latch (stringify : JSValue → String)
    (generateId : Nat → String) (nextId : Nat) (before after : List ParseResult)
    (chunk : ParseResult) (reason : String)
    (hreason : chunk.finishReason? = some reason)
    (hafter : ∀ c ∈ after, c.finishReason? = none) :
    (∀ (st : StreamState) (c : ParseResult), st.hasToolCalls = true →
      (transform stringify generateId st c).1.hasToolCalls = true) ∧
    ∃ events finishReason usage providerMetadata,
      doStreamEvents stringify generateId nextId (before ++ chunk :: after) =
        events ++ [.finish finishReason usage providerMetadata] ∧
      finishReason =
        mapGoogleGenerativeAIFinishReason (some reason)
          ((before ++ [chunk]).any ParseResult.hasFunctionCall) ∧
      (reason = "STOP" →
        ((∃ c ∈ before ++ [chunk], c.hasFunctionCall = true) → finishReason = "tool-calls") ∧
        ((∀ c ∈ before ++ [chunk], c.hasFunctionCall = false) → finishReason = "stop")) := by
  refine ⟨?_, ?_⟩
  · intro st c hst
    rw [(transform_flag_and_reason stringify generateId st c).1, hst, Bool.true_or]
  · have heq : doStreamEvents stringify generateId nextId (before ++ chunk :: after) =
        (transformAll stringify generateId (StreamState.initial nextId)
          (before ++ chunk :: after)).2 ++
        [.finish
          (transformAll stringify generateId (StreamState.initial nextId)
            (before ++ chunk :: after)).1.finishReason
          (transformAll stringify generateId (StreamState.initial nextId)
            (before ++ chunk :: after)).1.usage
          (transformAll stringify generateId (StreamState.initial nextId)
            (before ++ chunk :: after)).1.providerMetadata] := rfl
    have hfin : (transformAll stringify generateId (StreamState.initial nextId)
        (before ++ chunk :: after)).1.finishReason =
        mapGoogleGenerativeAIFinishReason (some reason)
          ((before ++ [chunk]).any ParseResult.hasFunctionCall) := by
      have hcons : ∀ st : StreamState,
          (transformAll stringify generateId st (chunk :: after)).1 =
          (transformAll stringify generateId (transform stringify generateId st chunk).1
            after).1 := fun st => rfl
      rw [transformAll_append]
      simp only []
      rw [hcons, transformAll_finishReason_kept stringify generateId after hafter,
        (transform_flag_and_reason stringify generateId _ chunk).2, hreason]
      simp only []
      rw [transformAll_hasToolCalls, List.any_append, List.any_cons, List.any_nil,
        Bool.or_false]
      rfl
    refine ⟨_, _, _, _, heq, hfin, ?_⟩
    intro hstop
    rw [hfin, hstop]
    constructor
    · intro hex
      have hany : (before ++ [chunk]).any ParseResult.hasFunctionCall = true :=
        List.any_eq_true.mpr hex
      rw [hany]
      rfl
    · intro hall
      have hany : (before ++ [chunk]).any ParseResult.hasFunctionCall = false := by
        rw [List.any_eq_false]
        intro c hc
        rw [hall c hc]
        simp
      rw [hany]
      rfl

/-- Witness for C37: a chunk with a function call, then a chunk with the
reason `MAX_TOKENS`, then a chunk with the reason `STOP` and text only, then a
chunk without reason: the finish event reports `tool-calls`. -/
theorem doStreamEvents_finish_reason_latch_witness :
    ParseResult.finishReason?
        (.success ⟨some [⟨.content "model" (.present [.text "b"]), some "STOP", none, none⟩],
          none⟩) = some "STOP" ∧
    ∃ events usage providerMetadata,
      doStreamEvents (fun _ => "{}") (fun _ => "id") 0
          ([.success ⟨some [⟨.content "model" (.present [.functionCall "f" .null]), none, none,
              none⟩], none⟩,
            .success ⟨some [⟨.content "model" (.present [.text "a"]), some "MAX_TOKENS", none,
              none⟩], none⟩] ++
            .success ⟨some [⟨.content "model" (.present [.text "b"]), some "STOP", none, none⟩],
              none⟩ ::
            [.success ⟨some [⟨.content "model" (.present [.text "c"]), none, none, none⟩],
              none⟩]) =
        events ++ [.finish "tool-calls" usage providerMetadata] := by
  refine ⟨rfl, ?_⟩
  obtain ⟨_, events, finishReason, usage, providerMetadata, h1, _, h3⟩ :=
    doStreamEvents_finish_reason_latch (fun _ => "{}") (fun _ => "id") 0
      [.success ⟨some [⟨.content "model" (.present [.functionCall "f" .null]), none, none,
          none⟩], none⟩,
        .success ⟨some [⟨.content "model" (.present [.text "a"]), some "MAX_TOKENS", none,
          none⟩], none⟩]
      [.success ⟨some [⟨.content "model" (.present [.text "c"]), none, none, none⟩], none⟩]
      (.success ⟨some [⟨.content "model" (.present [.text "b"]), some "STOP", none, none⟩],
        none⟩) "STOP" rfl
      (by
        intro c hc
        simp only [List.mem_singleton] at hc
        rw [hc]
        rfl)
  have h4 := (h3 rfl).1 ⟨_, List.mem_append_left _ (List.mem_cons_self _ _), rfl⟩
  rw [h4] at h1
  exact ⟨events, usage, providerMetadata, h1⟩

/-! ## Response mapping: candidates without content, and no candidate -/

/-- Claim C38: the result mapping of `doGenerate` returns a result for every
validated response with at least one candidate; when the content of the first
candidate is absent, the empty object, or a content whose `parts` is absent or
`null`, the text and the tool calls of the result are `undefined`; and for a
validated response whose list of candidates is empty the mapping fails and
returns no result. -/
theorem doGenerateResult_defined (stringify : JSValue → String) (generateId : Nat → String)
    (next : Nat) (response : GenerateResponse) :
    (response.candidates ≠ [] →
      ∃ r, doGenerateResult stringify generateId next response = .ok r ∧
        ∀ candidate others, response.candidates = candidate :: others →
          (candidate.content = .absent ∨ candidate.content = .empty ∨
            (∃ role, candidate.content = .content role .absent) ∨
            (∃ role, candidate.content = .content role .null)) →
          r.text = none ∧ r.toolCalls = none) ∧
    (response.candidates = [] →
      ∃ e, doGenerateResult stringify generateId next response = .error e) := by
  obtain ⟨candidates, usageMetadata⟩ := response
  constructor
  · intro hne
    cases candidates with
    | nil => exact absurd rfl hne
    | cons c rest =>
      refine ⟨_, rfl, ?_⟩
      intro candidate others hcs hcontent
      simp only [List.cons.injEq] at hcs
      obtain ⟨hc, _⟩ := hcs
      subst hc
      rcases hcontent with h | h | ⟨role, h⟩ | ⟨role, h⟩ <;>
        (simp only [h]; exact ⟨rfl, rfl⟩)
  · intro hnil
    simp only at hnil
    subst hnil
    exact ⟨_, rfl⟩

/-- Witness for C38: a response whose only candidate has the empty object as
content, and a response without candidates. -/
theorem doGenerateResult_defined_witness :
    (∃ r, doGenerateResult (fun _ => "{}") (fun _ => "id") 0
        ⟨[⟨.empty, some "STOP", none, none⟩], none⟩ = .ok r ∧
      r.text = none ∧ r.toolCalls = none) ∧
    ∃ e, doGenerateResult (fun _ => "{}") (fun _ => "id") 0 ⟨[], none⟩ = .error e := by
  obtain ⟨r, h1, h2⟩ := (doGenerateResult_defined (fun _ => "{}") (fun _ => "id") 0
    ⟨[⟨.empty, some "STOP", none, none⟩], none⟩).1 (by intro h; cases h)
  exact ⟨⟨r, h1, h2 ⟨.empty, some "STOP", none, none⟩ [] rfl (Or.inr (Or.inl rfl))⟩,
    (doGenerateResult_defined (fun _ => "{}") (fun _ => "id") 0 ⟨[], none⟩).2 rfl⟩

/-! ## Request arguments: the system instruction per mode -/

/-- Claim C39: when the prompt is translated to a system instruction and
contents, `getArgs` puts both into the request body in the modes `regular`
(when the tools are prepared without error) and `object-json`, and in the mode
`object-tool` it returns a body with the same contents and without system
instruction, whatever the translated system instruction is. -/
theorem getArgs_systemInstruction (modelId : String) (settings : GoogleSettings)
    (convertUint8ArrayToBase64 : List Nat → String) (options : CallOptions)
    (translated : GooglePrompt)
    (htranslated : convertToGoogleGenerativeAIMessages convertUint8ArrayToBase64
      options.prompt = .ok translated) :
    (∀ mode prepared,
      prepareTools mode (settings.useSearchGrounding.getD false)
        settings.dynamicRetrievalConfig modelId = .ok prepared →
      ∃ r, getArgs modelId settings convertUint8ArrayToBase64
          { options with mode := .regular mode } = .ok r ∧
        r.args.systemInstruction = translated.systemInstruction ∧
        r.args.contents = translated.contents) ∧
    (∀ schema,
      ∃ r, getArgs modelId settings convertUint8ArrayToBase64
          { options with mode := .objectJson schema } = .ok r ∧
        r.args.systemInstruction = translated.systemInstruction ∧
        r.args.contents = translated.contents) ∧
    (∀ tool,
      ∃ r, getArgs modelId settings convertUint8ArrayToBase64
          { options with mode := .objectTool tool } = .ok r ∧
        r.args.systemInstruction = none ∧
        r.args.contents = translated.contents) := by
  refine ⟨?_, ?_, ?_⟩
  · intro mode prepared hprepared
    simp only [getArgs, htranslated, hprepared]
    exact ⟨_, rfl, rfl, rfl⟩
  · intro schema
    simp only [getArgs, htranslated]
    exact ⟨_, rfl, rfl, rfl⟩
  · intro tool
    simp only [getArgs, htranslated]
    exact ⟨_, rfl, rfl, rfl⟩

/-- Witness for C39: a prompt of one system message and one user message; the
regular mode sends the system instruction, the object-tool mode does not, and
both send the same contents. -/
theorem getArgs_systemInstruction_witness :
    convertToGoogleGenerativeAIMessages (fun _ => "")
        [.system "be brief", .user [.text "hi"]] =
      .ok ⟨some ⟨[.text "be brief"]⟩, [⟨"user", [.text "hi"]⟩]⟩ ∧
    (∃ r, getArgs "gemini-1.5-pro" ⟨none, none, none, none, none, none⟩ (fun _ => "")
        ⟨.regular ⟨none, none⟩, [.system "be brief", .user [.text "hi"]], none, none, none,
          none, none, none, none, none, none, none⟩ = .ok r ∧
      r.args.systemInstruction = some ⟨[.text "be brief"]⟩ ∧
      r.args.contents = [⟨"user", [.text "hi"]⟩]) ∧
    (∃ r, getArgs "gemini-1.5-pro" ⟨none, none, none, none, none, none⟩ (fun _ => "")
        ⟨.objectTool ⟨"answer", none, .boolean true⟩,
          [.system "be brief", .user [.text "hi"]], none, none, none,
          none, none, none, none, none, none, none⟩ = .ok r ∧
      r.args.systemInstruction = none ∧
      r.args.contents = [⟨"user", [.text "hi"]⟩]) := by
  have h := getArgs_systemInstruction "gemini-1.5-pro" ⟨none, none, none, none, none, none⟩
    (fun _ => "")
    ⟨.objectJson none, [.system "be brief", .user [.text "hi"]], none, none, none,
      none, none, none, none, none, none, none⟩
    ⟨some ⟨[.text "be brief"]⟩, [⟨"user", [.text "hi"]⟩]⟩ rfl
  exact ⟨rfl, h.1 ⟨none, none⟩ ⟨none, none, []⟩ rfl,
    h.2.2 ⟨"answer", none, .boolean true⟩⟩

/-! ## Schema translator: precedence in the flattened `anyOf` -/

/-- Counterexample to C40 as stated: the merged branch defines `minLength` (1)
and the outer schema has a `minLength` of its own (5); the result keeps the
outer value, because `minLength` is assigned after the merge. -/
theorem convert_merge_outer_minLength_kept :
    convertJSONSchemaToOpenAPISchema
        (.schema (some (.single "string")) none none none none none none none none none
          (some 1) none []) =
      .object [("type", .string "string"), ("minLength", .number 1)] ∧
    convertJSONSchemaToOpenAPISchema
        (.schema none none none none none none
          (some [schemaOfType (.single "null"),
            .schema (some (.single "string")) none none none none none none none none none
              (some 1) none []])
          none none none (some 5) none []) =
      .object [("nullable", .bool true), ("type", .string "string"),
        ("minLength", .number 5)] :=
  ⟨rfl, rfl⟩

/-- Claim C40, amended: when the `anyOf` of a translated schema is flattened and
the remaining branch translates to a schema, every keyword of that translation
is in the result with the value of the branch, except `oneOf` and `minLength`
when the outer schema has them, which are assigned after the merge and keep the
outer value; every other keyword has the value it has in the translation of the
outer schema without its `anyOf`; `nullable` is `true`; and no translated
schema has an entry `nullable` with another value than `true`. -/
theorem convert_anyOf_merge_precedence (type : Option SchemaType) (description : Option String)
    (required : Option (List String))
    (properties : Option (List (String × JSONSchema7Definition)))
    (items : Option (OneOrMany JSONSchema7Definition))
    (allOf oneOf : Option (List JSONSchema7Definition))
    (format : Option String) (constValue : Option JSValue) (minLength : Option Int)
    (enumValues : Option (List JSValue)) (others : JSObject)
    (xs : List JSONSchema7Definition) (b : JSONSchema7Definition) (c : JSObject)
    (hnull : xs.any isNullTypeSchema = true)
    (hone : xs.filter (fun s => !isNullTypeSchema s) = [b])
    (hne : isEmptyObjectSchema (.schema type description required properties items allOf
      (some xs) oneOf format constValue minLength enumValues others) = false)
    (hc : convertJSONSchemaToOpenAPISchema b = .object c) :
    ∃ obj obj0,
      convertJSONSchemaToOpenAPISchema
        (.schema type description required properties items allOf (some xs) oneOf format
          constValue minLength enumValues others) = .object obj ∧
      convertJSONSchemaToOpenAPISchema
        (.schema type description required properties items allOf none oneOf format
          constValue minLength enumValues others) = .object obj0 ∧
      (∀ k v, JSObject.get? c k = some v → (k = "oneOf" → oneOf = none) →
        (k = "minLength" → minLength = none) → JSObject.get? obj k = some v) ∧
      (∀ ys, oneOf = some ys →
        JSObject.get? obj "oneOf" = some (.array (ys.map convertJSONSchemaToOpenAPISchema))) ∧
      (∀ n, minLength = some n → JSObject.get? obj "minLength" = some (.number n)) ∧
      (∀ k, k ∉ JSObject.keys c → k ≠ "nullable" →
        JSObject.get? obj k = JSObject.get? obj0 k) ∧
      JSObject.get? obj "nullable" = some (.bool true) ∧
      (∀ s o v, convertJSONSchemaToOpenAPISchema s = .object o → ("nullable", v) ∈ o →
        v = .bool true) := by
  have hconv := convert_schema type description required properties items allOf (some xs) oneOf
    format constValue minLength enumValues others
  rw [hne] at hconv
  simp only [Bool.false_eq_true, if_false, Option.getD_some, hone, List.map_cons,
    List.map_nil] at hconv
  have hconv0 := convert_schema type description required properties items allOf none oneOf
    format constValue minLength enumValues others
  have hne0 : isEmptyObjectSchema (.schema type description required properties items allOf
      none oneOf format constValue minLength enumValues others) = false := hne
  rw [hne0] at hconv0
  simp only [Bool.false_eq_true, if_false] at hconv0
  have hlen : (xs.filter (fun s => !isNullTypeSchema s)).length = 1 := by rw [hone]; rfl
  have hany : ∀ r all, withAnyOf r (some xs) [convertJSONSchemaToOpenAPISchema b] all =
      JSObject.assign (JSObject.set r "nullable" (.bool true)) c := by
    intro r all
    simp only [withAnyOf, hnull, hlen, if_true, firstValue, hc]
  have hnone : ∀ r nn all, withAnyOf r none nn all = r := fun r nn all => rfl
  refine ⟨_, _, hconv, hconv0, ?_, ?_, ?_, ?_, ?_, ?_⟩
  · intro k v hv h1 h2
    have hk : k ∈ JSObject.keys c := (JSObject.mem_keys_iff c k).mpr ⟨v, hv⟩
    simp only [buildResult]
    have e2 : ∀ r, JSObject.get? (withMinLength r minLength) k = JSObject.get? r k := by
      intro r
      by_cases hkm : k = "minLength"
      · rw [h2 hkm]; rfl
      · exact get?_of_step _ _ "minLength" k (withMinLength_shape _ _) hkm
    have e1 : ∀ r, JSObject.get?
        (withOneOf r (oneOf.map (fun xs => xs.map convertJSONSchemaToOpenAPISchema))) k =
        JSObject.get? r k := by
      intro r
      by_cases hko : k = "oneOf"
      · rw [h1 hko]; rfl
      · exact get?_of_step _ _ "oneOf" k (withOneOf_shape _ _) hko
    rw [e2, e1, hany, JSObject.get?_assign_of_mem c _ k (nodup_keys_convert b c hc) hk, hv]
  · intro ys hys
    simp only [buildResult]
    rw [get?_of_step _ _ "minLength" "oneOf" (withMinLength_shape _ _) (by decide), hys]
    exact JSObject.get?_set_self _ _ _
  · intro n hn
    simp only [buildResult]
    rw [hn]
    exact JSObject.get?_set_self _ _ _
  · intro k hk hkn
    simp only [buildResult]
    apply get?_withMinLength_congr
    apply get?_withOneOf_congr
    rw [hany, hnone, JSObject.get?_assign_of_not_mem c _ k hk,
      JSObject.get?_set_of_ne _ "nullable" k _ hkn]
  · have hk : "nullable" ∈ JSObject.keys (buildResult type description required
        format constValue minLength enumValues
        (properties.map
          (fun ps => ps.map (fun kv => (kv.1, convertJSONSchemaToOpenAPISchema kv.2))))
        (convertItems items)
        (allOf.map (fun xs => xs.map convertJSONSchemaToOpenAPISchema))
        (some xs) [convertJSONSchemaToOpenAPISchema b]
        (xs.map convertJSONSchemaToOpenAPISchema)
        (oneOf.map (fun xs => xs.map convertJSONSchemaToOpenAPISchema))) := by
      simp only [buildResult]
      apply (keys_of_step _ _ "minLength" _ (withMinLength_shape _ _)).1
      apply (keys_of_step _ _ "oneOf" _ (withOneOf_shape _ _)).1
      rw [hany]
      exact (JSObject.mem_keys_assign c _ _).mpr
        (Or.inl ((JSObject.mem_keys_set _ "nullable" _ _).mpr (Or.inr rfl)))
    obtain ⟨v, hv⟩ := (JSObject.mem_keys_iff _ _).mp hk
    have hv1 := nullable_entries_true _ _ hconv v (JSObject.mem_of_get? _ _ _ hv)
    rw [hv, hv1]
  · intro s o v ho hmem
    exact nullable_entries_true s o ho v hmem

/-- Witness for C40: an outer schema with a description and `minLength` 5 whose
`anyOf` holds a null branch and a string branch with `minLength` 1. -/
theorem convert_anyOf_merge_precedence_witness :
    [schemaOfType (.single "null"),
      JSONSchema7Definition.schema (some (.single "string")) none none none none none none none
        none none (some 1) none []].any isNullTypeSchema = true ∧
    ∃ obj,
      convertJSONSchemaToOpenAPISchema
        (.schema none (some "d") none none none none
          (some [schemaOfType (.single "null"),
            .schema (some (.single "string")) none none none none none none none none none
              (some 1) none []])
          none none none (some 5) none []) = .object obj ∧
      JSObject.get? obj "type" = some (.string "string") ∧
      JSObject.get? obj "minLength" = some (.number 5) ∧
      JSObject.get? obj "description" = some (.string "d") ∧
      JSObject.get? obj "nullable" = some (.bool true) := by
  refine ⟨rfl, ?_⟩
  obtain ⟨obj, obj0, h1, h2, h3, _, h5, h6, h7, _⟩ :=
    convert_anyOf_merge_precedence none (some "d") none none none none none none none (some 5)
      none []
      [schemaOfType (.single "null"),
        .schema (some (.single "string")) none none none none none none none none none
          (some 1) none []]
      (.schema (some (.single "string")) none none none none none none none none none
        (some 1) none [])
      [("type", .string "string"), ("minLength", .number 1)] rfl rfl rfl rfl
  have h0 : obj0 = [("description", .string "d"), ("minLength", .number 5)] := by
    have h8 : convertJSONSchemaToOpenAPISchema
        (.schema none (some "d") none none none none none none none none (some 5) none []) =
        .object [("description", .string "d"), ("minLength", .number 5)] := rfl
    rw [h8] at h2
    exact (JSValue.object.inj h2).symm
  refine ⟨obj, h1, h3 "type" _ rfl (fun _ => rfl)
    (fun h => absurd h (by decide)), h5 5 rfl, ?_,
    h7⟩
  rw [h6 "description" (by decide) (by decide), h0]
  rfl

end GoogleAI
